import Mathlib

/-!
# TinyUI: display multiplexer and key classifier

A shallow embedding of `TinyUIDemo/TinyUI.cpp` and `TinyUIDemo/TinyUI.h`.

* `byte` values are natural numbers below 256; every store that could leave the
  byte range is reduced modulo 256.
* `unsigned long` values are natural numbers below 2^32; the additions of the
  source wrap modulo 2^32.
* `int` values are integers; `/` and `%` on them are the truncating
  operations of C++ (`Int.tdiv`, `Int.tmod`).
* The static variables of `TinyUI.cpp` form the record `UIState`; every member
  function is a function on that record.
-/

namespace TinyUI

/-! ## Constants of `TinyUI.cpp` and `TinyUI.h` -/

def UI_MAXLEDARRAY : Nat := 5
def UI_NUM_SWITCHES : Nat := 6
def UI_DEBOUNCE_MS : Nat := 20
def UI_AUTO_REPEAT_DELAY : Nat := 500
def UI_AUTO_REPEAT_PERIOD : Nat := 50
def UI_DOUBLE_CLICK_TIME : Nat := 200

def TUI_P_DIGIT0 : Nat := 17
def TUI_P_DIGIT1 : Nat := 16
def TUI_P_DIGIT2 : Nat := 15
def TUI_P_DIGIT3 : Nat := 18
def TUI_P_DIGIT4 : Nat := 14
def TUI_P_SHCLK : Nat := 6
def TUI_P_SHDAT : Nat := 7
def TUI_P_SWREAD : Nat := 19

def TUI_KEY_0 : Nat := 0x0001
def TUI_KEY_1 : Nat := 0x0002
def TUI_KEY_2 : Nat := 0x0004
def TUI_KEY_3 : Nat := 0x0008
def TUI_KEY_4 : Nat := 0x0010
def TUI_KEY_A : Nat := 0x0020
def TUI_KEY_B : Nat := 0x0040
def TUI_KEY_C : Nat := 0x0080

def TUI_PRESS : Nat := 0x0100
def TUI_HOLD : Nat := 0x0200
def TUI_AUTO : Nat := 0x0400
def TUI_DOUBLE : Nat := 0x0800

def SEG_A : Nat := 0x80
def SEG_B : Nat := 0x20
def SEG_C : Nat := 0x08
def SEG_D : Nat := 0x02
def SEG_E : Nat := 0x01
def SEG_F : Nat := 0x40
def SEG_G : Nat := 0x10
def SEG_DP : Nat := 0x04

def DGT_0 : Nat := SEG_A ||| SEG_B ||| SEG_C ||| SEG_D ||| SEG_E ||| SEG_F
def DGT_1 : Nat := SEG_B ||| SEG_C
def DGT_2 : Nat := SEG_A ||| SEG_B ||| SEG_D ||| SEG_E ||| SEG_G
def DGT_3 : Nat := SEG_A ||| SEG_B ||| SEG_C ||| SEG_D ||| SEG_G
def DGT_4 : Nat := SEG_B ||| SEG_C ||| SEG_F ||| SEG_G
def DGT_5 : Nat := SEG_A ||| SEG_C ||| SEG_D ||| SEG_F ||| SEG_G
def DGT_6 : Nat := SEG_A ||| SEG_C ||| SEG_D ||| SEG_E ||| SEG_F ||| SEG_G
def DGT_7 : Nat := SEG_A ||| SEG_B ||| SEG_C
def DGT_8 : Nat := SEG_A ||| SEG_B ||| SEG_C ||| SEG_D ||| SEG_E ||| SEG_F ||| SEG_G
def DGT_9 : Nat := SEG_A ||| SEG_B ||| SEG_C ||| SEG_F ||| SEG_G

/-! ## Machine arithmetic -/

/-- The value a `byte` variable holds after `x` is stored in it. -/
def toByte (x : Nat) : Nat := x % 256

/-- The value an `unsigned long` variable holds after `x` is stored in it. -/
def toULong (x : Nat) : Nat := x % 4294967296

/-- The statement `b |= m` on a `byte` variable holding `b`. -/
def byteOr (b m : Nat) : Nat := toByte (b ||| m)

/-- The statement `b &= ~m` on a `byte` variable holding `b`: the complement is
taken on the promoted `int`, and only its low eight bits meet the byte. -/
def byteAndNot (b m : Nat) : Nat := toByte b &&& (0xFF ^^^ toByte m)

/-- Overwrite entry `i` of an array. -/
def setAt (a : Nat → Nat) (i v : Nat) : Nat → Nat :=
  fun j => if j = i then v else a j

/-! ## The static driver state -/

/-- The static variables of `TinyUI.cpp`. The arrays `uiLEDState` (5 entries)
and `uiDebounceCount` (6 entries) are functions of the index; only the entries
below `UI_MAXLEDARRAY` and `UI_NUM_SWITCHES` are ever read or written. The
handler slot holds `none` for `NULL` and `some f` for a registered function. -/
structure UIState where
  uiLEDState : Nat → Nat
  uiDebounceCount : Nat → Nat
  uiKeyStatus : Nat
  uiLastKeyStatus : Nat
  uiLastKeypress : Nat
  uiDoubleClickTime : Nat
  uiAutoRepeatTime : Nat
  uiLongPress : Nat
  uiLEDIndex : Nat
  uiSwitchStates : Nat
  uiLastSwitchStates : Nat
  uiKeyAPin : Nat
  uiKeyBPin : Nat
  uiKeyCPin : Nat
  uiKeypressHandler : Option Nat

/-- Static storage before any code has run: every variable is zero. -/
def zeroState : UIState where
  uiLEDState := fun _ => 0
  uiDebounceCount := fun _ => 0
  uiKeyStatus := 0
  uiLastKeyStatus := 0
  uiLastKeypress := 0
  uiDoubleClickTime := 0
  uiAutoRepeatTime := 0
  uiLongPress := 0
  uiLEDIndex := 0
  uiSwitchStates := 0
  uiLastSwitchStates := 0
  uiKeyAPin := 0
  uiKeyBPin := 0
  uiKeyCPin := 0
  uiKeypressHandler := none

/-- The assignments of `CTinyUI::init` to the static variables (the pin and
timer set-up has no effect on them). The variables `uiLastKeyStatus`,
`uiLastKeypress` and `uiDoubleClickTime` are not assigned. -/
def init (s : UIState) : UIState :=
  { s with
    uiLEDState := fun _ => 0
    uiDebounceCount := fun _ => 0
    uiKeyStatus := 0
    uiLEDIndex := 0
    uiSwitchStates := 0
    uiLastSwitchStates := 0
    uiAutoRepeatTime := 0
    uiKeyAPin := 0
    uiKeyBPin := 0
    uiKeyCPin := 0
    uiKeypressHandler := none
    uiLongPress := 0 }

/-- The member `CTinyUI::setKeypressHandler`. -/
def setKeypressHandler (s : UIState) (f : Option Nat) : UIState :=
  { s with uiKeypressHandler := f }

/-- The member `CTinyUI::setLEDs(which, mask)`. -/
def setLEDs (s : UIState) (which mask : Nat) : UIState :=
  let cleared := byteAndNot (s.uiLEDState 4) mask
  { s with uiLEDState := setAt s.uiLEDState 4 (byteOr cleared (toByte which)) }

/-- The member `CTinyUI::clearLEDs(which)`. -/
def clearLEDs (s : UIState) (which : Nat) : UIState :=
  { s with uiLEDState := setAt s.uiLEDState 4 (byteAndNot (s.uiLEDState 4) which) }

/-- The member `CTinyUI::show(seg0, seg1, seg2, seg3)` (`show` is reserved in
Lean). -/
def showSegs (s : UIState) (seg0 seg1 seg2 seg3 : Nat) : UIState :=
  { s with uiLEDState :=
      setAt (setAt (setAt (setAt s.uiLEDState 0 (toByte seg0)) 1 (toByte seg1))
        2 (toByte seg2)) 3 (toByte seg3) }

/-- The member `CTinyUI::cls`. -/
def cls (s : UIState) : UIState := showSegs s 0 0 0 0

/-- The local table `xlatDigit` of `showNumber`. -/
def xlatDigit : List Nat :=
  [DGT_0, DGT_1, DGT_2, DGT_3, DGT_4, DGT_5, DGT_6, DGT_7, DGT_8, DGT_9]

/-- The local table `div` of `showNumber`. -/
def div : List Int := [1000, 100, 10, 1]

/-- What can go wrong in `showNumber`: a read of `xlatDigit` or `div` at an
index outside the table (undefined behaviour in the source). `loopBound` marks
a loop that has not ended within the iteration bound of the embedding. -/
inductive Fault where
  | xlatIndex (index : Int)
  | divIndex (index : Nat)
  | loopBound
  deriving DecidableEq, Repr

/-- The read `xlatDigit[i]` for an `int` index. -/
def xlatAt (i : Int) : Except Fault Nat :=
  if 0 ≤ i then
    match xlatDigit[i.toNat]? with
    | some v => .ok v
    | none => .error (.xlatIndex i)
  else .error (.xlatIndex i)

/-- The `while(start < 4)` loop of `showNumber`; `k` bounds the number of
iterations still to run and is `4 - start` at every call. -/
def showNumberLoop : Nat → UIState → Int → Nat → Except Fault UIState
  | 0, s, _, start => if start < 4 then .error .loopBound else .ok s
  | k + 1, s, n, start =>
    if start < 4 then
      match div[start]? with
      | none => .error (.divIndex start)
      | some divider =>
        match xlatAt (Int.tdiv n divider) with
        | .error e => .error e
        | .ok v =>
          showNumberLoop k { s with uiLEDState := setAt s.uiLEDState start v }
            (Int.tmod n divider) (start + 1)
    else .ok s

/-- The member `CTinyUI::showNumber(n, start)`. -/
def showNumber (s : UIState) (n start : Int) : Except Fault UIState :=
  if start < 0 ∨ start ≥ 4 then
    .ok (showSegs s SEG_DP SEG_DP SEG_DP SEG_DP)
  else
    showNumberLoop (4 - start.toNat) s n start.toNat

/-! ## Key scanning: `CTinyUI::run` -/

/-- The helper `checKeyPin(pin, key)`; `digitalRead p` is the level read on
pin `p` (`true` for HIGH). -/
def checKeyPin (s : UIState) (digitalRead : Nat → Bool) (pin key : Nat) : UIState :=
  if !digitalRead pin then
    { s with uiSwitchStates := byteOr s.uiSwitchStates key }
  else
    { s with uiSwitchStates := byteAndNot s.uiSwitchStates key }

/-- The three `if(uiKey?Pin) checKeyPin(...)` lines that open `run`. -/
def sampleExtraKeys (s : UIState) (digitalRead : Nat → Bool) : UIState :=
  let s := if s.uiKeyAPin ≠ 0 then checKeyPin s digitalRead s.uiKeyAPin TUI_KEY_A else s
  let s := if s.uiKeyBPin ≠ 0 then checKeyPin s digitalRead s.uiKeyBPin TUI_KEY_B else s
  if s.uiKeyCPin ≠ 0 then checKeyPin s digitalRead s.uiKeyCPin TUI_KEY_C else s

/-- One iteration of the debounce loop of `run` for switch `i`; the second
component is the local `newKeyPress`. -/
def debounceStep (i : Nat) (st : UIState × Nat) : UIState × Nat :=
  let s := st.1
  let mask := toByte (1 <<< i)
  if s.uiDebounceCount i ≠ 0 then
    ({ s with uiDebounceCount := setAt s.uiDebounceCount i (s.uiDebounceCount i - 1) }, st.2)
  else if s.uiSwitchStates &&& mask ≠ 0 ∧ s.uiKeyStatus &&& mask = 0 then
    ({ s with
        uiKeyStatus := byteOr s.uiKeyStatus mask
        uiDebounceCount := setAt s.uiDebounceCount i UI_DEBOUNCE_MS }, 1)
  else if s.uiSwitchStates &&& mask = 0 ∧ s.uiKeyStatus &&& mask ≠ 0 then
    ({ s with
        uiKeyStatus := byteAndNot s.uiKeyStatus mask
        uiDebounceCount := setAt s.uiDebounceCount i UI_DEBOUNCE_MS }, st.2)
  else st

/-- The loop `for(int i=0; i<UI_NUM_SWITCHES; ++i)`: `k` iterations from index
`i` on. -/
def debounceLoop : Nat → Nat → UIState × Nat → UIState × Nat
  | 0, _, st => st
  | k + 1, i, st => debounceLoop k (i + 1) (debounceStep i st)

/-- The debounce phase of `run`, started with `newKeyPress = 0`. -/
def debounce (s : UIState) : UIState × Nat :=
  debounceLoop UI_NUM_SWITCHES 0 (s, 0)

/-- The "auto repeat etc" phase of `run`; the second component is the local
`flags`. -/
def classify (s : UIState) (newKeyPress milliseconds : Nat) : UIState × Nat :=
  if s.uiKeyStatus = 0 then
    ({ s with uiLongPress := 0, uiKeyStatus := 0, uiAutoRepeatTime := 0 }, 0)
  else if s.uiKeyStatus ≠ s.uiLastKeyStatus then
    let s1 := { s with uiLongPress := 0 }
    let r :=
      if newKeyPress ≠ 0 then
        ({ s1 with
            uiLastKeypress := s1.uiKeyStatus
            uiDoubleClickTime := toULong (milliseconds + UI_DOUBLE_CLICK_TIME) },
          if s1.uiKeyStatus = s1.uiLastKeypress ∧ milliseconds < s1.uiDoubleClickTime then
            TUI_DOUBLE
          else TUI_PRESS)
      else (s1, 0)
    ({ r.1 with uiAutoRepeatTime := toULong (milliseconds + UI_AUTO_REPEAT_DELAY) }, r.2)
  else if s.uiAutoRepeatTime < milliseconds then
    let r := if s.uiLongPress ≠ 0 then (s, TUI_AUTO) else ({ s with uiLongPress := 1 }, TUI_HOLD)
    ({ r.1 with uiAutoRepeatTime := toULong (milliseconds + UI_AUTO_REPEAT_PERIOD) }, r.2)
  else (s, 0)

/-- The member `CTinyUI::run(milliseconds)`. The second component is the
argument of the handler call of this poll, `none` when the handler is not
called. The handler itself is outside the driver and is taken not to touch the
classifier variables. -/
def run (s : UIState) (digitalRead : Nat → Bool) (milliseconds : Nat) :
    UIState × Option Nat :=
  let ms := toULong milliseconds
  let d := debounce (sampleExtraKeys s digitalRead)
  let c := classify d.1 d.2 ms
  let call :=
    if c.2 ≠ 0 ∧ c.1.uiKeypressHandler ≠ none then some (c.2 ||| c.1.uiKeyStatus) else none
  ({ c.1 with uiLastKeyStatus := c.1.uiKeyStatus }, call)

/-- The member `CTinyUI::setExtraKey(key, pin)`. -/
def setExtraKey (s : UIState) (key pin : Nat) : UIState :=
  if toByte key = TUI_KEY_A then { s with uiKeyAPin := toByte pin }
  else if toByte key = TUI_KEY_B then { s with uiKeyBPin := toByte pin }
  else if toByte key = TUI_KEY_C then { s with uiKeyCPin := toByte pin }
  else s

/-! ## The refresh interrupt: `ISR(TIMER2_OVF_vect)` -/

/-- One access to a pin made by the refresh interrupt. -/
inductive PinOp where
  | read (pin : Nat)
  | write (pin : Nat) (level : Bool)
  deriving DecidableEq, Repr

/-- Modelled from the spec: the macro `_DIGITAL_WRITE(pin, v)` of `PortIO.h`,
a header that is not among the sources. The spec gives the pin capability as
`writeLevel(pinId, bool)`; the value `v` of the source is an integer, and the
pin is driven HIGH when `v` is nonzero and LOW when it is 0. -/
def digitalLevel (v : Nat) : Bool := decide (v ≠ 0)

/-- The three writes that clock one data bit into the shift register: clock
low, data, clock high. -/
def shiftBit (d bit : Nat) : List PinOp :=
  [.write TUI_P_SHCLK false, .write TUI_P_SHDAT (digitalLevel (d &&& bit)),
   .write TUI_P_SHCLK true]

/-- The `switch(uiLEDIndex)` that turns one display on. -/
def enableDigit (index : Nat) : List PinOp :=
  match index with
  | 0 => [.write TUI_P_DIGIT0 true]
  | 1 => [.write TUI_P_DIGIT1 true]
  | 2 => [.write TUI_P_DIGIT2 true]
  | 3 => [.write TUI_P_DIGIT3 true]
  | 4 => [.write TUI_P_DIGIT4 true]
  | _ => []

/-- The interrupt routine `ISR(TIMER2_OVF_vect)`; `swread` is the level read on
`TUI_P_SWREAD`. The second component lists the pin accesses in program
order. -/
def tick (s : UIState) (swread : Bool) : UIState × List PinOp :=
  let sw :=
    if swread then byteOr s.uiSwitchStates (1 <<< s.uiLEDIndex)
    else byteAndNot s.uiSwitchStates (1 <<< s.uiLEDIndex)
  let d := s.uiLEDState s.uiLEDIndex
  let ops : List PinOp :=
    [.read TUI_P_SWREAD,
     .write TUI_P_DIGIT0 false, .write TUI_P_DIGIT1 false, .write TUI_P_DIGIT2 false,
     .write TUI_P_DIGIT3 false, .write TUI_P_DIGIT4 false]
    ++ shiftBit d 0x80 ++ shiftBit d 0x40 ++ shiftBit d 0x20 ++ shiftBit d 0x10
    ++ shiftBit d 0x08 ++ shiftBit d 0x04 ++ shiftBit d 0x02 ++ shiftBit d 0x01
    ++ [.write TUI_P_SHCLK false, .write TUI_P_SHCLK true]
    ++ enableDigit s.uiLEDIndex
  let next := toByte (s.uiLEDIndex + 1)
  ({ s with
      uiSwitchStates := sw
      uiLEDIndex := if next ≥ UI_MAXLEDARRAY then 0 else next }, ops)

/-- The levels read on `TUI_P_SWREAD` by consecutive ticks: run them in order,
recording the index addressed by each tick. -/
def ticks : UIState → List Bool → UIState × List Nat
  | s, [] => (s, [])
  | s, r :: rest =>
    let t := ticks (tick s r).1 rest
    (t.1, s.uiLEDIndex :: t.2)

/-! ## Reading a pin trace -/

/-- The level of `pin` after the accesses `ops`, when it was `level` before. -/
def levelAfter (pin : Nat) : Bool → List PinOp → Bool
  | level, [] => level
  | level, .read _ :: rest => levelAfter pin level rest
  | level, .write p l :: rest => levelAfter pin (if p = pin then l else level) rest

/-- The levels written to `pin`, in program order. -/
def writesTo (pin : Nat) : List PinOp → List Bool
  | [] => []
  | .read _ :: rest => writesTo pin rest
  | .write p l :: rest => if p = pin then l :: writesTo pin rest else writesTo pin rest

/-- What a shift register on `TUI_P_SHCLK` and `TUI_P_SHDAT` takes in: for
each rising edge of the clock, the level of the data pin at that edge, and
whether the data pin was written since the edge before. `clk` and `dat` are
the levels of the two pins before `ops`. -/
def shiftedIn : Bool → Bool → Bool → List PinOp → List (Bool × Bool)
  | _, _, _, [] => []
  | clk, dat, fresh, .read _ :: rest => shiftedIn clk dat fresh rest
  | clk, dat, fresh, .write p l :: rest =>
    if p = TUI_P_SHCLK then
      if l && !clk then (dat, fresh) :: shiftedIn l dat false rest
      else shiftedIn l dat fresh rest
    else if p = TUI_P_SHDAT then shiftedIn clk l true rest
    else shiftedIn clk dat fresh rest

/-- The number whose binary digits, most significant first, are `bits`. -/
def bitsToNat (bits : List Bool) : Nat :=
  bits.foldl (fun acc b => 2 * acc + b.toNat) 0

/-- The enable pin of scan position `j`. -/
def digitPin : Nat → Nat
  | 0 => TUI_P_DIGIT0
  | 1 => TUI_P_DIGIT1
  | 2 => TUI_P_DIGIT2
  | 3 => TUI_P_DIGIT3
  | _ => TUI_P_DIGIT4

/-- A write to the shift clock. -/
def isClockWrite : PinOp → Bool
  | .write p _ => p == TUI_P_SHCLK
  | .read _ => false

/-- A write to the shift clock or the shift data pin. -/
def isShiftWrite : PinOp → Bool
  | .write p _ => p == TUI_P_SHCLK || p == TUI_P_SHDAT
  | .read _ => false

/-- A write of HIGH to one of the five enable pins. -/
def isEnableHigh : PinOp → Bool
  | .write p l =>
    (p == TUI_P_DIGIT0 || p == TUI_P_DIGIT1 || p == TUI_P_DIGIT2 || p == TUI_P_DIGIT3 ||
      p == TUI_P_DIGIT4) && l
  | .read _ => false

/-- The accesses up to and including the last write to the shift clock. -/
def upToLastClock (ops : List PinOp) : List PinOp :=
  (ops.reverse.dropWhile (fun op => !isClockWrite op)).reverse

/-! ## Runs of polls -/

/-- What one poll meets: the byte the refresh interrupt has left in
`uiSwitchStates`, the pin levels `digitalRead` returns, and the clock value
passed to `run`. -/
structure PollInput where
  raw : Nat
  digitalRead : Nat → Bool
  milliseconds : Nat

/-- The state a poll starts from: the raw sample of the refresh interrupt is
in `uiSwitchStates`. -/
def pollEntry (s : UIState) (inp : PollInput) : UIState :=
  { s with uiSwitchStates := toByte inp.raw }

/-- The raw sample the debounce loop of a poll reads: `uiSwitchStates` after
the extra key pins have been folded in. -/
def pollSample (s : UIState) (inp : PollInput) : Nat :=
  (sampleExtraKeys (pollEntry s inp) inp.digitalRead).uiSwitchStates

/-- The state and the local `newKeyPress` of a poll when its debounce loop has
ended. -/
def pollDebounced (s : UIState) (inp : PollInput) : UIState × Nat :=
  debounce (sampleExtraKeys (pollEntry s inp) inp.digitalRead)

/-- The local `newKeyPress` of a poll when its debounce loop has ended. -/
def pollNewKeyPress (s : UIState) (inp : PollInput) : Nat :=
  (pollDebounced s inp).2

/-- The state and the local `flags` of a poll when its classification has
ended, before the handler call. -/
def pollClassified (s : UIState) (inp : PollInput) : UIState × Nat :=
  classify (pollDebounced s inp).1 (pollDebounced s inp).2 (toULong inp.milliseconds)

/-- One poll: `run` on the state whose raw sample is `inp.raw`. -/
def poll (s : UIState) (inp : PollInput) : UIState × Option Nat :=
  run (pollEntry s inp) inp.digitalRead inp.milliseconds

/-- The state after a list of polls. -/
def pollState : UIState → List PollInput → UIState
  | s, [] => s
  | s, inp :: rest => pollState (poll s inp).1 rest

/-- No poll of the list registers a key press (the local `newKeyPress` stays
0 in each of them). -/
def noNewPress : UIState → List PollInput → Prop
  | _, [] => True
  | s, inp :: rest => pollNewKeyPress s inp = 0 ∧ noNewPress (poll s inp).1 rest

/-- An example state: `init` on the zeroed storage, then a handler
registered. -/
def demoState : UIState := setKeypressHandler (init zeroState) (some 1)

/-- An example poll input: raw sample `raw`, all pins reading HIGH, clock
value `t`. -/
def sample (raw t : Nat) : PollInput :=
  { raw := raw, digitalRead := fun _ => true, milliseconds := t }

/-- States the driver can be in: `init` called once, on the zeroed static
storage, followed by any sequence of refresh ticks, polls (each meeting any raw
sample byte) and calls of the other members. -/
inductive Reachable : UIState → Prop where
  | init : Reachable (init zeroState)
  | tick (s : UIState) (swread : Bool) : Reachable s → Reachable (tick s swread).1
  | poll (s : UIState) (inp : PollInput) : Reachable s → Reachable (poll s inp).1
  | setKeypressHandler (s : UIState) (f : Option Nat) :
      Reachable s → Reachable (setKeypressHandler s f)
  | setExtraKey (s : UIState) (key pin : Nat) : Reachable s → Reachable (setExtraKey s key pin)
  | showSegs (s : UIState) (a b c d : Nat) : Reachable s → Reachable (showSegs s a b c d)
  | showNumber (s s1 : UIState) (n start : Int) :
      Reachable s → showNumber s n start = .ok s1 → Reachable s1
  | setLEDs (s : UIState) (which mask : Nat) : Reachable s → Reachable (setLEDs s which mask)
  | clearLEDs (s : UIState) (which : Nat) : Reachable s → Reachable (clearLEDs s which)

/-- A reachable state with a handler and no extra key pins in which only
switch 0 is in play: the stable status is `ks` (0 or 1), the counter of switch 0
is `c0` and the other counters are 0. Used for worked traces. -/
def onlyKey0 (s : UIState) (ks c0 : Nat) : Prop :=
  Reachable s ∧ s.uiKeypressHandler ≠ none ∧
  s.uiKeyAPin = 0 ∧ s.uiKeyBPin = 0 ∧ s.uiKeyCPin = 0 ∧
  s.uiKeyStatus = ks ∧ ks ≤ 1 ∧ s.uiDebounceCount 0 = c0 ∧
  ∀ j, 1 ≤ j → j < 6 → s.uiDebounceCount j = 0

/-- Polls between two presses of switch 0: 20 polls with the key down, the
poll that sees it released, 20 polls with the key up. -/
def doubleClickGap : List PollInput :=
  List.replicate 20 (sample 1 1001) ++ ([sample 0 1002] ++ List.replicate 20 (sample 0 1003))

/-- Polls between two presses of switch 0, at clock values `a`, `b` and `c`:
20 polls with the key down, the poll that sees it released, 20 polls with the
key up. -/
def releaseGap (a b c : Nat) : List PollInput :=
  List.replicate 20 (sample 1 a) ++ ([sample 0 b] ++ List.replicate 20 (sample 0 c))

/-- An example state: `init` on the zeroed storage followed by four refresh
ticks, which leaves the scan index at 4. -/
def ledSlotState : UIState :=
  (tick (tick (tick (tick (init zeroState) false).1 false).1 false).1 false).1

/-! ## Theorems -/

/-! ### Bytes and bits -/

theorem testBit_toByte (x i : Nat) : (toByte x).testBit i = (decide (i < 8) && x.testBit i) :=
  Nat.testBit_mod_two_pow x 8 i

theorem testBit_255 (i : Nat) : (255 : Nat).testBit i = decide (i < 8) :=
  Nat.testBit_two_pow_sub_one 8 i

theorem testBit_byteOr (b m i : Nat) :
    (byteOr b m).testBit i = (decide (i < 8) && (b.testBit i || m.testBit i)) := by
  simp [byteOr, testBit_toByte]

theorem testBit_byteAndNot (b m i : Nat) :
    (byteAndNot b m).testBit i = (decide (i < 8) && (b.testBit i && !m.testBit i)) := by
  simp only [byteAndNot, Nat.testBit_and, Nat.testBit_xor, testBit_toByte, testBit_255]
  by_cases h : i < 8 <;> simp [h]

theorem testBit_of_lt_256 (x i : Nat) (hx : x < 256) (hi : 8 ≤ i) : x.testBit i = false := by
  apply Nat.testBit_lt_two_pow
  calc x < 2 ^ 8 := hx
    _ ≤ 2 ^ i := Nat.pow_le_pow_right (by decide) hi

theorem toByte_lt (x : Nat) : toByte x < 256 := Nat.mod_lt x (by decide)

theorem toByte_of_lt (x : Nat) (h : x < 256) : toByte x = x := Nat.mod_eq_of_lt h

theorem byteOr_lt (b m : Nat) : byteOr b m < 256 := toByte_lt _

theorem byteAndNot_lt (b m : Nat) : byteAndNot b m < 256 :=
  lt_of_le_of_lt Nat.and_le_left (toByte_lt b)

/-! ### Decimal display -/

theorem xlatAt_digit (i : Int) (h0 : 0 ≤ i) (h9 : i < 10) :
    ∃ v, xlatAt i = .ok v ∧ xlatDigit[i.toNat]? = some v := by
  interval_cases i <;> exact ⟨_, rfl, rfl⟩

theorem showNumberLoop_step (k : Nat) (s : UIState) (n : Int) (start : Nat) (divider : Int)
    (v : Nat) (hstart : start < 4) (hd : div[start]? = some divider)
    (hv : xlatAt (Int.tdiv n divider) = .ok v) :
    showNumberLoop (k + 1) s n start =
      showNumberLoop k { s with uiLEDState := setAt s.uiLEDState start v }
        (Int.tmod n divider) (start + 1) := by
  simp only [showNumberLoop, hstart, if_true, hd, hv]

theorem showNumberLoop_end (s : UIState) (n : Int) : showNumberLoop 0 s n 4 = .ok s := by
  simp [showNumberLoop]

theorem showNumberLoop_from3 (s : UIState) (n : Int) (h0 : 0 ≤ n) (h : n < 10) :
    ∃ v4, xlatDigit[(n % 10).toNat]? = some v4 ∧
      showNumberLoop 1 s n 3 = .ok { s with uiLEDState := setAt s.uiLEDState 3 v4 } := by
  obtain ⟨v4, e4, g4⟩ := xlatAt_digit (n / 1) (by omega) (by omega)
  refine ⟨v4, ?_, ?_⟩
  · rw [← g4]; congr 2; omega
  · rw [showNumberLoop_step 0 s n 3 1 v4 (by omega) rfl
      (by rw [Int.tdiv_eq_ediv h0 (by omega)]; exact e4), showNumberLoop_end]

theorem showNumberLoop_from2 (s : UIState) (n : Int) (h0 : 0 ≤ n) (h : n < 100) :
    ∃ v3 v4, xlatDigit[(n / 10 % 10).toNat]? = some v3 ∧
      xlatDigit[(n % 10).toNat]? = some v4 ∧
      showNumberLoop 2 s n 2 =
        .ok { s with uiLEDState := setAt (setAt s.uiLEDState 2 v3) 3 v4 } := by
  obtain ⟨v3, e3, g3⟩ := xlatAt_digit (n / 10) (by omega) (by omega)
  obtain ⟨v4, g4, e4⟩ := showNumberLoop_from3
    { s with uiLEDState := setAt s.uiLEDState 2 v3 } (n % 10) (by omega) (by omega)
  refine ⟨v3, v4, ?_, ?_, ?_⟩
  · rw [← g3]; congr 2; omega
  · rw [← g4]; congr 2; omega
  · rw [showNumberLoop_step 1 s n 2 10 v3 (by omega) rfl
      (by rw [Int.tdiv_eq_ediv h0 (by omega)]; exact e3),
      Int.tmod_eq_emod h0 (by omega)]
    exact e4

theorem showNumberLoop_from1 (s : UIState) (n : Int) (h0 : 0 ≤ n) (h : n < 1000) :
    ∃ v2 v3 v4, xlatDigit[(n / 100 % 10).toNat]? = some v2 ∧
      xlatDigit[(n / 10 % 10).toNat]? = some v3 ∧
      xlatDigit[(n % 10).toNat]? = some v4 ∧
      showNumberLoop 3 s n 1 =
        .ok { s with uiLEDState := setAt (setAt (setAt s.uiLEDState 1 v2) 2 v3) 3 v4 } := by
  obtain ⟨v2, e2, g2⟩ := xlatAt_digit (n / 100) (by omega) (by omega)
  obtain ⟨v3, v4, g3, g4, e4⟩ := showNumberLoop_from2
    { s with uiLEDState := setAt s.uiLEDState 1 v2 } (n % 100) (by omega) (by omega)
  refine ⟨v2, v3, v4, ?_, ?_, ?_, ?_⟩
  · rw [← g2]; congr 2; omega
  · rw [← g3]; congr 2; omega
  · rw [← g4]; congr 2; omega
  · rw [showNumberLoop_step 2 s n 1 100 v2 (by omega) rfl
      (by rw [Int.tdiv_eq_ediv h0 (by omega)]; exact e2),
      Int.tmod_eq_emod h0 (by omega)]
    exact e4

theorem showNumberLoop_from0 (s : UIState) (n : Int) (h0 : 0 ≤ n) (h : n < 10000) :
    ∃ v1 v2 v3 v4, xlatDigit[(n / 1000 % 10).toNat]? = some v1 ∧
      xlatDigit[(n / 100 % 10).toNat]? = some v2 ∧
      xlatDigit[(n / 10 % 10).toNat]? = some v3 ∧
      xlatDigit[(n % 10).toNat]? = some v4 ∧
      showNumberLoop 4 s n 0 =
        .ok { s with
          uiLEDState := setAt (setAt (setAt (setAt s.uiLEDState 0 v1) 1 v2) 2 v3) 3 v4 } := by
  obtain ⟨v1, e1, g1⟩ := xlatAt_digit (n / 1000) (by omega) (by omega)
  obtain ⟨v2, v3, v4, g2, g3, g4, e4⟩ := showNumberLoop_from1
    { s with uiLEDState := setAt s.uiLEDState 0 v1 } (n % 1000) (by omega) (by omega)
  refine ⟨v1, v2, v3, v4, ?_, ?_, ?_, ?_, ?_⟩
  · rw [← g1]; congr 2; omega
  · rw [← g2]; congr 2; omega
  · rw [← g3]; congr 2; omega
  · rw [← g4]; congr 2; omega
  · rw [showNumberLoop_step 3 s n 0 1000 v1 (by omega) rfl
      (by rw [Int.tdiv_eq_ediv h0 (by omega)]; exact e1),
      Int.tmod_eq_emod h0 (by omega)]
    exact e4

/-- Claim C2: for `start < 0` or `start ≥ 4`, whatever `n` is, `showNumber`
sets the four digit positions to `SEG_DP` (0x04) and keeps the LED byte
`uiLEDState[4]`. -/
theorem showNumber_bad_start (s : UIState) (n start : Int) (h : start < 0 ∨ 4 ≤ start) :
    ∃ s1, showNumber s n start = .ok s1 ∧
      (∀ p : Nat, p < 4 → s1.uiLEDState p = SEG_DP) ∧ SEG_DP = 0x04 ∧
      s1.uiLEDState 4 = s.uiLEDState 4 := by
  refine ⟨showSegs s SEG_DP SEG_DP SEG_DP SEG_DP, ?_, ?_, rfl, ?_⟩
  · simp only [showNumber]
    rw [if_pos (by omega)]
  · intro p hp
    interval_cases p <;> simp [showSegs, setAt, toByte, SEG_DP]
  · simp [showSegs, setAt]

/-- Claim C2 at `showNumber(5, 5)`. -/
theorem showNumber_bad_start_witness :
    ∃ s1, showNumber zeroState 5 5 = .ok s1 ∧
      (∀ p : Nat, p < 4 → s1.uiLEDState p = SEG_DP) ∧ SEG_DP = 0x04 ∧
      s1.uiLEDState 4 = zeroState.uiLEDState 4 :=
  showNumber_bad_start zeroState 5 5 (Or.inr (by decide))

theorem xlatAt_outside (i : Int) (h : 10 ≤ i) : xlatAt i = .error (.xlatIndex i) := by
  have hl : xlatDigit.length ≤ i.toNat := by
    have : xlatDigit.length = 10 := rfl
    omega
  simp only [xlatAt]
  rw [if_pos (by omega), List.getElem?_eq_none hl]

theorem showNumberLoop_fault (k : Nat) (s : UIState) (n : Int) (start : Nat) (divider : Int)
    (e : Fault) (hstart : start < 4) (hd : div[start]? = some divider)
    (hv : xlatAt (Int.tdiv n divider) = .error e) :
    showNumberLoop (k + 1) s n start = .error e := by
  simp only [showNumberLoop, hstart, if_true, hd, hv]

/-- Claim C3, what the source does: for `start` in 0..3 and `n ≥ 10^(4-start)`
the first table read of the loop is `xlatDigit[n / 10^(3-start)]` with an index
of at least 10, outside the ten-entry table; `showNumber` faults there and no
digit is dropped. -/
theorem showNumber_overflow_index (s : UIState) (n start : Int)
    (hs0 : 0 ≤ start) (hs3 : start ≤ 3) (hn : 10 ^ (4 - start.toNat) ≤ n) :
    10 ≤ n / 10 ^ (3 - start.toNat) ∧
      showNumber s n start = .error (.xlatIndex (n / 10 ^ (3 - start.toNat))) := by
  have hn0 : 0 ≤ n := le_trans (by positivity) hn
  have key : ∀ (k : Nat) (st : Nat) (d : Int), st < 4 → div[st]? = some d → 0 ≤ d →
      10 ≤ n / d → showNumberLoop (k + 1) s n st = .error (.xlatIndex (n / d)) := by
    intro k st d hst hd hd0 h10
    apply showNumberLoop_fault k s n st d _ hst hd
    rw [Int.tdiv_eq_ediv hn0 hd0]
    exact xlatAt_outside _ h10
  interval_cases start <;> simp at hn
  · have h10 : (10 : Int) ≤ n / 1000 := by omega
    exact ⟨h10, by simpa [showNumber] using key 3 0 1000 (by omega) rfl (by omega) h10⟩
  · have h10 : (10 : Int) ≤ n / 100 := by omega
    exact ⟨h10, by simpa [showNumber] using key 2 1 100 (by omega) rfl (by omega) h10⟩
  · have h10 : (10 : Int) ≤ n / 10 := by omega
    exact ⟨h10, by simpa [showNumber] using key 1 2 10 (by omega) rfl (by omega) h10⟩
  · have h10 : (10 : Int) ≤ n / 1 := by omega
    exact ⟨by simpa using h10, by simpa [showNumber] using key 0 3 1 (by omega) rfl (by omega) h10⟩

/-- Claim C3 at `showNumber(1234, 2)`: the read is `xlatDigit[123]`. -/
theorem showNumber_overflow_index_witness :
    (10 : Int) ≤ 1234 / 10 ^ (3 - (2 : Int).toNat) ∧
      showNumber zeroState 1234 2 = .error (.xlatIndex 123) :=
  showNumber_overflow_index zeroState 1234 2 (by decide) (by decide) (by decide)

/-! ### LED byte -/

/-- Claim C4: for a byte `L` in `uiLEDState[4]` and a byte `which` (and any
`mask`), `setLEDs(which, mask)` leaves the LED byte equal to
`(L AND NOT mask) OR which`; bit by bit, a bit of the result is set when it is
set in `which`, or set in `L` and not in `mask`; every bit outside
`mask OR which` keeps its value. -/
theorem setLEDs_led_byte (s : UIState) (which mask : Nat)
    (hL : s.uiLEDState 4 < 256) (hw : which < 256) :
    (setLEDs s which mask).uiLEDState 4 = (s.uiLEDState 4 &&& (0xFF ^^^ mask)) ||| which ∧
    (∀ i : Nat, ((setLEDs s which mask).uiLEDState 4).testBit i =
      (which.testBit i || ((s.uiLEDState 4).testBit i && !mask.testBit i))) ∧
    (∀ i : Nat, (mask ||| which).testBit i = false →
      ((setLEDs s which mask).uiLEDState 4).testBit i = (s.uiLEDState 4).testBit i) := by
  have bits : ∀ i : Nat, ((setLEDs s which mask).uiLEDState 4).testBit i =
      (which.testBit i || ((s.uiLEDState 4).testBit i && !mask.testBit i)) := by
    intro i
    simp only [setLEDs, setAt, if_true, testBit_byteOr, testBit_byteAndNot, testBit_toByte]
    by_cases h : i < 8
    · simp [h, Bool.or_comm]
    · simp [h, testBit_of_lt_256 _ i hw (by omega), testBit_of_lt_256 _ i hL (by omega)]
  refine ⟨?_, bits, ?_⟩
  · apply Nat.eq_of_testBit_eq
    intro i
    rw [bits i]
    simp only [Nat.testBit_or, Nat.testBit_and, Nat.testBit_xor, testBit_255]
    by_cases h : i < 8
    · simp [h, Bool.or_comm]
    · simp [h, testBit_of_lt_256 _ i hL (by omega)]
  · intro i hi
    rw [bits i]
    simp only [Nat.testBit_or, Bool.or_eq_false_iff] at hi
    simp [hi.1, hi.2]

/-- Claim C4 from LED byte 0: `setLEDs(0x0F, 0x0F)` gives 0x0F and a following
`setLEDs(0x10, 0x10)` gives 0x1F. -/
theorem setLEDs_led_byte_witness :
    (setLEDs zeroState 0x0F 0x0F).uiLEDState 4 = 0x0F ∧
    (setLEDs (setLEDs zeroState 0x0F 0x0F) 0x10 0x10).uiLEDState 4 = 0x1F := by
  have h1 := (setLEDs_led_byte zeroState 0x0F 0x0F (by decide) (by decide)).1
  have e1 : (setLEDs zeroState 0x0F 0x0F).uiLEDState 4 = 0x0F := by
    rw [h1]; decide
  have h2 := (setLEDs_led_byte (setLEDs zeroState 0x0F 0x0F) 0x10 0x10 (by rw [e1]; decide)
    (by decide)).1
  refine ⟨e1, ?_⟩
  rw [h2, e1]; decide

/-! ### The debounce loop -/

theorem and_two_pow_eq_zero (x i : Nat) : x &&& 2 ^ i = 0 ↔ x.testBit i = false := by
  constructor
  · intro h
    have := congrArg (fun y => y.testBit i) h
    simpa [Nat.testBit_and, Nat.testBit_two_pow] using this
  · intro h
    apply Nat.eq_of_testBit_eq
    intro j
    simp only [Nat.testBit_and, Nat.testBit_two_pow, Nat.zero_testBit]
    by_cases hij : i = j
    · subst hij; simp [h]
    · simp [hij]

theorem switchMask (i : Nat) (hi : i < 8) : toByte (1 <<< i) = 2 ^ i := by
  rw [Nat.one_shiftLeft, toByte]
  apply Nat.mod_eq_of_lt
  calc 2 ^ i < 2 ^ 8 := Nat.pow_lt_pow_right (by decide) hi
    _ = 256 := by norm_num

theorem debounceStep_frame (i : Nat) (st : UIState × Nat) :
    (debounceStep i st).1 =
      { st.1 with
        uiKeyStatus := (debounceStep i st).1.uiKeyStatus
        uiDebounceCount := (debounceStep i st).1.uiDebounceCount } := by
  unfold debounceStep
  simp only
  split_ifs <;> rfl

theorem debounceStep_count (i : Nat) (st : UIState × Nat) (j : Nat) (hi : i < 8) :
    (debounceStep i st).1.uiDebounceCount j =
      if j = i then
        (if st.1.uiDebounceCount i ≠ 0 then st.1.uiDebounceCount i - 1
         else if st.1.uiSwitchStates.testBit i ≠ st.1.uiKeyStatus.testBit i then UI_DEBOUNCE_MS
         else 0)
      else st.1.uiDebounceCount j := by
  unfold debounceStep
  simp only [switchMask i hi, ne_eq, and_two_pow_eq_zero]
  by_cases hc : st.1.uiDebounceCount i = 0 <;>
    by_cases hr : st.1.uiSwitchStates.testBit i = true <;>
    by_cases hk : st.1.uiKeyStatus.testBit i = true <;>
    by_cases hj : j = i <;> simp [hc, hr, hk, hj, setAt]

theorem debounceStep_bit (i : Nat) (st : UIState × Nat) (j : Nat) (hi : i < 8) (hj : j < 8) :
    (debounceStep i st).1.uiKeyStatus.testBit j =
      if j = i ∧ st.1.uiDebounceCount i = 0 then st.1.uiSwitchStates.testBit i
      else st.1.uiKeyStatus.testBit j := by
  unfold debounceStep
  simp only [switchMask i hi, ne_eq, and_two_pow_eq_zero]
  by_cases hc : st.1.uiDebounceCount i = 0 <;>
    by_cases hr : st.1.uiSwitchStates.testBit i = true <;>
    by_cases hk : st.1.uiKeyStatus.testBit i = true <;>
    by_cases hji : j = i <;>
    simp [hc, hr, hk, hji, hj, hi, testBit_byteOr, testBit_byteAndNot, Nat.testBit_two_pow] <;>
    intro h <;> first | exact absurd h.symm hji | (intro h2; exact hji h2.symm)

theorem debounceStep_new (i : Nat) (st : UIState × Nat) (hi : i < 8) :
    (debounceStep i st).2 =
      if st.1.uiDebounceCount i = 0 ∧ st.1.uiSwitchStates.testBit i = true ∧
          st.1.uiKeyStatus.testBit i = false then 1
      else st.2 := by
  unfold debounceStep
  simp only [switchMask i hi, ne_eq, and_two_pow_eq_zero]
  by_cases hc : st.1.uiDebounceCount i = 0 <;>
    by_cases hr : st.1.uiSwitchStates.testBit i = true <;>
    by_cases hk : st.1.uiKeyStatus.testBit i = true <;> simp [hc, hr, hk]

theorem debounceStep_lt (i : Nat) (st : UIState × Nat) (h : st.1.uiKeyStatus < 256) :
    (debounceStep i st).1.uiKeyStatus < 256 := by
  unfold debounceStep
  simp only
  split_ifs
  · exact h
  · exact byteOr_lt _ _
  · exact byteAndNot_lt _ _
  · exact h

theorem debounceStep_raw (i : Nat) (st : UIState × Nat) :
    (debounceStep i st).1.uiSwitchStates = st.1.uiSwitchStates := by
  rw [debounceStep_frame]

theorem debounceLoop_spec (k : Nat) : ∀ (i : Nat) (st : UIState × Nat), i + k ≤ 8 →
    (debounceLoop k i st).1 =
      { st.1 with
        uiKeyStatus := (debounceLoop k i st).1.uiKeyStatus
        uiDebounceCount := (debounceLoop k i st).1.uiDebounceCount } ∧
    (∀ j, (debounceLoop k i st).1.uiDebounceCount j =
      if i ≤ j ∧ j < i + k then
        (if st.1.uiDebounceCount j ≠ 0 then st.1.uiDebounceCount j - 1
         else if st.1.uiSwitchStates.testBit j ≠ st.1.uiKeyStatus.testBit j then UI_DEBOUNCE_MS
         else 0)
      else st.1.uiDebounceCount j) ∧
    (∀ j, j < 8 → (debounceLoop k i st).1.uiKeyStatus.testBit j =
      if (i ≤ j ∧ j < i + k) ∧ st.1.uiDebounceCount j = 0 then st.1.uiSwitchStates.testBit j
      else st.1.uiKeyStatus.testBit j) ∧
    ((∃ j, (i ≤ j ∧ j < i + k) ∧ st.1.uiDebounceCount j = 0 ∧
        st.1.uiSwitchStates.testBit j = true ∧ st.1.uiKeyStatus.testBit j = false) →
      (debounceLoop k i st).2 = 1) ∧
    ((∀ j, (i ≤ j ∧ j < i + k) → ¬ (st.1.uiDebounceCount j = 0 ∧
        st.1.uiSwitchStates.testBit j = true ∧ st.1.uiKeyStatus.testBit j = false)) →
      (debounceLoop k i st).2 = st.2) := by
  induction k with
  | zero =>
    intro i st _
    refine ⟨rfl, ?_, ?_, ?_, ?_⟩
    · intro j; rw [if_neg (by omega)]; rfl
    · intro j _; rw [if_neg (by omega)]; rfl
    · rintro ⟨j, hj, _⟩; omega
    · intro _; rfl
  | succ k ih =>
    intro i st hik
    have hi : i < 8 := by omega
    obtain ⟨f, c, b, n1, n0⟩ := ih (i + 1) (debounceStep i st) (by omega)
    have raw := debounceStep_raw i st
    simp only [debounceLoop]
    refine ⟨?_, ?_, ?_, ?_, ?_⟩
    · rw [f, debounceStep_frame i st]
    · intro j
      rw [c j, debounceStep_count i st j hi, raw]
      by_cases hji : j = i
      · subst hji
        simp
      · have hbit : (debounceStep i st).1.uiKeyStatus.testBit j = st.1.uiKeyStatus.testBit j ∨
            ¬ j < 8 := by
          by_cases hj : j < 8
          · left; rw [debounceStep_bit i st j hi hj]; simp [hji]
          · right; exact hj
        by_cases hr : i + 1 ≤ j ∧ j < i + 1 + k
        · have hr2 : i ≤ j ∧ j < i + (k + 1) := by omega
          have hj8 : j < 8 := by omega
          rw [if_pos hr, if_pos hr2, if_neg hji]
          rcases hbit with hb | hb
          · rw [hb]
          · exact absurd hj8 hb
        · have hr2 : ¬ (i ≤ j ∧ j < i + (k + 1)) := by omega
          rw [if_neg hr, if_neg hr2, if_neg hji]
    · intro j hj
      rw [b j hj, debounceStep_bit i st j hi hj, debounceStep_count i st j hi, raw]
      by_cases hji : j = i
      · subst hji
        simp
      · by_cases hr : i + 1 ≤ j ∧ j < i + 1 + k
        · have hr2 : i ≤ j ∧ j < i + (k + 1) := by omega
          simp [hr, hr2, hji]
        · have hr2 : ¬ (i ≤ j ∧ j < i + (k + 1)) := by omega
          simp [hr, hr2, hji]
    · rintro ⟨j, hj, hc, hr, hk⟩
      by_cases hlater : ∃ j, (i + 1 ≤ j ∧ j < i + 1 + k) ∧ st.1.uiDebounceCount j = 0 ∧
          st.1.uiSwitchStates.testBit j = true ∧ st.1.uiKeyStatus.testBit j = false
      · obtain ⟨m, hm, hmc, hmr, hmk⟩ := hlater
        apply n1
        refine ⟨m, hm, ?_, ?_, ?_⟩
        · rw [debounceStep_count i st m hi, if_neg (by omega)]; exact hmc
        · rw [raw]; exact hmr
        · rw [debounceStep_bit i st m hi (by omega), if_neg (by omega)]; exact hmk
      · have hji : j = i := by
          by_contra hne
          exact hlater ⟨j, by omega, hc, hr, hk⟩
        subst hji
        rw [n0, debounceStep_new j st hi, if_pos ⟨hc, hr, hk⟩]
        intro m hm
        rw [debounceStep_count j st m hi, if_neg (by omega), raw,
          debounceStep_bit j st m hi (by omega), if_neg (by omega)]
        intro hh
        exact hlater ⟨m, hm, hh⟩
    · intro hnone
      rw [n0, debounceStep_new i st hi, if_neg (hnone i (by omega))]
      intro m hm
      rw [debounceStep_count i st m hi, if_neg (by omega), raw,
        debounceStep_bit i st m hi (by omega), if_neg (by omega)]
      exact hnone m (by omega)

/-! ### One poll -/

theorem debounceLoop_lt (k : Nat) : ∀ (i : Nat) (st : UIState × Nat),
    st.1.uiKeyStatus < 256 → (debounceLoop k i st).1.uiKeyStatus < 256 := by
  induction k with
  | zero => intro i st h; exact h
  | succ k ih => intro i st h; exact ih (i + 1) _ (debounceStep_lt i st h)

theorem checKeyPin_frame (s : UIState) (dr : Nat → Bool) (pin key : Nat) :
    checKeyPin s dr pin key =
      { s with uiSwitchStates := (checKeyPin s dr pin key).uiSwitchStates } := by
  unfold checKeyPin
  split_ifs <;> rfl

theorem sampleExtraKeys_frame (s : UIState) (dr : Nat → Bool) :
    sampleExtraKeys s dr = { s with uiSwitchStates := (sampleExtraKeys s dr).uiSwitchStates } := by
  unfold sampleExtraKeys
  simp only
  split_ifs <;> simp only [checKeyPin] <;> split_ifs <;> rfl

theorem classify_keyStatus (s : UIState) (nk ms : Nat) :
    (classify s nk ms).1.uiKeyStatus = s.uiKeyStatus := by
  unfold classify
  simp only
  split_ifs with h <;> simp [h]

theorem classify_frame (s : UIState) (nk ms : Nat) :
    (classify s nk ms).1 =
      { s with
        uiLongPress := (classify s nk ms).1.uiLongPress
        uiLastKeypress := (classify s nk ms).1.uiLastKeypress
        uiDoubleClickTime := (classify s nk ms).1.uiDoubleClickTime
        uiAutoRepeatTime := (classify s nk ms).1.uiAutoRepeatTime } := by
  have hk := classify_keyStatus s nk ms
  revert hk
  unfold classify
  simp only
  split_ifs <;> intro hk <;> first | rfl | (simp only at hk; rw [← hk])

theorem poll_eq (s : UIState) (inp : PollInput) :
    poll s inp =
      ({ (pollClassified s inp).1 with uiLastKeyStatus := (pollClassified s inp).1.uiKeyStatus },
       if (pollClassified s inp).2 ≠ 0 ∧ (pollClassified s inp).1.uiKeypressHandler ≠ none then
         some ((pollClassified s inp).2 ||| (pollClassified s inp).1.uiKeyStatus)
       else none) := by
  unfold poll run pollClassified pollDebounced
  rfl

theorem pollDebounced_frame (s : UIState) (inp : PollInput) :
    (pollDebounced s inp).1 =
      { s with
        uiSwitchStates := pollSample s inp
        uiKeyStatus := (pollDebounced s inp).1.uiKeyStatus
        uiDebounceCount := (pollDebounced s inp).1.uiDebounceCount } := by
  have hd := (debounceLoop_spec 6 0 (sampleExtraKeys (pollEntry s inp) inp.digitalRead, 0)
    (by omega)).1
  have hs := sampleExtraKeys_frame (pollEntry s inp) inp.digitalRead
  have hd2 : (pollDebounced s inp).1 = _ := hd
  rw [hd2, hs]
  rfl

/-- The fields of the state after a poll that do not depend on the classifier. -/
theorem poll_fields (s : UIState) (inp : PollInput) :
    (poll s inp).1.uiKeyStatus = (pollDebounced s inp).1.uiKeyStatus ∧
    (poll s inp).1.uiDebounceCount = (pollDebounced s inp).1.uiDebounceCount ∧
    (poll s inp).1.uiLastKeyStatus = (poll s inp).1.uiKeyStatus ∧
    (poll s inp).1.uiKeypressHandler = s.uiKeypressHandler ∧
    (poll s inp).1.uiKeyAPin = s.uiKeyAPin ∧
    (poll s inp).1.uiKeyBPin = s.uiKeyBPin ∧
    (poll s inp).1.uiKeyCPin = s.uiKeyCPin ∧
    (poll s inp).1.uiLEDIndex = s.uiLEDIndex ∧
    (poll s inp).1.uiLEDState = s.uiLEDState := by
  have hc := classify_frame (pollDebounced s inp).1 (pollDebounced s inp).2
    (toULong inp.milliseconds)
  have hc2 : (pollClassified s inp).1 = _ := hc
  have hd := pollDebounced_frame s inp
  rw [poll_eq]
  simp only
  rw [hc2]
  simp only
  rw [hd]
  refine ⟨?_, ?_, ?_, ?_, ?_, ?_, ?_, ?_, ?_⟩ <;> first | rfl | trivial

theorem pollEntry_sampled (s : UIState) (inp : PollInput) :
    (sampleExtraKeys (pollEntry s inp) inp.digitalRead).uiDebounceCount = s.uiDebounceCount ∧
    (sampleExtraKeys (pollEntry s inp) inp.digitalRead).uiKeyStatus = s.uiKeyStatus ∧
    (sampleExtraKeys (pollEntry s inp) inp.digitalRead).uiSwitchStates = pollSample s inp := by
  rw [sampleExtraKeys_frame]
  exact ⟨rfl, rfl, rfl⟩

theorem pollDebounced_eq (s : UIState) (inp : PollInput) :
    pollDebounced s inp =
      debounceLoop 6 0 (sampleExtraKeys (pollEntry s inp) inp.digitalRead, 0) := by
  unfold pollDebounced debounce UI_NUM_SWITCHES
  rfl

/-- The debounce loop of a poll, switch by switch. -/
theorem pollDebounced_spec (s : UIState) (inp : PollInput) :
    (∀ j, j < 6 → (pollDebounced s inp).1.uiDebounceCount j =
      if s.uiDebounceCount j ≠ 0 then s.uiDebounceCount j - 1
      else if (pollSample s inp).testBit j ≠ s.uiKeyStatus.testBit j then UI_DEBOUNCE_MS
      else 0) ∧
    (∀ j, j < 6 → (pollDebounced s inp).1.uiKeyStatus.testBit j =
      if s.uiDebounceCount j = 0 then (pollSample s inp).testBit j
      else s.uiKeyStatus.testBit j) ∧
    (∀ j, 6 ≤ j → j < 8 →
      (pollDebounced s inp).1.uiKeyStatus.testBit j = s.uiKeyStatus.testBit j) ∧
    ((∃ j, j < 6 ∧ s.uiDebounceCount j = 0 ∧ (pollSample s inp).testBit j = true ∧
        s.uiKeyStatus.testBit j = false) → (pollDebounced s inp).2 = 1) ∧
    ((∀ j, j < 6 → ¬ (s.uiDebounceCount j = 0 ∧ (pollSample s inp).testBit j = true ∧
        s.uiKeyStatus.testBit j = false)) → (pollDebounced s inp).2 = 0) ∧
    (s.uiKeyStatus < 256 → (pollDebounced s inp).1.uiKeyStatus < 256) := by
  obtain ⟨ec, ek, er⟩ := pollEntry_sampled s inp
  obtain ⟨_, c, b, n1, n0⟩ :=
    debounceLoop_spec 6 0 (sampleExtraKeys (pollEntry s inp) inp.digitalRead, 0) (by omega)
  have lt := debounceLoop_lt 6 0 (sampleExtraKeys (pollEntry s inp) inp.digitalRead, 0)
  rw [← pollDebounced_eq] at c b n1 n0 lt
  simp only [ec, ek, er] at c b n1 n0 lt
  refine ⟨?_, ?_, ?_, ?_, ?_, lt⟩
  · intro j hj
    rw [c j, if_pos (by omega)]
  · intro j hj
    rw [b j (by omega)]
    by_cases h0 : s.uiDebounceCount j = 0
    · rw [if_pos ⟨by omega, h0⟩, if_pos h0]
    · rw [if_neg (fun hh => h0 hh.2), if_neg h0]
  · intro j h6 h8
    rw [b j h8, if_neg (by omega)]
  · rintro ⟨j, hj, hh⟩
    exact n1 ⟨j, by omega, hh⟩
  · intro h
    exact n0 (fun j hj => h j (by omega))

/-- The debounce counter of switch `j` after a poll. -/
theorem poll_count (s : UIState) (inp : PollInput) (j : Nat) (hj : j < 6) :
    (poll s inp).1.uiDebounceCount j =
      if s.uiDebounceCount j ≠ 0 then s.uiDebounceCount j - 1
      else if (pollSample s inp).testBit j ≠ s.uiKeyStatus.testBit j then UI_DEBOUNCE_MS
      else 0 := by
  rw [(poll_fields s inp).2.1]
  exact (pollDebounced_spec s inp).1 j hj

/-- The stable bit of switch `j` after a poll. -/
theorem poll_bit (s : UIState) (inp : PollInput) (j : Nat) (hj : j < 6) :
    (poll s inp).1.uiKeyStatus.testBit j =
      if s.uiDebounceCount j = 0 then (pollSample s inp).testBit j
      else s.uiKeyStatus.testBit j := by
  rw [(poll_fields s inp).1]
  exact (pollDebounced_spec s inp).2.1 j hj

/-- Bits 6 and 7 of the stable status are not touched by a poll. -/
theorem poll_bit_high (s : UIState) (inp : PollInput) (j : Nat) (h6 : 6 ≤ j) (h8 : j < 8) :
    (poll s inp).1.uiKeyStatus.testBit j = s.uiKeyStatus.testBit j := by
  rw [(poll_fields s inp).1]
  exact (pollDebounced_spec s inp).2.2.1 j h6 h8

theorem poll_keyStatus_lt (s : UIState) (inp : PollInput) (h : s.uiKeyStatus < 256) :
    (poll s inp).1.uiKeyStatus < 256 := by
  rw [(poll_fields s inp).1]
  exact (pollDebounced_spec s inp).2.2.2.2.2 h

/-- The local `newKeyPress` is nonzero exactly when some switch registers a key
press: its counter is 0, its raw bit is set and its stable bit is clear. -/
theorem pollNewKeyPress_ne_zero (s : UIState) (inp : PollInput) :
    pollNewKeyPress s inp ≠ 0 ↔
      ∃ j, j < 6 ∧ s.uiDebounceCount j = 0 ∧ (pollSample s inp).testBit j = true ∧
        s.uiKeyStatus.testBit j = false := by
  constructor
  · intro h
    by_contra hne
    apply h
    apply (pollDebounced_spec s inp).2.2.2.2.1
    intro j hj hh
    exact hne ⟨j, hj, hh⟩
  · intro h
    have := (pollDebounced_spec s inp).2.2.2.1 h
    unfold pollNewKeyPress
    rw [this]
    decide

/-! ### Classification -/

theorem classify_idle (s : UIState) (nk ms : Nat) (h : s.uiKeyStatus = 0) :
    (classify s nk ms).2 = 0 := by
  unfold classify
  rw [if_pos h]

theorem classify_release (s : UIState) (ms : Nat) (hne : s.uiKeyStatus ≠ s.uiLastKeyStatus) :
    (classify s 0 ms).2 = 0 ∧
    (classify s 0 ms).1.uiLastKeypress = s.uiLastKeypress ∧
    (classify s 0 ms).1.uiDoubleClickTime = s.uiDoubleClickTime := by
  unfold classify
  by_cases h0 : s.uiKeyStatus = 0
  · rw [if_pos h0]; exact ⟨rfl, rfl, rfl⟩
  · rw [if_neg h0, if_pos hne]
    simp

theorem classify_no_press (s : UIState) (ms : Nat) :
    (classify s 0 ms).1.uiLastKeypress = s.uiLastKeypress ∧
    (classify s 0 ms).1.uiDoubleClickTime = s.uiDoubleClickTime := by
  unfold classify
  by_cases h0 : s.uiKeyStatus = 0
  · rw [if_pos h0]; exact ⟨rfl, rfl⟩
  · by_cases hne : s.uiKeyStatus ≠ s.uiLastKeyStatus
    · rw [if_neg h0, if_pos hne]
      simp
    · rw [if_neg h0, if_neg hne]
      by_cases ht : s.uiAutoRepeatTime < ms
      · by_cases hl : s.uiLongPress = 0 <;> simp [ht, hl]
      · simp [ht]

theorem classify_press (s : UIState) (nk ms : Nat) (h0 : s.uiKeyStatus ≠ 0)
    (hne : s.uiKeyStatus ≠ s.uiLastKeyStatus) (hnk : nk ≠ 0) :
    (classify s nk ms).2 =
      (if s.uiKeyStatus = s.uiLastKeypress ∧ ms < s.uiDoubleClickTime then TUI_DOUBLE
       else TUI_PRESS) ∧
    (classify s nk ms).1.uiLastKeypress = s.uiKeyStatus ∧
    (classify s nk ms).1.uiDoubleClickTime = toULong (ms + UI_DOUBLE_CLICK_TIME) ∧
    (classify s nk ms).1.uiAutoRepeatTime = toULong (ms + UI_AUTO_REPEAT_DELAY) ∧
    (classify s nk ms).1.uiLongPress = 0 := by
  unfold classify
  rw [if_neg h0, if_pos hne]
  simp only [hnk, ne_eq, not_false_eq_true, if_true]
  refine ⟨?_, ?_, ?_, ?_, ?_⟩ <;> first | rfl | trivial

theorem classify_held (s : UIState) (nk ms : Nat) (h0 : s.uiKeyStatus ≠ 0)
    (heq : s.uiKeyStatus = s.uiLastKeyStatus) :
    (classify s nk ms).2 =
      (if s.uiAutoRepeatTime < ms then (if s.uiLongPress ≠ 0 then TUI_AUTO else TUI_HOLD)
       else 0) ∧
    (classify s nk ms).1.uiAutoRepeatTime =
      (if s.uiAutoRepeatTime < ms then toULong (ms + UI_AUTO_REPEAT_PERIOD)
       else s.uiAutoRepeatTime) ∧
    (classify s nk ms).1.uiLongPress =
      (if s.uiAutoRepeatTime < ms then (if s.uiLongPress ≠ 0 then s.uiLongPress else 1)
       else s.uiLongPress) := by
  unfold classify
  rw [if_neg h0, if_neg (not_not.mpr heq)]
  by_cases ht : s.uiAutoRepeatTime < ms
  · by_cases hl : s.uiLongPress = 0
    · simp [ht, hl]
    · simp [ht, hl]
  · simp [ht]

/-! ### Reachable states -/

theorem showNumberLoop_frame (k : Nat) : ∀ (s s1 : UIState) (n : Int) (start : Nat),
    showNumberLoop k s n start = .ok s1 → s1 = { s with uiLEDState := s1.uiLEDState } := by
  induction k with
  | zero =>
    intro s s1 n start h
    simp only [showNumberLoop] at h
    split_ifs at h
    cases h
    rfl
  | succ k ih =>
    intro s s1 n start h
    simp only [showNumberLoop] at h
    split_ifs at h
    · split at h
      · cases h
      · split at h
        · cases h
        · have := ih _ s1 _ _ h
          rw [this]
    · cases h
      rfl

theorem showNumber_frame (s s1 : UIState) (n start : Int) (h : showNumber s n start = .ok s1) :
    s1 = { s with uiLEDState := s1.uiLEDState } := by
  unfold showNumber at h
  split_ifs at h
  · cases h
    rfl
  · exact showNumberLoop_frame _ s s1 n _ h

theorem tick_index (s : UIState) (r : Bool) (h : s.uiLEDIndex ≤ 4) :
    (tick s r).1.uiLEDIndex = if s.uiLEDIndex = 4 then 0 else s.uiLEDIndex + 1 := by
  have h1 : s.uiLEDIndex = 0 ∨ s.uiLEDIndex = 1 ∨ s.uiLEDIndex = 2 ∨ s.uiLEDIndex = 3 ∨
      s.uiLEDIndex = 4 := by omega
  simp only [tick]
  rcases h1 with h1 | h1 | h1 | h1 | h1 <;> rw [h1] <;> rfl

/-- What holds between the calls of the driver: the stable status is a byte,
`uiLastKeyStatus` equals it, and the scan index is below 5. -/
theorem reachable_inv (s : UIState) (h : Reachable s) :
    s.uiKeyStatus < 256 ∧ s.uiLastKeyStatus = s.uiKeyStatus ∧ s.uiLEDIndex ≤ 4 := by
  induction h with
  | init => exact ⟨by decide, rfl, by decide⟩
  | tick s r _ ih =>
    obtain ⟨a, b, c⟩ := ih
    refine ⟨a, b, ?_⟩
    rw [tick_index s r c]
    split_ifs <;> omega
  | poll s inp _ ih =>
    obtain ⟨a, b, c⟩ := ih
    refine ⟨poll_keyStatus_lt s inp a, (poll_fields s inp).2.2.1, ?_⟩
    rw [(poll_fields s inp).2.2.2.2.2.2.2.1]
    exact c
  | setKeypressHandler s f _ ih => exact ih
  | setExtraKey s key pin _ ih =>
    unfold setExtraKey
    split_ifs <;> exact ih
  | showSegs s a b c d _ ih => exact ih
  | showNumber s s1 n start _ hn ih =>
    rw [showNumber_frame s s1 n start hn]
    exact ih
  | setLEDs s which mask _ ih => exact ih
  | clearLEDs s which _ ih => exact ih

/-! ### Release silence -/

/-- Claim C7: in a reachable state, a poll in which some stable bit goes from
1 to 0 and none goes from 0 to 1 leaves the local `flags` at 0 and does not
call the handler. -/
theorem release_is_silent (s : UIState) (inp : PollInput) (hs : Reachable s)
    (hrel : ∃ i, s.uiKeyStatus.testBit i = true ∧ (poll s inp).1.uiKeyStatus.testBit i = false)
    (hnone : ∀ i, ¬ (s.uiKeyStatus.testBit i = false ∧
      (poll s inp).1.uiKeyStatus.testBit i = true)) :
    (pollClassified s inp).2 = 0 ∧ (poll s inp).2 = none := by
  obtain ⟨hlt, hlast, _⟩ := reachable_inv s hs
  obtain ⟨i, hi1, hi0⟩ := hrel
  have hnk : (pollDebounced s inp).2 = 0 := by
    apply (pollDebounced_spec s inp).2.2.2.2.1
    intro j hj ⟨hc, hr, hk⟩
    apply hnone j
    refine ⟨hk, ?_⟩
    rw [poll_bit s inp j hj, if_pos hc]
    exact hr
  have hks : (pollDebounced s inp).1.uiKeyStatus = (poll s inp).1.uiKeyStatus :=
    (poll_fields s inp).1.symm
  have hlast2 : (pollDebounced s inp).1.uiLastKeyStatus = s.uiKeyStatus := by
    rw [pollDebounced_frame]
    exact hlast
  have hne : (pollDebounced s inp).1.uiKeyStatus ≠ (pollDebounced s inp).1.uiLastKeyStatus := by
    rw [hks, hlast2]
    intro heq
    rw [heq, hi1] at hi0
    cases hi0
  have hflags : (pollClassified s inp).2 = 0 := by
    unfold pollClassified
    rw [hnk]
    exact (classify_release _ _ hne).1
  refine ⟨hflags, ?_⟩
  rw [poll_eq]
  simp only [hflags, ne_eq, not_true_eq_false, false_and, if_false]

/-! From here on the three phases of `run` are used through the lemmas above
only. -/

attribute [irreducible] classify debounceLoop debounceStep sampleExtraKeys

theorem pollState_cons (s : UIState) (inp : PollInput) (rest : List PollInput) :
    pollState s (inp :: rest) = pollState (poll s inp).1 rest := rfl

theorem pollState_nil (s : UIState) : pollState s [] = s := rfl

theorem noNewPress_cons (s : UIState) (inp : PollInput) (rest : List PollInput) :
    noNewPress s (inp :: rest) =
      (pollNewKeyPress s inp = 0 ∧ noNewPress (poll s inp).1 rest) := rfl

theorem pollClassified_def (s : UIState) (inp : PollInput) :
    pollClassified s inp =
      classify (pollDebounced s inp).1 (pollDebounced s inp).2 (toULong inp.milliseconds) := by
  unfold pollClassified
  rfl

theorem poll_classified_fields (s : UIState) (inp : PollInput) :
    (poll s inp).1.uiLastKeypress = (pollClassified s inp).1.uiLastKeypress ∧
    (poll s inp).1.uiDoubleClickTime = (pollClassified s inp).1.uiDoubleClickTime ∧
    (poll s inp).1.uiAutoRepeatTime = (pollClassified s inp).1.uiAutoRepeatTime ∧
    (poll s inp).1.uiLongPress = (pollClassified s inp).1.uiLongPress := by
  rw [poll_eq]
  simp only [and_self]

theorem poll_call (s : UIState) (inp : PollInput) :
    (poll s inp).2 =
      if (pollClassified s inp).2 ≠ 0 ∧ s.uiKeypressHandler ≠ none then
        some ((pollClassified s inp).2 ||| (poll s inp).1.uiKeyStatus)
      else none := by
  have h := (poll_fields s inp).2.2.2.1
  have hk : (poll s inp).1.uiKeyStatus = (pollClassified s inp).1.uiKeyStatus := by
    rw [poll_eq]
  have hh : (poll s inp).1.uiKeypressHandler = (pollClassified s inp).1.uiKeypressHandler := by
    rw [poll_eq]
  rw [← h, hk, hh, poll_eq]

/-- A poll that registers a key press in a state whose `uiLastKeyStatus` is
the stable status: the classifier takes the "change in keypress" branch. -/
theorem poll_press (s : UIState) (inp : PollInput) (hlast : s.uiLastKeyStatus = s.uiKeyStatus)
    (hnk : pollNewKeyPress s inp ≠ 0) :
    (pollClassified s inp).2 =
      (if (poll s inp).1.uiKeyStatus = s.uiLastKeypress ∧
          toULong inp.milliseconds < s.uiDoubleClickTime then TUI_DOUBLE else TUI_PRESS) ∧
    (poll s inp).1.uiLastKeypress = (poll s inp).1.uiKeyStatus ∧
    (poll s inp).1.uiDoubleClickTime =
      toULong (toULong inp.milliseconds + UI_DOUBLE_CLICK_TIME) ∧
    (poll s inp).1.uiAutoRepeatTime =
      toULong (toULong inp.milliseconds + UI_AUTO_REPEAT_DELAY) ∧
    (poll s inp).1.uiLongPress = 0 ∧
    (poll s inp).1.uiKeyStatus ≠ 0 := by
  obtain ⟨j, hj, hc, hr, hk⟩ := (pollNewKeyPress_ne_zero s inp).mp hnk
  have hbit : (poll s inp).1.uiKeyStatus.testBit j = true := by
    rw [poll_bit s inp j hj, if_pos hc]; exact hr
  have hks := (poll_fields s inp).1
  have h0 : (pollDebounced s inp).1.uiKeyStatus ≠ 0 := by
    rw [← hks]
    intro h
    rw [h, Nat.zero_testBit] at hbit
    cases hbit
  have hfr := pollDebounced_frame s inp
  have hl : (pollDebounced s inp).1.uiLastKeyStatus = s.uiKeyStatus := by
    rw [hfr]; exact hlast
  have hlk : (pollDebounced s inp).1.uiLastKeypress = s.uiLastKeypress := by rw [hfr]
  have hdc : (pollDebounced s inp).1.uiDoubleClickTime = s.uiDoubleClickTime := by rw [hfr]
  have hne : (pollDebounced s inp).1.uiKeyStatus ≠ (pollDebounced s inp).1.uiLastKeyStatus := by
    rw [hl, ← hks]
    intro h
    rw [h, hk] at hbit
    cases hbit
  obtain ⟨c1, c2, c3, c4, c5⟩ := classify_press (pollDebounced s inp).1 (pollDebounced s inp).2
    (toULong inp.milliseconds) h0 hne hnk
  rw [hlk, hdc, ← hks] at c1
  rw [← pollClassified_def] at c1 c2 c3 c4 c5
  obtain ⟨e1, e2, e3, e4⟩ := poll_classified_fields s inp
  refine ⟨c1, ?_, ?_, ?_, ?_, ?_⟩
  · rw [hks, e1]; exact c2
  · rw [e2]; exact c3
  · rw [e3]; exact c4
  · rw [e4]; exact c5
  · rw [hks]; exact h0

/-- A poll that registers no key press keeps the last pressed combination and
the double-click deadline. -/
theorem poll_no_press (s : UIState) (inp : PollInput) (hnk : pollNewKeyPress s inp = 0) :
    (poll s inp).1.uiLastKeypress = s.uiLastKeypress ∧
    (poll s inp).1.uiDoubleClickTime = s.uiDoubleClickTime := by
  have hfr := pollDebounced_frame s inp
  have hlk : (pollDebounced s inp).1.uiLastKeypress = s.uiLastKeypress := by rw [hfr]
  have hdc : (pollDebounced s inp).1.uiDoubleClickTime = s.uiDoubleClickTime := by rw [hfr]
  have h := classify_no_press (pollDebounced s inp).1 (toULong inp.milliseconds)
  unfold pollNewKeyPress at hnk
  have e2 : pollClassified s inp = classify (pollDebounced s inp).1 0 (toULong inp.milliseconds) := by
    rw [pollClassified_def, hnk]
  obtain ⟨e1, e3, _, _⟩ := poll_classified_fields s inp
  rw [e1, e3, e2]
  exact ⟨h.1.trans hlk, h.2.trans hdc⟩

theorem noNewPress_keeps (mids : List PollInput) : ∀ s : UIState, noNewPress s mids →
    (pollState s mids).uiLastKeypress = s.uiLastKeypress ∧
    (pollState s mids).uiDoubleClickTime = s.uiDoubleClickTime ∧
    (pollState s mids).uiKeypressHandler = s.uiKeypressHandler ∧
    (s.uiLastKeyStatus = s.uiKeyStatus →
      (pollState s mids).uiLastKeyStatus = (pollState s mids).uiKeyStatus) := by
  induction mids with
  | nil => intro s _; exact ⟨rfl, rfl, rfl, fun h => h⟩
  | cons inp rest ih =>
    intro s h
    rw [noNewPress_cons] at h
    obtain ⟨h1, h2⟩ := h
    obtain ⟨a, b, c, d⟩ := ih (poll s inp).1 h2
    obtain ⟨p1, p2⟩ := poll_no_press s inp h1
    have pf := poll_fields s inp
    rw [pollState_cons]
    refine ⟨?_, ?_, ?_, ?_⟩
    · rw [a, p1]
    · rw [b, p2]
    · rw [c, pf.2.2.2.1]
    · intro _
      exact d pf.2.2.1

theorem classify_flags (s : UIState) (nk ms : Nat) :
    (classify s nk ms).2 = 0 ∨ (classify s nk ms).2 = TUI_HOLD ∨ (classify s nk ms).2 = TUI_AUTO ∨
    (((classify s nk ms).2 = TUI_PRESS ∨ (classify s nk ms).2 = TUI_DOUBLE) ∧
      (classify s nk ms).1.uiLastKeypress = s.uiKeyStatus ∧
      (classify s nk ms).1.uiDoubleClickTime = toULong (ms + UI_DOUBLE_CLICK_TIME)) := by
  by_cases h0 : s.uiKeyStatus = 0
  · left; exact classify_idle s nk ms h0
  · by_cases hne : s.uiKeyStatus ≠ s.uiLastKeyStatus
    · by_cases hnk : nk = 0
      · left; subst hnk; exact (classify_release s ms hne).1
      · obtain ⟨c1, c2, c3, _⟩ := classify_press s nk ms h0 hne hnk
        right; right; right
        refine ⟨?_, c2, c3⟩
        rw [c1]
        split_ifs
        · right; rfl
        · left; rfl
    · have h := (classify_held s nk ms h0 (not_not.mp hne)).1
      rw [h]
      split_ifs
      · right; right; left; rfl
      · right; left; rfl
      · left; rfl

/-- The event kind is disjoint from the key byte: the handler argument
determines both. -/
theorem flags_or_key (f g k : Nat) (hk : k < 256)
    (hf : f = 0 ∨ f = TUI_HOLD ∨ f = TUI_AUTO ∨ f = TUI_PRESS ∨ f = TUI_DOUBLE)
    (hg : g = TUI_PRESS ∨ g = TUI_DOUBLE) (h : f ||| k = g ||| k) : f = g := by
  have hb : ∀ b, 8 ≤ b → f.testBit b = g.testBit b := by
    intro b hb
    have := congrArg (fun x => x.testBit b) h
    simpa [Nat.testBit_or, testBit_of_lt_256 k b hk hb] using this
  have h8 := hb 8 (by decide)
  have h11 := hb 11 (by decide)
  rcases hf with hf | hf | hf | hf | hf <;> rcases hg with hg | hg <;> subst hf <;> subst hg <;>
    first | rfl | (exact absurd h8 (by decide)) | (exact absurd h11 (by decide))

/-- Claim C5: in a reachable state, (1) if a poll at `t1` calls the handler
with `TUI_PRESS|k` or `TUI_DOUBLE|k`, the polls after it register no key press,
and the next poll that does register one is at `t2 ≥ t1` (clock values below
2^32, `t1 + 200 < 2^32`) and ends with stable status `k`, then that poll calls
the handler with `TUI_DOUBLE|k` when `t2 - t1 < 200` and with `TUI_PRESS|k`
when `t2 - t1 ≥ 200`; (2) with a handler registered, a poll that registers a
key press and ends with a status different from `uiLastKeypress` calls the
handler with `TUI_PRESS`, whatever the clock value. -/
theorem press_or_double (s : UIState) (hs : Reachable s) :
    (∀ (inp1 : PollInput) (mids : List PollInput) (inp2 : PollInput) (k : Nat),
      (poll s inp1).1.uiKeyStatus = k →
      ((poll s inp1).2 = some (TUI_PRESS ||| k) ∨ (poll s inp1).2 = some (TUI_DOUBLE ||| k)) →
      noNewPress (poll s inp1).1 mids →
      pollNewKeyPress (pollState (poll s inp1).1 mids) inp2 ≠ 0 →
      (poll (pollState (poll s inp1).1 mids) inp2).1.uiKeyStatus = k →
      inp1.milliseconds ≤ inp2.milliseconds → inp2.milliseconds < 2 ^ 32 →
      inp1.milliseconds + 200 < 2 ^ 32 →
      (inp2.milliseconds - inp1.milliseconds < 200 →
        (poll (pollState (poll s inp1).1 mids) inp2).2 = some (TUI_DOUBLE ||| k)) ∧
      (200 ≤ inp2.milliseconds - inp1.milliseconds →
        (poll (pollState (poll s inp1).1 mids) inp2).2 = some (TUI_PRESS ||| k))) ∧
    (∀ inp : PollInput, pollNewKeyPress s inp ≠ 0 →
      (poll s inp).1.uiKeyStatus ≠ s.uiLastKeypress → s.uiKeypressHandler ≠ none →
      (poll s inp).2 = some (TUI_PRESS ||| (poll s inp).1.uiKeyStatus)) := by
  obtain ⟨hlt, hlast, _⟩ := reachable_inv s hs
  constructor
  · intro inp1 mids inp2 k hk hemit hmid hnew hsame ht ht2 ht1
    -- the first poll took the key press branch
    have hklt : k < 256 := by rw [← hk]; exact poll_keyStatus_lt s inp1 hlt
    have hcall := poll_call s inp1
    have hfl := classify_flags (pollDebounced s inp1).1 (pollDebounced s inp1).2
      (toULong inp1.milliseconds)
    rw [← pollClassified_def] at hfl
    have hh : s.uiKeypressHandler ≠ none := by
      intro hn
      rw [hn] at hcall
      simp only [ne_eq, not_true_eq_false, and_false, if_false] at hcall
      rcases hemit with h | h <;> rw [hcall] at h <;> cases h
    have hf0 : (pollClassified s inp1).2 ≠ 0 := by
      intro hn
      rw [hn] at hcall
      simp only [ne_eq, not_true_eq_false, false_and, if_false] at hcall
      rcases hemit with h | h <;> rw [hcall] at h <;> cases h
    rw [if_pos ⟨hf0, hh⟩, hk] at hcall
    have hpd : (pollClassified s inp1).2 = TUI_PRESS ∨ (pollClassified s inp1).2 = TUI_DOUBLE := by
      have hf5 : (pollClassified s inp1).2 = 0 ∨ (pollClassified s inp1).2 = TUI_HOLD ∨
          (pollClassified s inp1).2 = TUI_AUTO ∨ (pollClassified s inp1).2 = TUI_PRESS ∨
          (pollClassified s inp1).2 = TUI_DOUBLE := by
        rcases hfl with h | h | h | h
        · exact Or.inl h
        · exact Or.inr (Or.inl h)
        · exact Or.inr (Or.inr (Or.inl h))
        · rcases h.1 with h | h
          · exact Or.inr (Or.inr (Or.inr (Or.inl h)))
          · exact Or.inr (Or.inr (Or.inr (Or.inr h)))
      rcases hemit with h | h
      · rw [hcall] at h
        left
        exact flags_or_key _ _ k hklt hf5 (Or.inl rfl) (Option.some.inj h)
      · rw [hcall] at h
        right
        exact flags_or_key _ _ k hklt hf5 (Or.inr rfl) (Option.some.inj h)
    have hst : (pollClassified s inp1).1.uiLastKeypress = (pollDebounced s inp1).1.uiKeyStatus ∧
        (pollClassified s inp1).1.uiDoubleClickTime =
          toULong (toULong inp1.milliseconds + UI_DOUBLE_CLICK_TIME) := by
      rcases hfl with h | h | h | h
      · exact absurd h hf0
      · rcases hpd with h2 | h2 <;> rw [h] at h2 <;> exact absurd h2 (by decide)
      · rcases hpd with h2 | h2 <;> rw [h] at h2 <;> exact absurd h2 (by decide)
      · exact h.2
    obtain ⟨e1, e2, _, _⟩ := poll_classified_fields s inp1
    have pf1 := poll_fields s inp1
    have hlk1 : (poll s inp1).1.uiLastKeypress = k := by
      rw [e1, hst.1, ← pf1.1, hk]
    have hdc1 : (poll s inp1).1.uiDoubleClickTime = inp1.milliseconds + 200 := by
      rw [e2, hst.2]
      simp only [toULong, UI_DOUBLE_CLICK_TIME]
      omega
    -- the polls in between keep what the first poll stored
    obtain ⟨m1, m2, m3, m4⟩ := noNewPress_keeps mids (poll s inp1).1 hmid
    have hlast2 := m4 pf1.2.2.1
    obtain ⟨c1, _⟩ := poll_press (pollState (poll s inp1).1 mids) inp2 hlast2 hnew
    rw [m1, m2, hlk1, hdc1, hsame] at c1
    have hms2 : toULong inp2.milliseconds = inp2.milliseconds := Nat.mod_eq_of_lt ht2
    rw [hms2] at c1
    have hcall2 := poll_call (pollState (poll s inp1).1 mids) inp2
    rw [m3, pf1.2.2.2.1, hsame] at hcall2
    constructor
    · intro hd
      rw [if_pos ⟨rfl, by omega⟩] at c1
      rw [hcall2, c1, if_pos ⟨by decide, hh⟩]
    · intro hd
      rw [if_neg (fun h => by omega)] at c1
      rw [hcall2, c1, if_pos ⟨by decide, hh⟩]
  · intro inp hnk hne hh
    obtain ⟨c1, _⟩ := poll_press s inp hlast hnk
    rw [if_neg (fun h => hne h.1)] at c1
    rw [poll_call s inp, c1, if_pos ⟨by decide, hh⟩]

/-! ### Debounce lock-out -/

/-- While the counter of switch `i` runs, polls leave its stable bit alone and
count down by one each. -/
theorem lockout_run (i : Nat) (hi : i < 6) (inps : List PollInput) : ∀ s : UIState,
    inps.length ≤ s.uiDebounceCount i →
    (pollState s inps).uiKeyStatus.testBit i = s.uiKeyStatus.testBit i ∧
    (pollState s inps).uiDebounceCount i = s.uiDebounceCount i - inps.length := by
  induction inps with
  | nil => intro s _; exact ⟨rfl, rfl⟩
  | cons inp rest ih =>
    intro s h
    simp only [List.length_cons] at h
    have hc : s.uiDebounceCount i ≠ 0 := by omega
    have hb := poll_bit s inp i hi
    rw [if_neg hc] at hb
    have hn := poll_count s inp i hi
    rw [if_pos hc] at hn
    obtain ⟨a, b⟩ := ih (poll s inp).1 (by rw [hn]; omega)
    rw [pollState_cons]
    refine ⟨a.trans hb, ?_⟩
    rw [b, hn, List.length_cons]
    omega

/-- A poll that flips the stable bit of switch `i` reloads its counter. -/
theorem flip_reloads (s : UIState) (inp : PollInput) (i : Nat) (hi : i < 6)
    (hflip : (poll s inp).1.uiKeyStatus.testBit i ≠ s.uiKeyStatus.testBit i) :
    s.uiDebounceCount i = 0 ∧ (poll s inp).1.uiDebounceCount i = UI_DEBOUNCE_MS ∧
    (poll s inp).1.uiKeyStatus.testBit i = (pollSample s inp).testBit i := by
  have hb := poll_bit s inp i hi
  have hn := poll_count s inp i hi
  by_cases hc : s.uiDebounceCount i = 0
  · rw [if_pos hc] at hb
    rw [if_neg (not_not.mpr hc), if_pos (by rw [← hb]; exact hflip)] at hn
    exact ⟨hc, hn, hb⟩
  · rw [if_neg hc] at hb
    exact absurd hb hflip

theorem pollSample_low (s : UIState) (t : Nat) :
    pollSample s { raw := 0, digitalRead := fun _ => true, milliseconds := t } = 0 := by
  unfold pollSample pollEntry sampleExtraKeys checKeyPin
  simp only [Bool.not_true, Bool.false_eq_true, if_false]
  split_ifs <;> simp [byteAndNot, toByte, TUI_KEY_A, TUI_KEY_B, TUI_KEY_C]

theorem pollSample_high (s : UIState) (t : Nat) :
    pollSample s { raw := 255, digitalRead := fun _ => false, milliseconds := t } = 255 := by
  unfold pollSample pollEntry sampleExtraKeys checKeyPin
  simp only [Bool.not_false, if_true]
  split_ifs <;> simp [byteOr, toByte, TUI_KEY_A, TUI_KEY_B, TUI_KEY_C]

/-- With no extra key pin set, the debounce loop reads the sample of the
refresh interrupt. -/
theorem pollSample_no_pins (s : UIState) (inp : PollInput) (ha : s.uiKeyAPin = 0)
    (hb : s.uiKeyBPin = 0) (hc : s.uiKeyCPin = 0) : pollSample s inp = toByte inp.raw := by
  unfold pollSample pollEntry sampleExtraKeys
  simp only [ha, hb, hc, ne_eq, not_true_eq_false, if_false]

theorem pollState_append (s : UIState) (xs ys : List PollInput) :
    pollState s (xs ++ ys) = pollState (pollState s xs) ys := by
  induction xs generalizing s with
  | nil => rfl
  | cons x xs ih => rw [List.cons_append, pollState_cons, pollState_cons, ih]

/-- Claim C8: if a poll flips stable bit `i` (`i < 6`), the counter of switch
`i` is 20 after it, the bit keeps its new value after every run of at most 20
further polls whatever their inputs, and after any 20 polls there is an input
for a 21st poll that flips it again. -/
theorem debounce_lockout (s : UIState) (inp : PollInput) (i : Nat) (hi : i < 6)
    (hflip : (poll s inp).1.uiKeyStatus.testBit i ≠ s.uiKeyStatus.testBit i) :
    (poll s inp).1.uiDebounceCount i = UI_DEBOUNCE_MS ∧
    (∀ inps : List PollInput, inps.length ≤ 20 →
      (pollState (poll s inp).1 inps).uiKeyStatus.testBit i =
        (poll s inp).1.uiKeyStatus.testBit i) ∧
    (∀ inps : List PollInput, inps.length = 20 → ∃ inp21 : PollInput,
      (pollState (poll s inp).1 (inps ++ [inp21])).uiKeyStatus.testBit i ≠
        (poll s inp).1.uiKeyStatus.testBit i) := by
  obtain ⟨_, hcnt, _⟩ := flip_reloads s inp i hi hflip
  refine ⟨hcnt, ?_, ?_⟩
  · intro inps hlen
    exact (lockout_run i hi inps (poll s inp).1 (by rw [hcnt]; exact hlen)).1
  · intro inps hlen
    obtain ⟨hb, hc⟩ := lockout_run i hi inps (poll s inp).1 (by rw [hcnt, hlen]; decide)
    rw [hcnt, hlen] at hc
    have hc0 : (pollState (poll s inp).1 inps).uiDebounceCount i = 0 := hc
    cases hv : (poll s inp).1.uiKeyStatus.testBit i with
    | true =>
      refine ⟨{ raw := 0, digitalRead := fun _ => true, milliseconds := 0 }, ?_⟩
      rw [pollState_append, pollState_cons, pollState_nil, poll_bit _ _ i hi, if_pos hc0,
        pollSample_low]
      simp
    | false =>
      refine ⟨{ raw := 255, digitalRead := fun _ => false, milliseconds := 0 }, ?_⟩
      rw [pollState_append, pollState_cons, pollState_nil, poll_bit _ _ i hi, if_pos hc0,
        pollSample_high]
      have : (255 : Nat).testBit i = true := by
        rw [testBit_255]; simp; omega
      simp [this]

/-! ### The stable status as a byte -/

theorem byte_ext (x y : Nat) (hx : x < 256) (hy : y < 256)
    (h : ∀ j, j < 8 → x.testBit j = y.testBit j) : x = y := by
  apply Nat.eq_of_testBit_eq
  intro j
  by_cases hj : j < 8
  · exact h j hj
  · rw [testBit_of_lt_256 x j hx (by omega), testBit_of_lt_256 y j hy (by omega)]

/-- A poll whose raw sample agrees with the stable status on the six switch
bits changes no stable bit, registers no key press and counts every running
debounce counter down by one. -/
theorem poll_steady (s : UIState) (inp : PollInput) (hlt : s.uiKeyStatus < 256)
    (h : ∀ j, j < 6 → (pollSample s inp).testBit j = s.uiKeyStatus.testBit j) :
    (poll s inp).1.uiKeyStatus = s.uiKeyStatus ∧ pollNewKeyPress s inp = 0 ∧
    ∀ j, j < 6 → (poll s inp).1.uiDebounceCount j = s.uiDebounceCount j - 1 := by
  refine ⟨?_, ?_, ?_⟩
  · apply byte_ext _ _ (poll_keyStatus_lt s inp hlt) hlt
    intro j hj
    by_cases h6 : j < 6
    · rw [poll_bit s inp j h6]
      split_ifs
      · exact h j h6
      · rfl
    · exact poll_bit_high s inp j (by omega) hj
  · by_contra hne
    obtain ⟨j, hj, _, hr, hk⟩ := (pollNewKeyPress_ne_zero s inp).mp hne
    rw [h j hj, hk] at hr
    cases hr
  · intro j hj
    rw [poll_count s inp j hj]
    by_cases hc : s.uiDebounceCount j = 0
    · rw [if_neg (not_not.mpr hc), if_neg (not_not.mpr (h j hj)), hc]
    · rw [if_pos hc]

/-- From a state with no stable key and all counters at 0, the stable status
after a poll is the raw sample restricted to the six switch bits. -/
theorem poll_from_idle (s : UIState) (inp : PollInput) (k : Nat) (hk : k < 64)
    (h0 : s.uiKeyStatus = 0) (hc : ∀ j, j < 6 → s.uiDebounceCount j = 0)
    (hraw : ∀ j, j < 6 → (pollSample s inp).testBit j = k.testBit j) :
    (poll s inp).1.uiKeyStatus = k := by
  apply byte_ext _ _ (poll_keyStatus_lt s inp (by rw [h0]; decide)) (by omega)
  intro j hj
  by_cases h6 : j < 6
  · rw [poll_bit s inp j h6, if_pos (hc j h6)]
    exact hraw j h6
  · rw [poll_bit_high s inp j (by omega) hj, h0, Nat.zero_testBit]
    symm
    apply Nat.testBit_lt_two_pow
    calc k < 2 ^ 6 := hk
      _ ≤ 2 ^ j := Nat.pow_le_pow_right (by decide) (by omega)

theorem classify_quiet (s : UIState) (ms : Nat) :
    (classify s 0 ms).2 = 0 ∨ (classify s 0 ms).2 = TUI_HOLD ∨ (classify s 0 ms).2 = TUI_AUTO := by
  by_cases h0 : s.uiKeyStatus = 0
  · left; exact classify_idle s 0 ms h0
  · by_cases hne : s.uiKeyStatus ≠ s.uiLastKeyStatus
    · left; exact (classify_release s ms hne).1
    · have h := (classify_held s 0 ms h0 (not_not.mp hne)).1
      rw [h]
      split_ifs
      · right; right; rfl
      · right; left; rfl
      · left; rfl

theorem demoState_reachable : Reachable demoState :=
  Reachable.setKeypressHandler _ _ Reachable.init

/-! ### Debounce: what a short raw transition does -/

/-- Claim C9 fails: in the reachable example state the raw bit of switch 0
differs from its stable bit in one single poll and is back at the old level in
the next; the stable bit flips in the first of them, stays flipped after the
second, and the handler is called with `TUI_PRESS|1`. -/
theorem glitch_flips_stable_bit :
    Reachable demoState ∧ demoState.uiKeyStatus.testBit 0 = false ∧
    (pollSample demoState (sample 1 0)).testBit 0 = true ∧
    (pollSample (poll demoState (sample 1 0)).1 (sample 0 1)).testBit 0 = false ∧
    (poll demoState (sample 1 0)).1.uiKeyStatus.testBit 0 = true ∧
    (pollState demoState [sample 1 0, sample 0 1]).uiKeyStatus.testBit 0 = true ∧
    (poll demoState (sample 1 0)).2 = some (TUI_PRESS ||| 1) := by
  have hs1 : pollSample demoState (sample 1 0) = 1 :=
    pollSample_no_pins demoState (sample 1 0) rfl rfl rfl
  have pf := poll_fields demoState (sample 1 0)
  have hs2 : pollSample (poll demoState (sample 1 0)).1 (sample 0 1) = 0 :=
    pollSample_no_pins _ (sample 0 1) pf.2.2.2.2.1 pf.2.2.2.2.2.1 pf.2.2.2.2.2.2.1
  have hb : (poll demoState (sample 1 0)).1.uiKeyStatus.testBit 0 = true := by
    rw [poll_bit demoState (sample 1 0) 0 (by decide), if_pos (show demoState.uiDebounceCount 0 = 0 from rfl), hs1]
    rfl
  have hnk : pollNewKeyPress demoState (sample 1 0) ≠ 0 :=
    (pollNewKeyPress_ne_zero _ _).mpr ⟨0, by decide, rfl, by rw [hs1]; rfl, rfl⟩
  have hks : (poll demoState (sample 1 0)).1.uiKeyStatus = 1 :=
    poll_from_idle demoState (sample 1 0) 1 (by decide) rfl (fun _ _ => rfl)
      (fun j _ => by rw [hs1])
  obtain ⟨c1, _⟩ := poll_press demoState (sample 1 0) rfl hnk
  rw [hks, if_neg (fun h => absurd h.1 (by decide))] at c1
  refine ⟨demoState_reachable, rfl, by rw [hs1]; rfl, by rw [hs2]; rfl, hb, ?_, ?_⟩
  · rw [pollState_cons]
    have hflip : (poll demoState (sample 1 0)).1.uiKeyStatus.testBit 0 ≠
        demoState.uiKeyStatus.testBit 0 := by
      rw [hb]; decide
    obtain ⟨_, hcnt, _⟩ := flip_reloads demoState (sample 1 0) 0 (by decide) hflip
    rw [(lockout_run 0 (by decide) [sample 0 1] _ (by rw [hcnt]; decide)).1]
    exact hb
  · rw [poll_call, c1, hks, if_pos ⟨by decide, by decide⟩]

/-- Claim C9 as amended: for switch `i < 6`, (1) with `uiDebounceCount[i]` at 0
a raw bit that differs from the stable bit in one poll flips the stable bit in
that poll and reloads the counter to 20; (2) a run of at most
`uiDebounceCount[i]` polls leaves stable bit `i` alone whatever the raw samples
are; (3) while the counter of switch `i` is nonzero and the raw bits of the
other switches equal their stable bits, a poll registers no key press and
reports neither `TUI_PRESS` nor `TUI_DOUBLE`. -/
theorem stable_bit_gated_by_counter (s : UIState) (inp : PollInput) (i : Nat) (hi : i < 6) :
    (s.uiDebounceCount i = 0 → (pollSample s inp).testBit i ≠ s.uiKeyStatus.testBit i →
      (poll s inp).1.uiKeyStatus.testBit i = (pollSample s inp).testBit i ∧
      (poll s inp).1.uiDebounceCount i = UI_DEBOUNCE_MS) ∧
    (∀ inps : List PollInput, inps.length ≤ s.uiDebounceCount i →
      (pollState s inps).uiKeyStatus.testBit i = s.uiKeyStatus.testBit i) ∧
    (s.uiDebounceCount i ≠ 0 →
      (∀ j, j < 6 → j ≠ i → (pollSample s inp).testBit j = s.uiKeyStatus.testBit j) →
      pollNewKeyPress s inp = 0 ∧
      ((pollClassified s inp).2 = 0 ∨ (pollClassified s inp).2 = TUI_HOLD ∨
        (pollClassified s inp).2 = TUI_AUTO)) := by
  refine ⟨?_, ?_, ?_⟩
  · intro hc hne
    constructor
    · rw [poll_bit s inp i hi, if_pos hc]
    · rw [poll_count s inp i hi, if_neg (not_not.mpr hc), if_pos hne]
  · intro inps hlen
    exact (lockout_run i hi inps s hlen).1
  · intro hc hothers
    have hnk : pollNewKeyPress s inp = 0 := by
      by_contra hne
      obtain ⟨j, hj, hcj, hr, hk⟩ := (pollNewKeyPress_ne_zero s inp).mp hne
      by_cases hji : j = i
      · subst hji; exact hc hcj
      · rw [hothers j hj hji, hk] at hr
        cases hr
    refine ⟨hnk, ?_⟩
    rw [pollClassified_def]
    unfold pollNewKeyPress at hnk
    rw [hnk]
    exact classify_quiet _ _

/-! ### A combination held down -/

/-- One poll while the combination `k` stays down and was down at the poll
before: the stable status stays `k` and the classifier compares the clock with
the auto-repeat deadline. -/
theorem poll_held (s : UIState) (inp : PollInput) (k : Nat) (hk0 : k ≠ 0) (hk : k < 256)
    (hks : s.uiKeyStatus = k) (hlast : s.uiLastKeyStatus = k) (hraw : pollSample s inp = k) :
    (poll s inp).1.uiKeyStatus = k ∧ (poll s inp).1.uiLastKeyStatus = k ∧
    (pollClassified s inp).2 =
      (if s.uiAutoRepeatTime < toULong inp.milliseconds then
        (if s.uiLongPress ≠ 0 then TUI_AUTO else TUI_HOLD) else 0) ∧
    (poll s inp).1.uiAutoRepeatTime =
      (if s.uiAutoRepeatTime < toULong inp.milliseconds then
        toULong (toULong inp.milliseconds + UI_AUTO_REPEAT_PERIOD) else s.uiAutoRepeatTime) ∧
    (poll s inp).1.uiLongPress =
      (if s.uiAutoRepeatTime < toULong inp.milliseconds then
        (if s.uiLongPress ≠ 0 then s.uiLongPress else 1) else s.uiLongPress) := by
  obtain ⟨e1, _, _⟩ := poll_steady s inp (by rw [hks]; exact hk) (fun j _ => by rw [hraw, hks])
  have pf := poll_fields s inp
  have hfr := pollDebounced_frame s inp
  have d1 : (pollDebounced s inp).1.uiKeyStatus = k := by rw [← pf.1, e1, hks]
  have d2 : (pollDebounced s inp).1.uiLastKeyStatus = k := by rw [hfr]; exact hlast
  have d3 : (pollDebounced s inp).1.uiAutoRepeatTime = s.uiAutoRepeatTime := by rw [hfr]
  have d4 : (pollDebounced s inp).1.uiLongPress = s.uiLongPress := by rw [hfr]
  obtain ⟨c1, c2, c3⟩ := classify_held (pollDebounced s inp).1 (pollDebounced s inp).2
    (toULong inp.milliseconds) (by rw [d1]; exact hk0) (by rw [d1, d2])
  rw [← pollClassified_def] at c1 c2 c3
  simp only [d3, d4] at c1 c2 c3
  obtain ⟨_, _, f3, f4⟩ := poll_classified_fields s inp
  refine ⟨by rw [e1, hks], by rw [pf.2.2.1, e1, hks], c1, by rw [f3, c2], by rw [f4, c3]⟩

theorem tick_switchStates (s : UIState) (r : Bool) :
    (tick s r).1.uiSwitchStates =
      if r then byteOr s.uiSwitchStates (1 <<< s.uiLEDIndex)
      else byteAndNot s.uiSwitchStates (1 <<< s.uiLEDIndex) := rfl

theorem tick_switch_bit (s : UIState) (r : Bool) (b : Nat) (hb : b < 8) :
    (tick s r).1.uiSwitchStates.testBit b =
      if b = s.uiLEDIndex then r else s.uiSwitchStates.testBit b := by
  have hm : (1 <<< s.uiLEDIndex).testBit b = decide (s.uiLEDIndex = b) := by
    rw [Nat.one_shiftLeft, Nat.testBit_two_pow]
  rw [tick_switchStates]
  cases r with
  | true =>
    simp only [if_true, testBit_byteOr, hm]
    by_cases h : b = s.uiLEDIndex
    · rw [← h]; simp [hb]
    · have h2 : ¬ s.uiLEDIndex = b := fun e => h e.symm
      simp [h, h2, hb]
  | false =>
    simp only [Bool.false_eq_true, if_false, testBit_byteAndNot, hm]
    by_cases h : b = s.uiLEDIndex
    · rw [← h]; simp
    · have h2 : ¬ s.uiLEDIndex = b := fun e => h e.symm
      simp [h, h2, hb]

theorem ticks_cons (s : UIState) (r : Bool) (rest : List Bool) :
    ticks s (r :: rest) = ((ticks (tick s r).1 rest).1, s.uiLEDIndex :: (ticks (tick s r).1 rest).2) :=
  rfl

theorem ticks_nil (s : UIState) : ticks s [] = (s, []) := rfl

/-- Claim C10: the scan index of a reachable state is at most 4; from a state
with index `i0 ≤ 4`, five ticks address `i0, i0+1, .., i0+4` modulo 5 in that
order, each of 0..4 once, and return the index to `i0`; one tick writes the
level read on the switch pin into bit `uiLEDIndex` of `uiSwitchStates` and
changes no other bit of the byte; after the five ticks bit `(i0+j) mod 5` holds
the level read by tick `j` and bits 5..7 are unchanged. -/
theorem scan_coverage (s : UIState) (r0 r1 r2 r3 r4 : Bool) :
    (Reachable s → s.uiLEDIndex ≤ 4) ∧
    (s.uiLEDIndex ≤ 4 →
      (ticks s [r0, r1, r2, r3, r4]).2 =
        [s.uiLEDIndex % 5, (s.uiLEDIndex + 1) % 5, (s.uiLEDIndex + 2) % 5,
          (s.uiLEDIndex + 3) % 5, (s.uiLEDIndex + 4) % 5] ∧
      (∀ p, p < 5 → (ticks s [r0, r1, r2, r3, r4]).2.count p = 1) ∧
      (ticks s [r0, r1, r2, r3, r4]).1.uiLEDIndex = s.uiLEDIndex ∧
      (∀ (r : Bool) (b : Nat), b < 8 →
        (tick s r).1.uiSwitchStates.testBit b =
          if b = s.uiLEDIndex then r else s.uiSwitchStates.testBit b) ∧
      (∀ b, b < 8 → (ticks s [r0, r1, r2, r3, r4]).1.uiSwitchStates.testBit b =
        if b = s.uiLEDIndex % 5 then r0
        else if b = (s.uiLEDIndex + 1) % 5 then r1
        else if b = (s.uiLEDIndex + 2) % 5 then r2
        else if b = (s.uiLEDIndex + 3) % 5 then r3
        else if b = (s.uiLEDIndex + 4) % 5 then r4
        else s.uiSwitchStates.testBit b)) := by
  refine ⟨fun hs => (reachable_inv s hs).2.2, ?_⟩
  intro hidx
  -- the five states and their indices
  have i1 := tick_index s r0 hidx
  have l1 : (tick s r0).1.uiLEDIndex ≤ 4 := by rw [i1]; split_ifs <;> omega
  have i2 := tick_index (tick s r0).1 r1 l1
  have l2 : (tick (tick s r0).1 r1).1.uiLEDIndex ≤ 4 := by rw [i2]; split_ifs <;> omega
  have i3 := tick_index (tick (tick s r0).1 r1).1 r2 l2
  have l3 : (tick (tick (tick s r0).1 r1).1 r2).1.uiLEDIndex ≤ 4 := by
    rw [i3]; split_ifs <;> omega
  have i4 := tick_index (tick (tick (tick s r0).1 r1).1 r2).1 r3 l3
  have l4 : (tick (tick (tick (tick s r0).1 r1).1 r2).1 r3).1.uiLEDIndex ≤ 4 := by
    rw [i4]; split_ifs <;> omega
  have i5 := tick_index (tick (tick (tick (tick s r0).1 r1).1 r2).1 r3).1 r4 l4
  have e1 : (tick s r0).1.uiLEDIndex = (s.uiLEDIndex + 1) % 5 := by
    rw [i1]; split_ifs <;> omega
  have e2 : (tick (tick s r0).1 r1).1.uiLEDIndex = (s.uiLEDIndex + 2) % 5 := by
    rw [i2, e1]; split_ifs <;> omega
  have e3 : (tick (tick (tick s r0).1 r1).1 r2).1.uiLEDIndex = (s.uiLEDIndex + 3) % 5 := by
    rw [i3, e2]; split_ifs <;> omega
  have e4 : (tick (tick (tick (tick s r0).1 r1).1 r2).1 r3).1.uiLEDIndex =
      (s.uiLEDIndex + 4) % 5 := by
    rw [i4, e3]; split_ifs <;> omega
  have e5 : (tick (tick (tick (tick (tick s r0).1 r1).1 r2).1 r3).1 r4).1.uiLEDIndex =
      s.uiLEDIndex := by
    rw [i5, e4]; split_ifs <;> omega
  have e0 : s.uiLEDIndex = s.uiLEDIndex % 5 := by omega
  have hpos : (ticks s [r0, r1, r2, r3, r4]).2 =
      [s.uiLEDIndex % 5, (s.uiLEDIndex + 1) % 5, (s.uiLEDIndex + 2) % 5,
        (s.uiLEDIndex + 3) % 5, (s.uiLEDIndex + 4) % 5] := by
    simp only [ticks_cons, ticks_nil, e1, e2, e3, e4]
    rw [← e0]
  have hfin : (ticks s [r0, r1, r2, r3, r4]).1 =
      (tick (tick (tick (tick (tick s r0).1 r1).1 r2).1 r3).1 r4).1 := by
    simp only [ticks_cons, ticks_nil]
  refine ⟨hpos, ?_, ?_, fun r b hb => tick_switch_bit s r b hb, ?_⟩
  · intro p hp
    rw [hpos]
    have h5 : s.uiLEDIndex = 0 ∨ s.uiLEDIndex = 1 ∨ s.uiLEDIndex = 2 ∨ s.uiLEDIndex = 3 ∨
        s.uiLEDIndex = 4 := by omega
    rcases h5 with h | h | h | h | h <;> rw [h] <;> interval_cases p <;> decide
  · rw [hfin, e5]
  · intro b hb
    rw [hfin, tick_switch_bit _ r4 b hb, tick_switch_bit _ r3 b hb, tick_switch_bit _ r2 b hb,
      tick_switch_bit _ r1 b hb, tick_switch_bit _ r0 b hb, e1, e2, e3, e4]
    have h5 : s.uiLEDIndex = 0 ∨ s.uiLEDIndex = 1 ∨ s.uiLEDIndex = 2 ∨ s.uiLEDIndex = 3 ∨
        s.uiLEDIndex = 4 := by omega
    rcases h5 with h | h | h | h | h <;> rw [h] <;> interval_cases b <;> simp

/-! ### Worked traces on switch 0 -/

theorem testBit_le_one (x j : Nat) (hx : x ≤ 1) (hj : 1 ≤ j) : x.testBit j = false := by
  apply Nat.testBit_lt_two_pow
  calc x < 2 ^ 1 := by omega
    _ ≤ 2 ^ j := Nat.pow_le_pow_right (by decide) hj

theorem testBit_zero_le_one (x : Nat) (hx : x ≤ 1) : x.testBit 0 = decide (x = 1) := by
  have h : x = 0 ∨ x = 1 := by omega
  rcases h with h | h <;> subst h <;> rfl

theorem demoState_onlyKey0 : onlyKey0 demoState 0 0 :=
  ⟨demoState_reachable, by decide, rfl, rfl, rfl, rfl, by decide, rfl, fun _ _ _ => rfl⟩

/-- One poll in a single-switch state with raw sample 0 or 1. -/
theorem onlyKey0_poll (s : UIState) (ks c0 raw t : Nat) (h : onlyKey0 s ks c0) (hraw : raw ≤ 1) :
    onlyKey0 (poll s (sample raw t)).1 (if c0 = 0 then raw else ks)
      (if c0 ≠ 0 then c0 - 1 else if raw ≠ ks then UI_DEBOUNCE_MS else 0) ∧
    (pollNewKeyPress s (sample raw t) ≠ 0 ↔ c0 = 0 ∧ raw = 1 ∧ ks = 0) := by
  obtain ⟨hr, hh, pa, pb, pc, hks, hk1, hc0, hcj⟩ := h
  have hsm : pollSample s (sample raw t) = raw := by
    rw [pollSample_no_pins s _ pa pb pc]
    exact Nat.mod_eq_of_lt (by show raw < 256; omega)
  have pf := poll_fields s (sample raw t)
  have hlt := (reachable_inv s hr).1
  have hnew : (if c0 = 0 then raw else ks) ≤ 1 := by split_ifs <;> assumption
  have hbit0 : (raw.testBit 0 ≠ ks.testBit 0) ↔ raw ≠ ks := by
    rw [testBit_zero_le_one raw hraw, testBit_zero_le_one ks hk1]
    have h1 : raw = 0 ∨ raw = 1 := by omega
    have h2 : ks = 0 ∨ ks = 1 := by omega
    rcases h1 with h1 | h1 <;> rcases h2 with h2 | h2 <;> subst h1 <;> subst h2 <;> decide
  refine ⟨⟨Reachable.poll s _ hr, by rw [pf.2.2.2.1]; exact hh, pf.2.2.2.2.1.trans pa,
    pf.2.2.2.2.2.1.trans pb, pf.2.2.2.2.2.2.1.trans pc, ?_, hnew, ?_, ?_⟩, ?_⟩
  · apply byte_ext _ _ (poll_keyStatus_lt s _ hlt) (by omega)
    intro j hj
    by_cases h6 : j < 6
    · rw [poll_bit s _ j h6, hsm, hks]
      by_cases hj0 : j = 0
      · subst hj0
        rw [hc0]
        split_ifs <;> rfl
      · rw [hcj j (by omega) h6, if_pos rfl, testBit_le_one raw j hraw (by omega),
          testBit_le_one _ j hnew (by omega)]
    · rw [poll_bit_high s _ j (by omega) hj, hks, testBit_le_one ks j hk1 (by omega),
        testBit_le_one _ j hnew (by omega)]
  · rw [poll_count s _ 0 (by decide), hsm, hks, hc0]
    by_cases hz : c0 = 0
    · rw [if_neg (not_not.mpr hz), if_neg (not_not.mpr hz)]
      by_cases hne : raw ≠ ks
      · rw [if_pos (hbit0.mpr hne), if_pos hne]
      · rw [if_neg (fun hh => hne (hbit0.mp hh)), if_neg hne]
    · rw [if_pos hz, if_pos hz]
  · intro j h1 h6
    rw [poll_count s _ j h6, hsm, hks, hcj j h1 h6, if_neg (by decide),
      testBit_le_one raw j hraw h1, testBit_le_one ks j hk1 h1, if_neg (by decide)]
  · rw [pollNewKeyPress_ne_zero, hsm, hks]
    constructor
    · rintro ⟨j, hj, hc, hrb, hkb⟩
      have hj0 : j = 0 := by
        by_contra hne
        rw [testBit_le_one raw j hraw (by omega)] at hrb
        cases hrb
      subst hj0
      rw [testBit_zero_le_one raw hraw] at hrb
      rw [testBit_zero_le_one ks hk1] at hkb
      rw [hc0] at hc
      exact ⟨hc, of_decide_eq_true hrb, by
        have := of_decide_eq_false hkb
        omega⟩
    · rintro ⟨hc, hr1, hk0⟩
      subst hr1
      subst hk0
      exact ⟨0, by decide, by rw [hc0]; exact hc, rfl, rfl⟩

/-- Polls with the raw sample at the stable level: the counter of switch 0
runs down and no key press is registered. -/
theorem onlyKey0_wait (n : Nat) : ∀ (s : UIState) (ks c0 t : Nat), onlyKey0 s ks c0 →
    onlyKey0 (pollState s (List.replicate n (sample ks t))) ks (c0 - n) ∧
    noNewPress s (List.replicate n (sample ks t)) := by
  induction n with
  | zero => intro s ks c0 t h; exact ⟨h, trivial⟩
  | succ n ih =>
    intro s ks c0 t h
    have hk1 : ks ≤ 1 := h.2.2.2.2.2.2.1
    obtain ⟨a, b⟩ := onlyKey0_poll s ks c0 ks t h hk1
    have e1 : (if c0 = 0 then ks else ks) = ks := by split_ifs <;> rfl
    have e2 : (if c0 ≠ 0 then c0 - 1 else if ks ≠ ks then UI_DEBOUNCE_MS else 0) = c0 - 1 := by
      by_cases hz : c0 = 0
      · rw [if_neg (not_not.mpr hz), if_neg (not_not.mpr rfl), hz]
      · rw [if_pos hz]
    rw [e1, e2] at a
    obtain ⟨c, d⟩ := ih (poll s (sample ks t)).1 ks (c0 - 1) t a
    rw [List.replicate_succ, pollState_cons, noNewPress_cons]
    refine ⟨?_, ?_, d⟩
    · rw [show c0 - (n + 1) = c0 - 1 - n by omega]
      exact c
    · by_contra hne
      obtain ⟨_, h1, h0⟩ := b.mp hne
      omega

theorem noNewPress_append (xs ys : List PollInput) : ∀ s : UIState,
    noNewPress s xs → noNewPress (pollState s xs) ys → noNewPress s (xs ++ ys) := by
  induction xs with
  | nil => intro s _ h; exact h
  | cons x xs ih =>
    intro s h1 h2
    rw [noNewPress_cons] at h1
    rw [List.cons_append, noNewPress_cons]
    rw [pollState_cons] at h2
    exact ⟨h1.1, ih _ h1.2 h2⟩

/-- Switch 0 pressed in the example state. -/
theorem demo_press (t : Nat) :
    onlyKey0 (poll demoState (sample 1 t)).1 1 UI_DEBOUNCE_MS ∧
    (poll demoState (sample 1 t)).2 = some (TUI_PRESS ||| 1) := by
  obtain ⟨a, b⟩ := onlyKey0_poll demoState 0 0 1 t demoState_onlyKey0 (by decide)
  have hnk := b.mpr ⟨rfl, rfl, rfl⟩
  have hks : (poll demoState (sample 1 t)).1.uiKeyStatus = 1 := a.2.2.2.2.2.1
  obtain ⟨c1, _⟩ := poll_press demoState (sample 1 t) rfl hnk
  rw [hks, if_neg (fun h => absurd h.1 (by decide))] at c1
  refine ⟨a, ?_⟩
  rw [poll_call, c1, hks, if_pos ⟨by decide, by decide⟩]

/-- The example trace: after the press and 20 more polls with the key down the
counter has run out; the next poll sees the release; 20 polls later the
counter has run out again. -/
theorem demo_trace :
    onlyKey0 (pollState (poll demoState (sample 1 1000)).1
      (List.replicate 20 (sample 1 1001))) 1 0 ∧
    noNewPress (poll demoState (sample 1 1000)).1 doubleClickGap ∧
    onlyKey0 (pollState (poll demoState (sample 1 1000)).1 doubleClickGap) 0 0 := by
  obtain ⟨p, _⟩ := demo_press 1000
  obtain ⟨h1, n1⟩ := onlyKey0_wait 20 _ 1 UI_DEBOUNCE_MS 1001 p
  have h1b : onlyKey0 (pollState (poll demoState (sample 1 1000)).1
      (List.replicate 20 (sample 1 1001))) 1 0 := h1
  obtain ⟨h2, n2⟩ := onlyKey0_poll _ 1 0 0 1002 h1b (by decide)
  have n2b : pollNewKeyPress (pollState (poll demoState (sample 1 1000)).1
      (List.replicate 20 (sample 1 1001))) (sample 0 1002) = 0 := by
    by_contra hne
    have := (n2.mp hne).2.1
    cases this
  have h2b : onlyKey0 (poll (pollState (poll demoState (sample 1 1000)).1
      (List.replicate 20 (sample 1 1001))) (sample 0 1002)).1 0 UI_DEBOUNCE_MS := h2
  obtain ⟨h3, n3⟩ := onlyKey0_wait 20 _ 0 UI_DEBOUNCE_MS 1003 h2b
  refine ⟨h1b, ?_, ?_⟩
  · unfold doubleClickGap
    apply noNewPress_append _ _ _ n1
    apply noNewPress_append
    · rw [noNewPress_cons]
      exact ⟨n2b, trivial⟩
    · rw [pollState_cons, pollState_nil]
      exact n3
  · unfold doubleClickGap
    rw [pollState_append, pollState_append, pollState_cons, pollState_nil]
    exact h3

/-- Claim C5 on the example trace: switch 0 pressed at 1000, released, and
pressed again at 1100 gives `TUI_DOUBLE|1`; pressed again at 1200 instead gives
`TUI_PRESS|1`; the first press from the example state gives `TUI_PRESS`. -/
theorem press_or_double_witness :
    (poll (pollState (poll demoState (sample 1 1000)).1 doubleClickGap) (sample 1 1100)).2 =
      some (TUI_DOUBLE ||| 1) ∧
    (poll (pollState (poll demoState (sample 1 1000)).1 doubleClickGap) (sample 1 1200)).2 =
      some (TUI_PRESS ||| 1) ∧
    (poll demoState (sample 1 7)).2 =
      some (TUI_PRESS ||| (poll demoState (sample 1 7)).1.uiKeyStatus) := by
  obtain ⟨p, pc⟩ := demo_press 1000
  obtain ⟨_, gap, idle⟩ := demo_trace
  have hks : (poll demoState (sample 1 1000)).1.uiKeyStatus = 1 := p.2.2.2.2.2.1
  have again : ∀ t, pollNewKeyPress
      (pollState (poll demoState (sample 1 1000)).1 doubleClickGap) (sample 1 t) ≠ 0 ∧
      (poll (pollState (poll demoState (sample 1 1000)).1 doubleClickGap)
        (sample 1 t)).1.uiKeyStatus = 1 := by
    intro t
    obtain ⟨a, b⟩ := onlyKey0_poll _ 0 0 1 t idle (by decide)
    exact ⟨b.mpr ⟨rfl, rfl, rfl⟩, a.2.2.2.2.2.1⟩
  obtain ⟨q, _⟩ := demo_press 7
  have first : pollNewKeyPress demoState (sample 1 7) ≠ 0 :=
    (onlyKey0_poll demoState 0 0 1 7 demoState_onlyKey0 (by decide)).2.mpr ⟨rfl, rfl, rfl⟩
  have hks7 : (poll demoState (sample 1 7)).1.uiKeyStatus = 1 := q.2.2.2.2.2.1
  refine ⟨?_, ?_, ?_⟩
  · exact ((press_or_double demoState demoState_reachable).1 (sample 1 1000) doubleClickGap
      (sample 1 1100) 1 hks (Or.inl pc) gap (again 1100).1 (again 1100).2 (by decide) (by decide)
      (by decide)).1 (by decide)
  · exact ((press_or_double demoState demoState_reachable).1 (sample 1 1000) doubleClickGap
      (sample 1 1200) 1 hks (Or.inl pc) gap (again 1200).1 (again 1200).2 (by decide) (by decide)
      (by decide)).2 (by decide)
  · exact (press_or_double demoState demoState_reachable).2 (sample 1 7) first
      (by rw [hks7]; decide) (by decide)

/-- Claim C7 on the example trace: switch 0 is stable (status 1), the poll
with raw sample 0 clears it (status 0) and makes no handler call. -/
theorem release_is_silent_witness :
    (pollState (poll demoState (sample 1 1000)).1
      (List.replicate 20 (sample 1 1001))).uiKeyStatus = 1 ∧
    (poll (pollState (poll demoState (sample 1 1000)).1 (List.replicate 20 (sample 1 1001)))
      (sample 0 1002)).1.uiKeyStatus = 0 ∧
    (pollClassified (pollState (poll demoState (sample 1 1000)).1
      (List.replicate 20 (sample 1 1001))) (sample 0 1002)).2 = 0 ∧
    (poll (pollState (poll demoState (sample 1 1000)).1 (List.replicate 20 (sample 1 1001)))
      (sample 0 1002)).2 = none := by
  obtain ⟨held, _, _⟩ := demo_trace
  obtain ⟨rel, _⟩ := onlyKey0_poll _ 1 0 0 1002 held (by decide)
  have h1 : (pollState (poll demoState (sample 1 1000)).1
      (List.replicate 20 (sample 1 1001))).uiKeyStatus = 1 := held.2.2.2.2.2.1
  have h0 : (poll (pollState (poll demoState (sample 1 1000)).1
      (List.replicate 20 (sample 1 1001))) (sample 0 1002)).1.uiKeyStatus = 0 :=
    rel.2.2.2.2.2.1
  refine ⟨h1, h0, ?_⟩
  exact release_is_silent _ (sample 0 1002) held.1
    ⟨0, by rw [h1]; rfl, by rw [h0]; rfl⟩
    (fun i h => by rw [h0, Nat.zero_testBit] at h; cases h.2)

/-- Claim C8 at the press of switch 0 in the example state. -/
theorem debounce_lockout_witness :
    (poll demoState (sample 1 0)).1.uiKeyStatus.testBit 0 ≠ demoState.uiKeyStatus.testBit 0 ∧
    (poll demoState (sample 1 0)).1.uiDebounceCount 0 = UI_DEBOUNCE_MS ∧
    (∀ inps : List PollInput, inps.length ≤ 20 →
      (pollState (poll demoState (sample 1 0)).1 inps).uiKeyStatus.testBit 0 =
        (poll demoState (sample 1 0)).1.uiKeyStatus.testBit 0) ∧
    (∀ inps : List PollInput, inps.length = 20 → ∃ inp21 : PollInput,
      (pollState (poll demoState (sample 1 0)).1 (inps ++ [inp21])).uiKeyStatus.testBit 0 ≠
        (poll demoState (sample 1 0)).1.uiKeyStatus.testBit 0) := by
  have hks : (poll demoState (sample 1 0)).1.uiKeyStatus = 1 := (demo_press 0).1.2.2.2.2.2.1
  have hflip : (poll demoState (sample 1 0)).1.uiKeyStatus.testBit 0 ≠
      demoState.uiKeyStatus.testBit 0 := by
    rw [hks]; decide
  exact ⟨hflip, debounce_lockout demoState (sample 1 0) 0 (by decide) hflip⟩

/-- Claim C9 as amended, at the press of switch 0 in the example state: the
bit is set at once, the counter is 20, and the bit stays set through any 20
further polls. -/
theorem stable_bit_gated_by_counter_witness :
    (0 : Nat) < 6 ∧
    (poll demoState (sample 1 0)).1.uiKeyStatus.testBit 0 = true ∧
    (poll demoState (sample 1 0)).1.uiDebounceCount 0 = UI_DEBOUNCE_MS ∧
    (∀ inps : List PollInput, inps.length ≤ 20 →
      (pollState (poll demoState (sample 1 0)).1 inps).uiKeyStatus.testBit 0 = true) := by
  have hs1 : pollSample demoState (sample 1 0) = 1 :=
    pollSample_no_pins demoState (sample 1 0) rfl rfl rfl
  obtain ⟨a, _, _⟩ := stable_bit_gated_by_counter demoState (sample 1 0) 0 (by decide)
  obtain ⟨b1, b2⟩ := a rfl (by rw [hs1]; decide)
  rw [hs1] at b1
  obtain ⟨_, c, _⟩ := stable_bit_gated_by_counter (poll demoState (sample 1 0)).1 (sample 0 0) 0
    (by decide)
  refine ⟨by decide, b1, b2, ?_⟩
  intro inps hlen
  rw [c inps (by rw [b2]; exact hlen)]
  exact b1

/-- Claim C10 from `init`: the ticks address 0, 1, 2, 3, 4, and with the
switch pin reading high, low, high, low, high bits 0, 2 and 4 are set. -/
theorem scan_coverage_witness :
    (init zeroState).uiLEDIndex ≤ 4 ∧
    (ticks (init zeroState) [true, false, true, false, true]).2 = [0, 1, 2, 3, 4] ∧
    (ticks (init zeroState) [true, false, true, false, true]).1.uiLEDIndex = 0 ∧
    (∀ b, b < 8 →
      (ticks (init zeroState) [true, false, true, false, true]).1.uiSwitchStates.testBit b =
        (b = 0 ∨ b = 2 ∨ b = 4)) := by
  obtain ⟨h1, h2⟩ := scan_coverage (init zeroState) true false true false true
  obtain ⟨a, _, c, _, e⟩ := h2 (by decide)
  refine ⟨h1 Reachable.init, a, c, ?_⟩
  intro b hb
  rw [e b hb]
  interval_cases b <;> simp [init, zeroState]

/-! ### The pin trace of a tick -/

theorem tick_ops (s : UIState) (r : Bool) :
    (tick s r).2 =
      [.read TUI_P_SWREAD,
       .write TUI_P_DIGIT0 false, .write TUI_P_DIGIT1 false, .write TUI_P_DIGIT2 false,
       .write TUI_P_DIGIT3 false, .write TUI_P_DIGIT4 false]
      ++ shiftBit (s.uiLEDState s.uiLEDIndex) 0x80 ++ shiftBit (s.uiLEDState s.uiLEDIndex) 0x40
      ++ shiftBit (s.uiLEDState s.uiLEDIndex) 0x20 ++ shiftBit (s.uiLEDState s.uiLEDIndex) 0x10
      ++ shiftBit (s.uiLEDState s.uiLEDIndex) 0x08 ++ shiftBit (s.uiLEDState s.uiLEDIndex) 0x04
      ++ shiftBit (s.uiLEDState s.uiLEDIndex) 0x02 ++ shiftBit (s.uiLEDState s.uiLEDIndex) 0x01
      ++ [.write TUI_P_SHCLK false, .write TUI_P_SHCLK true]
      ++ enableDigit s.uiLEDIndex := rfl

theorem digitalLevel_bit (d i : Nat) : digitalLevel (d &&& 2 ^ i) = d.testBit i := by
  unfold digitalLevel
  by_cases h : d.testBit i = true
  · rw [h]
    have : d &&& 2 ^ i ≠ 0 := fun h0 => by
      rw [(and_two_pow_eq_zero d i).mp h0] at h
      cases h
    simp [this]
  · have hf : d.testBit i = false := by simpa using h
    rw [hf, (and_two_pow_eq_zero d i).mpr hf]
    rfl

theorem digitalLevel_masks (d : Nat) :
    digitalLevel (d &&& 0x80) = d.testBit 7 ∧ digitalLevel (d &&& 0x40) = d.testBit 6 ∧
    digitalLevel (d &&& 0x20) = d.testBit 5 ∧ digitalLevel (d &&& 0x10) = d.testBit 4 ∧
    digitalLevel (d &&& 0x08) = d.testBit 3 ∧ digitalLevel (d &&& 0x04) = d.testBit 2 ∧
    digitalLevel (d &&& 0x02) = d.testBit 1 ∧ digitalLevel (d &&& 0x01) = d.testBit 0 := by
  have h7 := digitalLevel_bit d 7
  have h6 := digitalLevel_bit d 6
  have h5 := digitalLevel_bit d 5
  have h4 := digitalLevel_bit d 4
  have h3 := digitalLevel_bit d 3
  have h2 := digitalLevel_bit d 2
  have h1 := digitalLevel_bit d 1
  have h0 := digitalLevel_bit d 0
  rw [show (2 : Nat) ^ 7 = 0x80 by norm_num] at h7
  rw [show (2 : Nat) ^ 6 = 0x40 by norm_num] at h6
  rw [show (2 : Nat) ^ 5 = 0x20 by norm_num] at h5
  rw [show (2 : Nat) ^ 4 = 0x10 by norm_num] at h4
  rw [show (2 : Nat) ^ 3 = 0x08 by norm_num] at h3
  rw [show (2 : Nat) ^ 2 = 0x04 by norm_num] at h2
  rw [show (2 : Nat) ^ 1 = 0x02 by norm_num] at h1
  rw [show (2 : Nat) ^ 0 = 0x01 by norm_num] at h0
  exact ⟨h7, h6, h5, h4, h3, h2, h1, h0⟩

theorem bitsToNat_byte (d : Nat) :
    bitsToNat [d.testBit 7, d.testBit 6, d.testBit 5, d.testBit 4, d.testBit 3, d.testBit 2,
      d.testBit 1, d.testBit 0] = toByte d := by
  simp only [bitsToNat, List.foldl, Nat.toNat_testBit, toByte]
  norm_num
  omega

theorem tick_clock_writes (s : UIState) (r : Bool) :
    writesTo TUI_P_SHCLK (tick s r).2 =
      [false, true, false, true, false, true, false, true, false, true, false, true,
        false, true, false, true, false, true] := by
  rw [tick_ops]
  generalize s.uiLEDState s.uiLEDIndex = d
  generalize s.uiLEDIndex = n
  rcases n with _ | _ | _ | _ | _ | n <;>
    simp [writesTo, shiftBit, enableDigit, TUI_P_SHCLK, TUI_P_DIGIT0, TUI_P_DIGIT1, TUI_P_DIGIT2, TUI_P_DIGIT3,
      TUI_P_DIGIT4, TUI_P_SHDAT, TUI_P_SWREAD]

theorem tick_data_writes (s : UIState) (r : Bool) :
    writesTo TUI_P_SHDAT (tick s r).2 =
      [(s.uiLEDState s.uiLEDIndex).testBit 7, (s.uiLEDState s.uiLEDIndex).testBit 6,
        (s.uiLEDState s.uiLEDIndex).testBit 5, (s.uiLEDState s.uiLEDIndex).testBit 4,
        (s.uiLEDState s.uiLEDIndex).testBit 3, (s.uiLEDState s.uiLEDIndex).testBit 2,
        (s.uiLEDState s.uiLEDIndex).testBit 1, (s.uiLEDState s.uiLEDIndex).testBit 0] := by
  obtain ⟨m7, m6, m5, m4, m3, m2, m1, m0⟩ := digitalLevel_masks (s.uiLEDState s.uiLEDIndex)
  rw [tick_ops, ← m7, ← m6, ← m5, ← m4, ← m3, ← m2, ← m1, ← m0]
  generalize s.uiLEDState s.uiLEDIndex = d
  generalize s.uiLEDIndex = n
  rcases n with _ | _ | _ | _ | _ | n <;>
    simp [writesTo, shiftBit, enableDigit, TUI_P_SHCLK, TUI_P_DIGIT0, TUI_P_DIGIT1, TUI_P_DIGIT2, TUI_P_DIGIT3,
      TUI_P_DIGIT4, TUI_P_SHDAT, TUI_P_SWREAD]

theorem tick_shifted_in (s : UIState) (r : Bool) (clk dat fresh : Bool) :
    shiftedIn clk dat fresh (tick s r).2 =
      [((s.uiLEDState s.uiLEDIndex).testBit 7, true),
        ((s.uiLEDState s.uiLEDIndex).testBit 6, true),
        ((s.uiLEDState s.uiLEDIndex).testBit 5, true),
        ((s.uiLEDState s.uiLEDIndex).testBit 4, true),
        ((s.uiLEDState s.uiLEDIndex).testBit 3, true),
        ((s.uiLEDState s.uiLEDIndex).testBit 2, true),
        ((s.uiLEDState s.uiLEDIndex).testBit 1, true),
        ((s.uiLEDState s.uiLEDIndex).testBit 0, true),
        ((s.uiLEDState s.uiLEDIndex).testBit 0, false)] := by
  obtain ⟨m7, m6, m5, m4, m3, m2, m1, m0⟩ := digitalLevel_masks (s.uiLEDState s.uiLEDIndex)
  rw [tick_ops, ← m7, ← m6, ← m5, ← m4, ← m3, ← m2, ← m1, ← m0]
  generalize s.uiLEDState s.uiLEDIndex = d
  generalize s.uiLEDIndex = n
  rcases n with _ | _ | _ | _ | _ | n <;>
    simp [shiftedIn, shiftBit, enableDigit, TUI_P_SHCLK, TUI_P_DIGIT0, TUI_P_DIGIT1, TUI_P_DIGIT2, TUI_P_DIGIT3,
      TUI_P_DIGIT4, TUI_P_SHDAT, TUI_P_SWREAD]

/-- Claim C16: in every tick the writes to `TUI_P_SHCLK` are nine pairs low,
high; the writes to `TUI_P_SHDAT` are the bits 7, 6, .., 0 of
`d = uiLEDState[uiLEDIndex]` in that order (high for a 1 bit); each of the
first eight rising clock edges samples the data level written since the edge
before, bit `8-k` of `d` at edge `k`, and the ninth rising edge comes with no
write to the data pin; the eight sampled levels, read most significant bit
first, give back `d` modulo 256, which is `d` for a byte. -/
theorem shift_register_load (s : UIState) (r : Bool) :
    writesTo TUI_P_SHCLK (tick s r).2 =
      [false, true, false, true, false, true, false, true, false, true, false, true,
        false, true, false, true, false, true] ∧
    writesTo TUI_P_SHDAT (tick s r).2 =
      [(s.uiLEDState s.uiLEDIndex).testBit 7, (s.uiLEDState s.uiLEDIndex).testBit 6,
        (s.uiLEDState s.uiLEDIndex).testBit 5, (s.uiLEDState s.uiLEDIndex).testBit 4,
        (s.uiLEDState s.uiLEDIndex).testBit 3, (s.uiLEDState s.uiLEDIndex).testBit 2,
        (s.uiLEDState s.uiLEDIndex).testBit 1, (s.uiLEDState s.uiLEDIndex).testBit 0] ∧
    (∀ clk dat fresh : Bool, shiftedIn clk dat fresh (tick s r).2 =
      [((s.uiLEDState s.uiLEDIndex).testBit 7, true),
        ((s.uiLEDState s.uiLEDIndex).testBit 6, true),
        ((s.uiLEDState s.uiLEDIndex).testBit 5, true),
        ((s.uiLEDState s.uiLEDIndex).testBit 4, true),
        ((s.uiLEDState s.uiLEDIndex).testBit 3, true),
        ((s.uiLEDState s.uiLEDIndex).testBit 2, true),
        ((s.uiLEDState s.uiLEDIndex).testBit 1, true),
        ((s.uiLEDState s.uiLEDIndex).testBit 0, true),
        ((s.uiLEDState s.uiLEDIndex).testBit 0, false)]) ∧
    bitsToNat (((shiftedIn false false false (tick s r).2).take 8).map Prod.fst) =
      toByte (s.uiLEDState s.uiLEDIndex) ∧
    (s.uiLEDState s.uiLEDIndex < 256 →
      bitsToNat (((shiftedIn false false false (tick s r).2).take 8).map Prod.fst) =
        s.uiLEDState s.uiLEDIndex) := by
  refine ⟨tick_clock_writes s r, tick_data_writes s r, tick_shifted_in s r, ?_, ?_⟩
  · rw [tick_shifted_in]
    exact bitsToNat_byte _
  · intro hd
    rw [tick_shifted_in]
    exact (bitsToNat_byte _).trans (toByte_of_lt _ hd)

/-- Claim C16 on a tick that shows the pattern of the digit 3 at position
0. -/
theorem shift_register_load_witness :
    bitsToNat (((shiftedIn false false false
      (tick (showSegs (init zeroState) DGT_3 0 0 0) false).2).take 8).map Prod.fst) = DGT_3 :=
  (shift_register_load (showSegs (init zeroState) DGT_3 0 0 0) false).2.2.2.2 (by decide)

/-! ### Enable lines -/

theorem tick_before_shift (s : UIState) (r : Bool) :
    (tick s r).2.takeWhile (fun op => !isShiftWrite op) =
      [PinOp.read TUI_P_SWREAD, PinOp.write TUI_P_DIGIT0 false, PinOp.write TUI_P_DIGIT1 false,
        PinOp.write TUI_P_DIGIT2 false, PinOp.write TUI_P_DIGIT3 false,
        PinOp.write TUI_P_DIGIT4 false] := by
  rw [tick_ops]
  simp [shiftBit, List.takeWhile, isShiftWrite, TUI_P_SHCLK, TUI_P_DIGIT0, TUI_P_DIGIT1, TUI_P_DIGIT2, TUI_P_DIGIT3,
      TUI_P_DIGIT4, TUI_P_SHDAT, TUI_P_SWREAD]

theorem tick_no_early_enable (s : UIState) (r : Bool) :
    (upToLastClock (tick s r).2).length = 32 ∧
    (upToLastClock (tick s r).2).all (fun op => !isEnableHigh op) = true := by
  rw [tick_ops]
  generalize s.uiLEDState s.uiLEDIndex = d
  generalize s.uiLEDIndex = n
  rcases n with _ | _ | _ | _ | _ | n <;>
    simp [upToLastClock, shiftBit, enableDigit, isClockWrite, isEnableHigh, TUI_P_SHCLK, TUI_P_DIGIT0, TUI_P_DIGIT1, TUI_P_DIGIT2, TUI_P_DIGIT3,
      TUI_P_DIGIT4, TUI_P_SHDAT, TUI_P_SWREAD]

theorem levelAfter_append (pin : Nat) (a b : List PinOp) : ∀ level : Bool,
    levelAfter pin level (a ++ b) = levelAfter pin (levelAfter pin level a) b := by
  induction a with
  | nil => intro level; rfl
  | cons op a ih =>
    intro level
    cases op with
    | read p => exact ih level
    | write p l => exact ih _

theorem enable_levels (n : Nat) :
    levelAfter TUI_P_DIGIT0 false (enableDigit n) = decide (n = 0) ∧
    levelAfter TUI_P_DIGIT1 false (enableDigit n) = decide (n = 1) ∧
    levelAfter TUI_P_DIGIT2 false (enableDigit n) = decide (n = 2) ∧
    levelAfter TUI_P_DIGIT3 false (enableDigit n) = decide (n = 3) ∧
    levelAfter TUI_P_DIGIT4 false (enableDigit n) = decide (n = 4) := by
  rcases n with _ | _ | _ | _ | _ | n <;>
    simp [levelAfter, enableDigit, TUI_P_SHCLK, TUI_P_DIGIT0, TUI_P_DIGIT1, TUI_P_DIGIT2, TUI_P_DIGIT3,
      TUI_P_DIGIT4, TUI_P_SHDAT, TUI_P_SWREAD]

theorem tick_final_levels (s : UIState) (r : Bool) (level : Bool) :
    levelAfter TUI_P_DIGIT0 level (tick s r).2 = decide (s.uiLEDIndex = 0) ∧
    levelAfter TUI_P_DIGIT1 level (tick s r).2 = decide (s.uiLEDIndex = 1) ∧
    levelAfter TUI_P_DIGIT2 level (tick s r).2 = decide (s.uiLEDIndex = 2) ∧
    levelAfter TUI_P_DIGIT3 level (tick s r).2 = decide (s.uiLEDIndex = 3) ∧
    levelAfter TUI_P_DIGIT4 level (tick s r).2 = decide (s.uiLEDIndex = 4) := by
  obtain ⟨e0, e1, e2, e3, e4⟩ := enable_levels s.uiLEDIndex
  rw [tick_ops]
  simp only [levelAfter_append _ _ (enableDigit s.uiLEDIndex)]
  generalize s.uiLEDState s.uiLEDIndex = d
  refine ⟨?_, ?_, ?_, ?_, ?_⟩
  · rw [← e0]; congr 1
  · rw [← e1]; congr 1
  · rw [← e2]; congr 1
  · rw [← e3]; congr 1
  · rw [← e4]; congr 1

theorem tick_final_level (s : UIState) (r : Bool) (level : Bool) (j : Nat) (hj : j ≤ 4) :
    levelAfter (digitPin j) level (tick s r).2 = decide (s.uiLEDIndex = j) := by
  obtain ⟨h0, h1, h2, h3, h4⟩ := tick_final_levels s r level
  interval_cases j
  · exact h0
  · exact h1
  · exact h2
  · exact h3
  · exact h4

/-- Claim C17: in every tick the first pin access is the read of the switch
pin; the accesses before the first shift-register write are that read and the
writes of low to `TUI_P_DIGIT0` .. `TUI_P_DIGIT4`; the trace up to the last
write to the shift clock (32 accesses) holds no write of high to an enable
line; and when `uiLEDIndex = i ≤ 3` at entry, the level of enable line `j`
after the tick is high exactly for `j = i`, whatever the levels were before. -/
theorem enable_without_ghosting (s : UIState) (r : Bool) :
    (tick s r).2.head? = some (.read TUI_P_SWREAD) ∧
    (tick s r).2.takeWhile (fun op => !isShiftWrite op) =
      [PinOp.read TUI_P_SWREAD, PinOp.write TUI_P_DIGIT0 false, PinOp.write TUI_P_DIGIT1 false,
        PinOp.write TUI_P_DIGIT2 false, PinOp.write TUI_P_DIGIT3 false,
        PinOp.write TUI_P_DIGIT4 false] ∧
    (upToLastClock (tick s r).2).length = 32 ∧
    (∀ op, op ∈ upToLastClock (tick s r).2 → isEnableHigh op = false) ∧
    (s.uiLEDIndex ≤ 3 → ∀ (j : Nat) (level : Bool), j ≤ 4 →
      levelAfter (digitPin j) level (tick s r).2 = decide (s.uiLEDIndex = j)) := by
  obtain ⟨h1, h2⟩ := tick_no_early_enable s r
  refine ⟨by rw [tick_ops]; rfl, tick_before_shift s r, h1, ?_, ?_⟩
  · intro op hop
    have := List.all_eq_true.mp h2 op hop
    simpa using this
  · intro _ j level hj
    exact tick_final_level s r level j hj

theorem ledSlotState_reachable : Reachable ledSlotState :=
  Reachable.tick _ _ (Reachable.tick _ _ (Reachable.tick _ _ (Reachable.tick _ _ Reachable.init)))

theorem tick_enable_high (s : UIState) (r : Bool) (h : s.uiLEDIndex = 4) :
    (tick s r).2.any isEnableHigh = true := by
  rw [tick_ops, h]
  simp [enableDigit, isEnableHigh, TUI_P_DIGIT4]

/-- Claim C18, as the code does not have it: in the reachable state with scan
index 4 (four ticks after `init`), a tick writes an enable line high, and at its
end `TUI_P_DIGIT4` is high whatever its level was before. -/
theorem led_bank_enabled :
    Reachable ledSlotState ∧ ledSlotState.uiLEDIndex = 4 ∧
    (tick ledSlotState false).2.any isEnableHigh = true ∧
    (tick ledSlotState false).2.getLast? = some (PinOp.write TUI_P_DIGIT4 true) ∧
    ∀ level : Bool, levelAfter TUI_P_DIGIT4 level (tick ledSlotState false).2 = true := by
  have hidx : ledSlotState.uiLEDIndex = 4 := rfl
  refine ⟨ledSlotState_reachable, hidx, tick_enable_high _ _ hidx, ?_, ?_⟩
  · rw [tick_ops, hidx]
    simp [enableDigit, shiftBit]
  · intro level
    rw [(tick_final_levels _ false level).2.2.2.2, hidx]
    rfl

/-- Claim C18, amended: when the tick runs with `uiLEDIndex = 4` it shifts out
the LED byte `uiLEDState[4]`, most significant bit first, and at its end the
enable line `TUI_P_DIGIT4` is high and the four digit lines `TUI_P_DIGIT0` to
`TUI_P_DIGIT3` are low; the scan index returns to 0. -/
theorem scan_slot_four (s : UIState) (r : Bool) (h : s.uiLEDIndex = 4) :
    (writesTo TUI_P_SHDAT (tick s r).2 =
      [(s.uiLEDState 4).testBit 7, (s.uiLEDState 4).testBit 6, (s.uiLEDState 4).testBit 5,
        (s.uiLEDState 4).testBit 4, (s.uiLEDState 4).testBit 3, (s.uiLEDState 4).testBit 2,
        (s.uiLEDState 4).testBit 1, (s.uiLEDState 4).testBit 0]) ∧
    (∀ level : Bool, levelAfter TUI_P_DIGIT4 level (tick s r).2 = true) ∧
    (∀ (j : Nat) (level : Bool), j ≤ 3 → levelAfter (digitPin j) level (tick s r).2 = false) ∧
    (tick s r).1.uiLEDIndex = 0 := by
  have hd := tick_data_writes s r
  rw [h] at hd
  refine ⟨hd, ?_, ?_, ?_⟩
  · intro level
    rw [(tick_final_levels s r level).2.2.2.2, h]
    rfl
  · intro j level hj
    rw [tick_final_level s r level j (by omega), h]
    exact decide_eq_false (by omega)
  · rw [tick_index s r (by omega), if_pos h]

/-- Claim C17 on the first tick after `init` (scan index 0): `TUI_P_DIGIT0`
ends high, `TUI_P_DIGIT1` ends low although it was high before. -/
theorem enable_without_ghosting_witness :
    levelAfter (digitPin 0) false (tick (init zeroState) true).2 = true ∧
    levelAfter (digitPin 1) true (tick (init zeroState) true).2 = false :=
  ⟨(enable_without_ghosting (init zeroState) true).2.2.2.2 (by decide) 0 false (by decide),
   (enable_without_ghosting (init zeroState) true).2.2.2.2 (by decide) 1 true (by decide)⟩

/-- Claim C18, amended, on the state four ticks after `init`. -/
theorem scan_slot_four_witness :
    ledSlotState.uiLEDIndex = 4 ∧
    (∀ level : Bool, levelAfter TUI_P_DIGIT4 level (tick ledSlotState false).2 = true) ∧
    (tick ledSlotState false).1.uiLEDIndex = 0 :=
  ⟨rfl, (scan_slot_four ledSlotState false rfl).2.1, (scan_slot_four ledSlotState false rfl).2.2.2⟩

/-! ### The display buffer -/

theorem showNumberLoop_high (k : Nat) : ∀ (s s1 : UIState) (n : Int) (start : Nat),
    showNumberLoop k s n start = .ok s1 → ∀ p, 4 ≤ p → s1.uiLEDState p = s.uiLEDState p := by
  induction k with
  | zero =>
    intro s s1 n start h p _
    simp only [showNumberLoop] at h
    split_ifs at h
    cases h
    rfl
  | succ k ih =>
    intro s s1 n start h p hp
    simp only [showNumberLoop] at h
    split_ifs at h with hs
    · split at h
      · cases h
      · split at h
        · cases h
        · rw [ih _ s1 _ _ h p hp]
          simp only [setAt]
          rw [if_neg (by omega)]
    · cases h
      rfl

theorem showNumber_high (s s1 : UIState) (n start : Int) (h : showNumber s n start = .ok s1) :
    ∀ p, 4 ≤ p → s1.uiLEDState p = s.uiLEDState p := by
  unfold showNumber at h
  split_ifs at h
  · cases h
    intro p hp
    simp only [showSegs, setAt]
    rw [if_neg (by omega), if_neg (by omega), if_neg (by omega), if_neg (by omega)]
  · exact showNumberLoop_high _ s s1 n _ h

theorem showNumber_ok (s : UIState) (n start : Int)
    (h : start < 0 ∨ 4 ≤ start ∨ (0 ≤ n ∧ n < 10 ^ (4 - start.toNat))) :
    ∃ s1, showNumber s n start = .ok s1 := by
  by_cases hout : start < 0 ∨ start ≥ 4
  · exact ⟨_, by unfold showNumber; rw [if_pos hout]⟩
  · have h0 : 0 ≤ start := by omega
    have h3 : start ≤ 3 := by omega
    obtain ⟨hn0, hn⟩ : 0 ≤ n ∧ n < 10 ^ (4 - start.toNat) := by
      rcases h with h | h | h
      · omega
      · omega
      · exact h
    interval_cases start
    · obtain ⟨_, _, _, _, _, _, _, _, e⟩ := showNumberLoop_from0 s n hn0 (by simpa using hn)
      exact ⟨_, by simpa [showNumber] using e⟩
    · obtain ⟨_, _, _, _, _, _, e⟩ := showNumberLoop_from1 s n hn0 (by simpa using hn)
      exact ⟨_, by simpa [showNumber] using e⟩
    · obtain ⟨_, _, _, _, e⟩ := showNumberLoop_from2 s n hn0 (by simpa using hn)
      exact ⟨_, by simpa [showNumber] using e⟩
    · obtain ⟨_, _, e⟩ := showNumberLoop_from3 s n hn0 (by simpa using hn)
      exact ⟨_, by simpa [showNumber] using e⟩

theorem byteAndNot_idem (b m : Nat) : byteAndNot (byteAndNot b m) m = byteAndNot b m := by
  apply Nat.eq_of_testBit_eq
  intro i
  simp only [testBit_byteAndNot]
  by_cases h : i < 8 <;> by_cases hb : b.testBit i = true <;>
    by_cases hm : m.testBit i = true <;> simp [h, hb, hm]

theorem setAt_setAt (a : Nat → Nat) (i v w : Nat) : setAt (setAt a i v) i w = setAt a i w := by
  funext j
  simp only [setAt]
  split_ifs <;> rfl

/-- Claim C20: `show`, `cls` and `showNumber` (with `start` outside 0..3, or
`0 ≤ n < 10^(4-start)`, where it returns normally) change no variable other
than `uiLEDState` and leave `uiLEDState[p]` alone for `p ≥ 4`; `cls()` is
`show(0,0,0,0)` and leaves the four digits 0; `setLEDs` and `clearLEDs` change
no variable other than `uiLEDState` and leave every position other than 4
alone; `clearLEDs(m)` clears in the LED byte the bits of `m`, the result is a
byte, a second `clearLEDs(m)` changes nothing, and `clearLEDs(0xff)` leaves the
LED byte 0. -/
theorem display_frame (s : UIState) :
    (∀ a b c d : Nat,
      showSegs s a b c d = { s with uiLEDState := (showSegs s a b c d).uiLEDState } ∧
      ∀ p, 4 ≤ p → (showSegs s a b c d).uiLEDState p = s.uiLEDState p) ∧
    (cls s = showSegs s 0 0 0 0 ∧ ∀ p, p < 4 → (cls s).uiLEDState p = 0) ∧
    (∀ n start : Int, (start < 0 ∨ 4 ≤ start ∨ (0 ≤ n ∧ n < 10 ^ (4 - start.toNat))) →
      ∃ s1, showNumber s n start = .ok s1 ∧ s1 = { s with uiLEDState := s1.uiLEDState } ∧
        ∀ p, 4 ≤ p → s1.uiLEDState p = s.uiLEDState p) ∧
    (∀ which mask : Nat,
      setLEDs s which mask = { s with uiLEDState := (setLEDs s which mask).uiLEDState } ∧
      ∀ p, p ≠ 4 → (setLEDs s which mask).uiLEDState p = s.uiLEDState p) ∧
    (∀ m : Nat,
      clearLEDs s m = { s with uiLEDState := (clearLEDs s m).uiLEDState } ∧
      (∀ p, p ≠ 4 → (clearLEDs s m).uiLEDState p = s.uiLEDState p) ∧
      (∀ i, i < 8 → ((clearLEDs s m).uiLEDState 4).testBit i =
        ((s.uiLEDState 4).testBit i && !m.testBit i)) ∧
      (clearLEDs s m).uiLEDState 4 < 256 ∧
      clearLEDs (clearLEDs s m) m = clearLEDs s m) ∧
    (clearLEDs s 0xFF).uiLEDState 4 = 0 := by
  refine ⟨?_, ?_, ?_, ?_, ?_, ?_⟩
  · intro a b c d
    refine ⟨rfl, ?_⟩
    intro p hp
    simp only [showSegs, setAt]
    rw [if_neg (by omega), if_neg (by omega), if_neg (by omega), if_neg (by omega)]
  · refine ⟨rfl, ?_⟩
    intro p hp
    interval_cases p <;> simp [cls, showSegs, setAt, toByte]
  · intro n start h
    obtain ⟨s1, e⟩ := showNumber_ok s n start h
    exact ⟨s1, e, showNumber_frame s s1 n start e, showNumber_high s s1 n start e⟩
  · intro which mask
    refine ⟨rfl, ?_⟩
    intro p hp
    simp only [setLEDs, setAt]
    rw [if_neg hp]
  · intro m
    refine ⟨rfl, ?_, ?_, ?_, ?_⟩
    · intro p hp
      simp only [clearLEDs, setAt]
      rw [if_neg hp]
    · intro i hi
      simp only [clearLEDs, setAt, if_true, testBit_byteAndNot]
      simp [hi]
    · simp only [clearLEDs, setAt, if_true]
      exact byteAndNot_lt _ _
    · simp only [clearLEDs, setAt, if_true, setAt_setAt, byteAndNot_idem]
  · apply Nat.eq_of_testBit_eq
    intro i
    simp only [clearLEDs, setAt, if_true, testBit_byteAndNot, Nat.zero_testBit]
    by_cases h : i < 8
    · have : (255 : Nat).testBit i = true := by rw [testBit_255]; simpa using h
      simp [this]
    · simp [h]

/-- Claim C20 on `showNumber(42, 2)` in the example state: it returns
normally and the LED byte is unchanged; `clearLEDs()` after `setLEDs(0x1F)`
gives 0. -/
theorem display_frame_witness :
    (∃ s1, showNumber demoState 42 2 = .ok s1 ∧ s1.uiLEDState 4 = demoState.uiLEDState 4) ∧
    (clearLEDs (setLEDs demoState 0x1F 0xFF) 0xFF).uiLEDState 4 = 0 := by
  obtain ⟨s1, e, _, h⟩ := (display_frame demoState).2.2.1 42 2
    (Or.inr (Or.inr ⟨by decide, by decide⟩))
  exact ⟨⟨s1, e, h 4 (by decide)⟩, (display_frame (setLEDs demoState 0x1F 0xFF)).2.2.2.2.2⟩

/-! ### Counters and high bits in reachable states -/

theorem reachable_counts (s : UIState) (h : Reachable s) :
    (∀ i, i < 6 → s.uiDebounceCount i ≤ UI_DEBOUNCE_MS) ∧
    s.uiKeyStatus.testBit 6 = false ∧ s.uiKeyStatus.testBit 7 = false := by
  induction h with
  | init => exact ⟨fun _ _ => Nat.zero_le _, by decide, by decide⟩
  | tick s r _ ih => exact ih
  | poll s inp _ ih =>
    obtain ⟨a, b, c⟩ := ih
    refine ⟨?_, ?_, ?_⟩
    · intro i hi
      rw [poll_count s inp i hi]
      have := a i hi
      split_ifs
      · omega
      · exact Nat.le_refl _
      · exact Nat.zero_le _
    · rw [poll_bit_high s inp 6 (by decide) (by decide)]; exact b
    · rw [poll_bit_high s inp 7 (by decide) (by decide)]; exact c
  | setKeypressHandler s f _ ih => exact ih
  | setExtraKey s key pin _ ih =>
    unfold setExtraKey
    split_ifs <;> exact ih
  | showSegs s a b c d _ ih => exact ih
  | showNumber s s1 n start _ hn ih =>
    rw [showNumber_frame s s1 n start hn]
    exact ih
  | setLEDs s which mask _ ih => exact ih
  | clearLEDs s which _ ih => exact ih

/-- Claim C15: in one poll and for a switch index `i < 6`: a nonzero counter
is decremented by exactly 1 and the stable bit `i` keeps its value whatever the
raw sample is; the stable bit flips exactly when the counter was 0 and the raw
bit read by the debounce loop differs from it, and a flip reloads the counter
to `UI_DEBOUNCE_MS`; with the counter 0 and raw equal to stable neither
changes; a counter that is at most 20 stays at most 20, and in every reachable
state each of the six counters is at most 20. -/
theorem stable_status_invariant (s : UIState) (inp : PollInput) (i : Nat) (hi : i < 6) :
    (s.uiDebounceCount i ≠ 0 →
      (poll s inp).1.uiDebounceCount i = s.uiDebounceCount i - 1 ∧
      (poll s inp).1.uiKeyStatus.testBit i = s.uiKeyStatus.testBit i) ∧
    ((poll s inp).1.uiKeyStatus.testBit i ≠ s.uiKeyStatus.testBit i ↔
      s.uiDebounceCount i = 0 ∧ (pollSample s inp).testBit i ≠ s.uiKeyStatus.testBit i) ∧
    ((poll s inp).1.uiKeyStatus.testBit i ≠ s.uiKeyStatus.testBit i →
      (poll s inp).1.uiDebounceCount i = UI_DEBOUNCE_MS) ∧
    (s.uiDebounceCount i = 0 → (pollSample s inp).testBit i = s.uiKeyStatus.testBit i →
      (poll s inp).1.uiDebounceCount i = 0 ∧
      (poll s inp).1.uiKeyStatus.testBit i = s.uiKeyStatus.testBit i) ∧
    (s.uiDebounceCount i ≤ 20 → (poll s inp).1.uiDebounceCount i ≤ 20) ∧
    (Reachable s → s.uiDebounceCount i ≤ 20 ∧ (poll s inp).1.uiDebounceCount i ≤ 20) := by
  have hc := poll_count s inp i hi
  have hb := poll_bit s inp i hi
  have hflip : (poll s inp).1.uiKeyStatus.testBit i ≠ s.uiKeyStatus.testBit i ↔
      s.uiDebounceCount i = 0 ∧ (pollSample s inp).testBit i ≠ s.uiKeyStatus.testBit i := by
    rw [hb]
    constructor
    · intro h
      by_cases h0 : s.uiDebounceCount i = 0
      · rw [if_pos h0] at h; exact ⟨h0, h⟩
      · rw [if_neg h0] at h; exact absurd rfl h
    · rintro ⟨h0, h⟩
      rw [if_pos h0]; exact h
  have hle : s.uiDebounceCount i ≤ 20 → (poll s inp).1.uiDebounceCount i ≤ 20 := by
    intro h
    rw [hc]
    split_ifs
    · omega
    · exact Nat.le_refl _
    · exact Nat.zero_le _
  refine ⟨?_, hflip, ?_, ?_, hle, ?_⟩
  · intro h0
    rw [hc, hb, if_pos h0, if_neg h0]
    exact ⟨rfl, rfl⟩
  · intro h
    obtain ⟨h0, hne⟩ := hflip.mp h
    rw [hc, if_neg (not_not.mpr h0), if_pos hne]
  · intro h0 heq
    rw [hc, hb, if_neg (not_not.mpr h0), if_neg (not_not.mpr heq), if_pos h0]
    exact ⟨rfl, heq⟩
  · intro hr
    have := (reachable_counts s hr).1 i hi
    exact ⟨this, hle this⟩

/-- Claim C15 on switch 0 in the example state: with the counter at 0 a raw 1
flips the stable bit and loads the counter with 20; a raw 0 changes nothing. -/
theorem stable_status_invariant_witness :
    (0 : Nat) < 6 ∧
    (poll demoState (sample 1 0)).1.uiKeyStatus.testBit 0 ≠ demoState.uiKeyStatus.testBit 0 ∧
    (poll demoState (sample 1 0)).1.uiDebounceCount 0 = UI_DEBOUNCE_MS ∧
    (poll demoState (sample 0 0)).1.uiDebounceCount 0 = 0 := by
  have hs1 : pollSample demoState (sample 1 0) = 1 :=
    pollSample_no_pins demoState (sample 1 0) rfl rfl rfl
  have hs0 : pollSample demoState (sample 0 0) = 0 :=
    pollSample_no_pins demoState (sample 0 0) rfl rfl rfl
  obtain ⟨_, a, b, _, _, _⟩ := stable_status_invariant demoState (sample 1 0) 0 (by decide)
  obtain ⟨_, _, _, c, _, _⟩ := stable_status_invariant demoState (sample 0 0) 0 (by decide)
  have hflip := a.mpr ⟨rfl, by rw [hs1]; decide⟩
  exact ⟨by decide, hflip, b hflip, (c rfl (by rw [hs0]; rfl)).1⟩

/-! ### The extra keys -/

theorem checKeyPin_bit (s : UIState) (dr : Nat → Bool) (pin key j : Nat) (hj : j < 8) :
    (checKeyPin s dr pin key).uiSwitchStates.testBit j =
      if key.testBit j = true then !dr pin else s.uiSwitchStates.testBit j := by
  unfold checKeyPin
  cases hd : dr pin <;> cases hk : key.testBit j <;>
    simp [testBit_byteOr, testBit_byteAndNot, hj, hk]

theorem checKeyPin_pins (s : UIState) (dr : Nat → Bool) (pin key : Nat) :
    (checKeyPin s dr pin key).uiKeyAPin = s.uiKeyAPin ∧
    (checKeyPin s dr pin key).uiKeyBPin = s.uiKeyBPin ∧
    (checKeyPin s dr pin key).uiKeyCPin = s.uiKeyCPin := by
  unfold checKeyPin
  split_ifs <;> exact ⟨rfl, rfl, rfl⟩

theorem sampleExtraKeys_bit (s : UIState) (dr : Nat → Bool) (j : Nat) (hj : j < 8) :
    (sampleExtraKeys s dr).uiSwitchStates.testBit j =
      if j = 7 ∧ s.uiKeyCPin ≠ 0 then !dr s.uiKeyCPin
      else if j = 6 ∧ s.uiKeyBPin ≠ 0 then !dr s.uiKeyBPin
      else if j = 5 ∧ s.uiKeyAPin ≠ 0 then !dr s.uiKeyAPin
      else s.uiSwitchStates.testBit j := by
  have hA : TUI_KEY_A.testBit j = decide (j = 5) := by
    rw [show TUI_KEY_A = 2 ^ 5 by decide, Nat.testBit_two_pow]
    simp [eq_comm]
  have hB : TUI_KEY_B.testBit j = decide (j = 6) := by
    rw [show TUI_KEY_B = 2 ^ 6 by decide, Nat.testBit_two_pow]
    simp [eq_comm]
  have hC : TUI_KEY_C.testBit j = decide (j = 7) := by
    rw [show TUI_KEY_C = 2 ^ 7 by decide, Nat.testBit_two_pow]
    simp [eq_comm]
  unfold sampleExtraKeys
  simp only
  by_cases ha : s.uiKeyAPin = 0 <;> by_cases hb : s.uiKeyBPin = 0 <;>
    by_cases hc : s.uiKeyCPin = 0 <;>
    simp only [ha, hb, hc, ne_eq, not_true_eq_false, not_false_eq_true, if_true, if_false,
      and_false, and_true, (checKeyPin_pins _ _ _ _).1, (checKeyPin_pins _ _ _ _).2.1,
      (checKeyPin_pins _ _ _ _).2.2, checKeyPin_bit _ _ _ _ _ hj, hA, hB, hC,
      decide_eq_true_eq]

/-- The raw sample read by the debounce loop, bit by bit: bits 0..4 come from
the refresh interrupt, bits 5, 6 and 7 from the pin of key A, B and C when that
pin is set (the bit is 1 when the pin reads LOW). -/
theorem pollSample_bits (s : UIState) (inp : PollInput) :
    (∀ j, j < 5 → (pollSample s inp).testBit j = inp.raw.testBit j) ∧
    (pollSample s inp).testBit 5 =
      (if s.uiKeyAPin ≠ 0 then !inp.digitalRead s.uiKeyAPin else inp.raw.testBit 5) ∧
    (pollSample s inp).testBit 6 =
      (if s.uiKeyBPin ≠ 0 then !inp.digitalRead s.uiKeyBPin else inp.raw.testBit 6) ∧
    (pollSample s inp).testBit 7 =
      (if s.uiKeyCPin ≠ 0 then !inp.digitalRead s.uiKeyCPin else inp.raw.testBit 7) := by
  have h : ∀ j, j < 8 → (pollSample s inp).testBit j = _ :=
    fun j hj => sampleExtraKeys_bit (pollEntry s inp) inp.digitalRead j hj
  have e : ∀ j, j < 8 → (pollEntry s inp).uiSwitchStates.testBit j = inp.raw.testBit j := by
    intro j hj
    simp [pollEntry, testBit_toByte, hj]
  have pa : (pollEntry s inp).uiKeyAPin = s.uiKeyAPin := rfl
  have pb : (pollEntry s inp).uiKeyBPin = s.uiKeyBPin := rfl
  have pc : (pollEntry s inp).uiKeyCPin = s.uiKeyCPin := rfl
  refine ⟨?_, ?_, ?_, ?_⟩
  · intro j hj
    rw [h j (by omega), if_neg (by omega), if_neg (by omega), if_neg (by omega), e j (by omega)]
  · rw [h 5 (by decide), if_neg (by omega), if_neg (by omega), e 5 (by decide), pa]
    simp
  · rw [h 6 (by decide), if_neg (by omega), e 6 (by decide), pb]
    simp
  · rw [h 7 (by decide), e 7 (by decide), pc]
    simp

theorem flags_low_bits (f b : Nat) (hb : b < 8)
    (hf : f = 0 ∨ f = TUI_HOLD ∨ f = TUI_AUTO ∨ f = TUI_PRESS ∨ f = TUI_DOUBLE) :
    f.testBit b = false := by
  have h8 : f % 256 = 0 := by
    rcases hf with h | h | h | h | h <;> subst h <;> decide
  have := testBit_toByte f b
  unfold toByte at this
  rw [h8, Nat.zero_testBit] at this
  simpa [hb] using this.symm

theorem pollClassified_flags (s : UIState) (inp : PollInput) :
    (pollClassified s inp).2 = 0 ∨ (pollClassified s inp).2 = TUI_HOLD ∨
    (pollClassified s inp).2 = TUI_AUTO ∨ (pollClassified s inp).2 = TUI_PRESS ∨
    (pollClassified s inp).2 = TUI_DOUBLE := by
  rw [pollClassified_def]
  rcases classify_flags (pollDebounced s inp).1 (pollDebounced s inp).2
    (toULong inp.milliseconds) with h | h | h | ⟨h | h, _⟩
  · exact Or.inl h
  · exact Or.inr (Or.inl h)
  · exact Or.inr (Or.inr (Or.inl h))
  · exact Or.inr (Or.inr (Or.inr (Or.inl h)))
  · exact Or.inr (Or.inr (Or.inr (Or.inr h)))

/-- Bit `b < 8` of the handler argument is bit `b` of the stable status at the
end of the poll. -/
theorem poll_call_bit (s : UIState) (inp : PollInput) (v b : Nat) (hb : b < 8)
    (h : (poll s inp).2 = some v) : v.testBit b = (poll s inp).1.uiKeyStatus.testBit b := by
  rw [poll_call] at h
  split_ifs at h
  cases h
  rw [Nat.testBit_or, flags_low_bits _ b hb (pollClassified_flags s inp), Bool.false_or]

/-- A poll in a state with no stable key whose sample has none of the six
switch bits set: nothing changes and the handler is not called. -/
theorem poll_idle_quiet (s : UIState) (inp : PollInput) (h0 : s.uiKeyStatus = 0)
    (h : ∀ j, j < 6 → (pollSample s inp).testBit j = false) :
    (poll s inp).2 = none ∧ (poll s inp).1.uiKeyStatus = 0 := by
  obtain ⟨e1, _, _⟩ := poll_steady s inp (by rw [h0]; decide)
    (fun j hj => by rw [h j hj, h0, Nat.zero_testBit])
  have pf := poll_fields s inp
  have d1 : (pollDebounced s inp).1.uiKeyStatus = 0 := by rw [← pf.1, e1, h0]
  have hfl : (pollClassified s inp).2 = 0 := by
    rw [pollClassified_def]
    exact classify_idle _ _ _ d1
  refine ⟨?_, by rw [e1, h0]⟩
  rw [poll_call, hfl]
  simp

/-- Claim C19: in every reachable state bits 6 and 7 of `uiKeyStatus` are 0
(the status has neither `TUI_KEY_B` nor `TUI_KEY_C`); after `setExtraKey` for
key B or C with a nonzero pin that reads LOW, the raw bit 0x40 or 0x80 is set
in the sample the debounce loop reads, yet no handler argument of any poll
contains `TUI_KEY_B` or `TUI_KEY_C`, and from a state with no stable key a
poll whose sample has none of the bits 0..5 set calls no handler and leaves the
status 0; key A is reported: after `setExtraKey(TUI_KEY_A, 9)` on the example
state a poll with pin 9 LOW calls the handler with `TUI_PRESS|TUI_KEY_A`. -/
theorem keys_b_c_never_reported (s : UIState) (hs : Reachable s) :
    (s.uiKeyStatus.testBit 6 = false ∧ s.uiKeyStatus.testBit 7 = false ∧
      s.uiKeyStatus &&& TUI_KEY_B = 0 ∧ s.uiKeyStatus &&& TUI_KEY_C = 0) ∧
    (∀ (pin : Nat) (inp : PollInput), toByte pin ≠ 0 → inp.digitalRead (toByte pin) = false →
      Reachable (setExtraKey s TUI_KEY_B pin) ∧
      (pollSample (setExtraKey s TUI_KEY_B pin) inp).testBit 6 = true ∧
      Reachable (setExtraKey s TUI_KEY_C pin) ∧
      (pollSample (setExtraKey s TUI_KEY_C pin) inp).testBit 7 = true) ∧
    (∀ (inp : PollInput) (v : Nat), (poll s inp).2 = some v →
      v &&& TUI_KEY_B = 0 ∧ v &&& TUI_KEY_C = 0) ∧
    (∀ inp : PollInput, s.uiKeyStatus = 0 →
      (∀ j, j < 6 → (pollSample s inp).testBit j = false) →
      (poll s inp).2 = none ∧ (poll s inp).1.uiKeyStatus = 0) ∧
    (poll (setExtraKey demoState TUI_KEY_A 9)
      { raw := 0, digitalRead := fun _ => false, milliseconds := 0 }).2 =
        some (TUI_PRESS ||| TUI_KEY_A) := by
  obtain ⟨_, b6, b7⟩ := reachable_counts s hs
  have hB : TUI_KEY_B = 2 ^ 6 := by decide
  have hC : TUI_KEY_C = 2 ^ 7 := by decide
  refine ⟨⟨b6, b7, ?_, ?_⟩, ?_, ?_, ?_, ?_⟩
  · rw [hB, and_two_pow_eq_zero]; exact b6
  · rw [hC, and_two_pow_eq_zero]; exact b7
  · intro pin inp hp hlow
    refine ⟨Reachable.setExtraKey s _ _ hs, ?_, Reachable.setExtraKey s _ _ hs, ?_⟩
    · have hb : (setExtraKey s TUI_KEY_B pin).uiKeyBPin = toByte pin := rfl
      rw [(pollSample_bits _ inp).2.2.1, hb, if_pos hp, hlow]
      rfl
    · have hc : (setExtraKey s TUI_KEY_C pin).uiKeyCPin = toByte pin := rfl
      rw [(pollSample_bits _ inp).2.2.2, hc, if_pos hp, hlow]
      rfl
  · intro inp v hv
    obtain ⟨_, c6, c7⟩ := reachable_counts _ (Reachable.poll s inp hs)
    rw [hB, hC, and_two_pow_eq_zero, and_two_pow_eq_zero,
      poll_call_bit s inp v 6 (by decide) hv, poll_call_bit s inp v 7 (by decide) hv]
    exact ⟨c6, c7⟩
  · intro inp h0 h
    exact poll_idle_quiet s inp h0 h
  · have hr : Reachable (setExtraKey demoState TUI_KEY_A 9) :=
      Reachable.setExtraKey _ _ _ demoState_reachable
    have ha : (setExtraKey demoState TUI_KEY_A 9).uiKeyAPin = 9 := rfl
    have hb : (setExtraKey demoState TUI_KEY_A 9).uiKeyBPin = 0 := rfl
    have hc : (setExtraKey demoState TUI_KEY_A 9).uiKeyCPin = 0 := rfl
    have hk : (setExtraKey demoState TUI_KEY_A 9).uiKeyStatus = 0 := rfl
    have hh : (setExtraKey demoState TUI_KEY_A 9).uiKeypressHandler = some 1 := rfl
    have hl : (setExtraKey demoState TUI_KEY_A 9).uiLastKeyStatus = 0 := rfl
    have hlk : (setExtraKey demoState TUI_KEY_A 9).uiLastKeypress = 0 := rfl
    have hcnt : ∀ j, j < 6 → (setExtraKey demoState TUI_KEY_A 9).uiDebounceCount j = 0 :=
      fun _ _ => rfl
    generalize setExtraKey demoState TUI_KEY_A 9 = s0 at ha hb hc hk hh hl hlk hcnt
    generalize hinp : ({ raw := 0, digitalRead := fun _ => false, milliseconds := 0 } :
      PollInput) = inp
    have hraw : inp.raw = 0 := by rw [← hinp]
    have hdr : ∀ p, inp.digitalRead p = false := by intro p; rw [← hinp]
    obtain ⟨s04, s5, _, _⟩ := pollSample_bits s0 inp
    have hbits : ∀ j, j < 6 → (pollSample s0 inp).testBit j = TUI_KEY_A.testBit j := by
      intro j hj
      by_cases h5 : j = 5
      · subst h5
        rw [s5, ha, if_pos (by decide), hdr]
        decide
      · rw [s04 j (by omega), hraw, Nat.zero_testBit]
        have : j < 5 := by omega
        interval_cases j <;> decide
    have hks := poll_from_idle s0 inp TUI_KEY_A (by decide) hk hcnt hbits
    have hnk : pollNewKeyPress s0 inp ≠ 0 := by
      rw [pollNewKeyPress_ne_zero]
      refine ⟨5, by decide, hcnt 5 (by decide), ?_, ?_⟩
      · rw [hbits 5 (by decide)]; decide
      · rw [hk]; decide
    obtain ⟨c1, _⟩ := poll_press s0 inp (by rw [hl, hk]) hnk
    rw [hks, hlk, if_neg (fun h => absurd h.1 (by decide))] at c1
    rw [poll_call, c1, hks, hh, if_pos ⟨by decide, by simp⟩]

/-- Claim C19 on the example state with key B on pin 9: with pin 9 LOW and
the raw bits 0x40 and 0x80 set, bit 6 of the sample is set, the stable status
has no `TUI_KEY_B`, and the poll calls no handler and leaves the status 0. -/
theorem keys_b_c_never_reported_witness :
    Reachable (setExtraKey demoState TUI_KEY_B 9) ∧
    (pollSample (setExtraKey demoState TUI_KEY_B 9)
      { raw := 0xC0, digitalRead := fun _ => false, milliseconds := 0 }).testBit 6 = true ∧
    (setExtraKey demoState TUI_KEY_B 9).uiKeyStatus &&& TUI_KEY_B = 0 ∧
    (poll (setExtraKey demoState TUI_KEY_B 9)
      { raw := 0xC0, digitalRead := fun _ => false, milliseconds := 0 }).2 = none ∧
    (poll (setExtraKey demoState TUI_KEY_B 9)
      { raw := 0xC0, digitalRead := fun _ => false, milliseconds := 0 }).1.uiKeyStatus = 0 := by
  have hr : Reachable (setExtraKey demoState TUI_KEY_B 9) :=
    Reachable.setExtraKey _ _ _ demoState_reachable
  obtain ⟨_, a, _, _, _⟩ := keys_b_c_never_reported demoState demoState_reachable
  obtain ⟨b, _, _, c, _⟩ := keys_b_c_never_reported (setExtraKey demoState TUI_KEY_B 9) hr
  have hbits : ∀ j, j < 6 → (pollSample (setExtraKey demoState TUI_KEY_B 9)
      { raw := 0xC0, digitalRead := fun _ => false, milliseconds := 0 }).testBit j = false := by
    intro j hj
    obtain ⟨s04, s5, _, _⟩ := pollSample_bits (setExtraKey demoState TUI_KEY_B 9)
      { raw := 0xC0, digitalRead := fun _ => false, milliseconds := 0 }
    by_cases h5 : j = 5
    · subst h5
      rw [s5]
      rfl
    · rw [s04 j (by omega)]
      have : j < 5 := by omega
      interval_cases j <;> rfl
  obtain ⟨c1, c2⟩ := c { raw := 0xC0, digitalRead := fun _ => false, milliseconds := 0 } rfl hbits
  exact ⟨hr, (a 9 _ (by decide) rfl).2.1, b.2.2.1, c1, c2⟩

/-! ### The hold threshold -/

/-- The state left by the press of switch 0 in the example state at clock
value `t`. -/
theorem demo_press_fields (t : Nat) :
    (poll demoState (sample 1 t)).1.uiKeyStatus = 1 ∧
    (poll demoState (sample 1 t)).1.uiLastKeyStatus = 1 ∧
    (poll demoState (sample 1 t)).1.uiLastKeypress = 1 ∧
    (poll demoState (sample 1 t)).1.uiDoubleClickTime =
      toULong (toULong t + UI_DOUBLE_CLICK_TIME) ∧
    (poll demoState (sample 1 t)).1.uiAutoRepeatTime =
      toULong (toULong t + UI_AUTO_REPEAT_DELAY) ∧
    (poll demoState (sample 1 t)).1.uiLongPress = 0 ∧
    (poll demoState (sample 1 t)).1.uiKeypressHandler = some 1 ∧
    ∀ t2, pollSample (poll demoState (sample 1 t)).1 (sample 1 t2) = 1 := by
  obtain ⟨a, _⟩ := demo_press t
  have hks : (poll demoState (sample 1 t)).1.uiKeyStatus = 1 := a.2.2.2.2.2.1
  have hnk : pollNewKeyPress demoState (sample 1 t) ≠ 0 :=
    (onlyKey0_poll demoState 0 0 1 t demoState_onlyKey0 (by decide)).2.mpr ⟨rfl, rfl, rfl⟩
  obtain ⟨_, c2, c3, c4, c5, _⟩ := poll_press demoState (sample 1 t) rfl hnk
  have pf := poll_fields demoState (sample 1 t)
  refine ⟨hks, by rw [pf.2.2.1, hks], by rw [c2, hks], c3, c4, c5, pf.2.2.2.1, ?_⟩
  intro t2
  rw [pollSample_no_pins _ _ a.2.2.1 a.2.2.2.1 a.2.2.2.2.1]
  rfl

/-- Claim C14, as the code does not have it: switch 0 is pressed in the
example state at clock value 0, which sets the auto-repeat deadline to 500; the
poll at clock value 500 with the key still down (stable status 1, equal to
`uiLastKeyStatus`) makes no handler call and leaves `uiLongPress` 0, and the
poll at 501 instead calls the handler with `TUI_HOLD|1`. -/
theorem hold_not_at_deadline :
    (poll demoState (sample 1 0)).1.uiAutoRepeatTime = 500 ∧
    (poll demoState (sample 1 0)).1.uiKeyStatus = 1 ∧
    (poll demoState (sample 1 0)).1.uiLastKeyStatus = 1 ∧
    (poll (poll demoState (sample 1 0)).1 (sample 1 500)).1.uiKeyStatus = 1 ∧
    (pollClassified (poll demoState (sample 1 0)).1 (sample 1 500)).2 = 0 ∧
    (poll (poll demoState (sample 1 0)).1 (sample 1 500)).2 = none ∧
    (poll (poll demoState (sample 1 0)).1 (sample 1 500)).1.uiLongPress = 0 ∧
    (poll (poll demoState (sample 1 0)).1 (sample 1 501)).2 = some (TUI_HOLD ||| 1) := by
  obtain ⟨k1, k2, _, _, k5, k6, k7, k8⟩ := demo_press_fields 0
  have hart : (poll demoState (sample 1 0)).1.uiAutoRepeatTime = 500 := by rw [k5]; rfl
  obtain ⟨a1, _, a3, _, a5⟩ := poll_held (poll demoState (sample 1 0)).1 (sample 1 500) 1
    (by decide) (by decide) k1 k2 (k8 500)
  obtain ⟨b1, _, b3, _, _⟩ := poll_held (poll demoState (sample 1 0)).1 (sample 1 501) 1
    (by decide) (by decide) k1 k2 (k8 501)
  have t500 : toULong (sample 1 500).milliseconds = 500 := rfl
  have t501 : toULong (sample 1 501).milliseconds = 501 := rfl
  rw [hart, t500, if_neg (by decide)] at a3 a5
  rw [hart, t501, if_pos (by decide), k6, if_neg (by decide)] at b3
  refine ⟨hart, k1, k2, a1, a3, ?_, by rw [a5, k6], ?_⟩
  · rw [poll_call, a3, if_neg (fun h => h.1 rfl)]
  · rw [poll_call, b3, b1, k7, if_pos ⟨by decide, by simp⟩]

/-- Claim C14, amended: in a poll whose stable status after the debounce loop
is nonzero and equal to `uiLastKeyStatus`, an event is classified if and only
if `uiAutoRepeatTime < nowMillis`, strictly; the event is `TUI_AUTO` when
`uiLongPress` was set and `TUI_HOLD` otherwise, in which case `uiLongPress`
becomes 1; the deadline moves to `nowMillis + 50` modulo 2^32; at
`nowMillis ≤ uiAutoRepeatTime`, equality included, nothing is emitted and the
deadline and `uiLongPress` keep their values. -/
theorem hold_threshold_strict (s : UIState) (inp : PollInput)
    (h0 : (pollDebounced s inp).1.uiKeyStatus ≠ 0)
    (heq : (pollDebounced s inp).1.uiKeyStatus = (pollDebounced s inp).1.uiLastKeyStatus) :
    ((pollClassified s inp).2 ≠ 0 ↔ s.uiAutoRepeatTime < toULong inp.milliseconds) ∧
    (s.uiKeypressHandler ≠ none →
      ((poll s inp).2 ≠ none ↔ s.uiAutoRepeatTime < toULong inp.milliseconds)) ∧
    (s.uiAutoRepeatTime < toULong inp.milliseconds → s.uiLongPress ≠ 0 →
      (pollClassified s inp).2 = TUI_AUTO ∧ (poll s inp).1.uiLongPress = s.uiLongPress) ∧
    (s.uiAutoRepeatTime < toULong inp.milliseconds → s.uiLongPress = 0 →
      (pollClassified s inp).2 = TUI_HOLD ∧ (poll s inp).1.uiLongPress = 1) ∧
    (s.uiAutoRepeatTime < toULong inp.milliseconds →
      (poll s inp).1.uiAutoRepeatTime =
        toULong (toULong inp.milliseconds + UI_AUTO_REPEAT_PERIOD)) ∧
    (toULong inp.milliseconds ≤ s.uiAutoRepeatTime →
      (pollClassified s inp).2 = 0 ∧ (poll s inp).2 = none ∧
      (poll s inp).1.uiAutoRepeatTime = s.uiAutoRepeatTime ∧
      (poll s inp).1.uiLongPress = s.uiLongPress) := by
  have hfr := pollDebounced_frame s inp
  have d3 : (pollDebounced s inp).1.uiAutoRepeatTime = s.uiAutoRepeatTime := by rw [hfr]
  have d4 : (pollDebounced s inp).1.uiLongPress = s.uiLongPress := by rw [hfr]
  obtain ⟨c1, c2, c3⟩ := classify_held (pollDebounced s inp).1 (pollDebounced s inp).2
    (toULong inp.milliseconds) h0 heq
  rw [← pollClassified_def] at c1 c2 c3
  simp only [d3, d4] at c1 c2 c3
  obtain ⟨_, _, f3, f4⟩ := poll_classified_fields s inp
  rw [← f3] at c2
  rw [← f4] at c3
  have hcall := poll_call s inp
  have hiff : (pollClassified s inp).2 ≠ 0 ↔ s.uiAutoRepeatTime < toULong inp.milliseconds := by
    rw [c1]
    constructor
    · intro h
      by_contra hn
      rw [if_neg hn] at h
      exact h rfl
    · intro h
      rw [if_pos h]
      split_ifs <;> decide
  refine ⟨hiff, ?_, ?_, ?_, ?_, ?_⟩
  · intro hh
    rw [hcall, ← hiff]
    constructor
    · intro h hz
      rw [if_neg (fun hc => hc.1 hz)] at h
      exact h rfl
    · intro h
      rw [if_pos ⟨h, hh⟩]
      simp
  · intro ht hl
    rw [c1, c3, if_pos ht, if_pos ht, if_pos hl, if_pos hl]
    exact ⟨rfl, rfl⟩
  · intro ht hl
    rw [c1, c3, if_pos ht, if_pos ht, if_neg (not_not.mpr hl), if_neg (not_not.mpr hl)]
    exact ⟨rfl, rfl⟩
  · intro ht
    rw [c2, if_pos ht]
  · intro ht
    have hn : ¬ s.uiAutoRepeatTime < toULong inp.milliseconds := by omega
    have hz : (pollClassified s inp).2 = 0 := by rw [c1, if_neg hn]
    refine ⟨hz, ?_, by rw [c2, if_neg hn], by rw [c3, if_neg hn]⟩
    rw [hcall, if_neg (fun hc => hc.1 hz)]

/-- Claim C14, amended, on the example trace: switch 0 pressed at clock value
0 and still down; the poll at 501 classifies `TUI_HOLD` and sets `uiLongPress`,
the poll at 500 classifies nothing. -/
theorem hold_threshold_strict_witness :
    (pollClassified (poll demoState (sample 1 0)).1 (sample 1 501)).2 = TUI_HOLD ∧
    (poll (poll demoState (sample 1 0)).1 (sample 1 501)).1.uiLongPress = 1 ∧
    (pollClassified (poll demoState (sample 1 0)).1 (sample 1 500)).2 = 0 := by
  obtain ⟨k1, k2, _, _, k5, k6, _, k8⟩ := demo_press_fields 0
  have hart : (poll demoState (sample 1 0)).1.uiAutoRepeatTime = 500 := by rw [k5]; rfl
  have hd : ∀ t, (pollDebounced (poll demoState (sample 1 0)).1 (sample 1 t)).1.uiKeyStatus = 1 ∧
      (pollDebounced (poll demoState (sample 1 0)).1 (sample 1 t)).1.uiLastKeyStatus = 1 := by
    intro t
    obtain ⟨a1, _⟩ := poll_held (poll demoState (sample 1 0)).1 (sample 1 t) 1
      (by decide) (by decide) k1 k2 (k8 t)
    constructor
    · rw [← (poll_fields _ _).1]; exact a1
    · rw [pollDebounced_frame]; exact k2
  obtain ⟨_, _, _, h4, _, _⟩ := hold_threshold_strict (poll demoState (sample 1 0)).1
    (sample 1 501) (by rw [(hd 501).1]; decide) (by rw [(hd 501).1, (hd 501).2])
  obtain ⟨_, _, _, _, _, h6⟩ := hold_threshold_strict (poll demoState (sample 1 0)).1
    (sample 1 500) (by rw [(hd 500).1]; decide) (by rw [(hd 500).1, (hd 500).2])
  obtain ⟨r1, r2⟩ := h4 (by rw [hart]; decide) k6
  exact ⟨r1, r2, (h6 (by rw [hart]; decide)).1⟩

/-! ### The handler call -/

theorem checKeyPin_handler (s : UIState) (f : Option Nat) (dr : Nat → Bool) (pin key : Nat) :
    checKeyPin (setKeypressHandler s f) dr pin key =
      setKeypressHandler (checKeyPin s dr pin key) f := by
  unfold checKeyPin
  split_ifs <;> rfl

theorem sampleExtraKeys_handler (s : UIState) (f : Option Nat) (dr : Nat → Bool) :
    sampleExtraKeys (setKeypressHandler s f) dr =
      setKeypressHandler (sampleExtraKeys s dr) f := by
  have pins : ∀ x : UIState, (setKeypressHandler x f).uiKeyAPin = x.uiKeyAPin ∧
      (setKeypressHandler x f).uiKeyBPin = x.uiKeyBPin ∧
      (setKeypressHandler x f).uiKeyCPin = x.uiKeyCPin := fun _ => ⟨rfl, rfl, rfl⟩
  unfold sampleExtraKeys
  simp only
  by_cases ha : s.uiKeyAPin = 0 <;> by_cases hb : s.uiKeyBPin = 0 <;>
    by_cases hc : s.uiKeyCPin = 0 <;>
    simp only [ha, hb, hc, ne_eq, not_true_eq_false, not_false_eq_true, if_true, if_false,
      (pins _).1, (pins _).2.1, (pins _).2.2, checKeyPin_handler,
      (checKeyPin_pins _ _ _ _).1, (checKeyPin_pins _ _ _ _).2.1, (checKeyPin_pins _ _ _ _).2.2]

theorem debounceStep_handler (i : Nat) (s : UIState) (nk : Nat) (f : Option Nat) :
    debounceStep i (setKeypressHandler s f, nk) =
      (setKeypressHandler (debounceStep i (s, nk)).1 f, (debounceStep i (s, nk)).2) := by
  unfold debounceStep
  simp only [setKeypressHandler]
  split_ifs <;> rfl

theorem debounceLoop_handler (k : Nat) (f : Option Nat) : ∀ (i : Nat) (s : UIState) (nk : Nat),
    debounceLoop k i (setKeypressHandler s f, nk) =
      (setKeypressHandler (debounceLoop k i (s, nk)).1 f, (debounceLoop k i (s, nk)).2) := by
  induction k with
  | zero =>
    intro i s nk
    unfold debounceLoop
    rfl
  | succ k ih =>
    intro i s nk
    unfold debounceLoop
    rw [debounceStep_handler, ih]

theorem classify_handler (s : UIState) (f : Option Nat) (nk ms : Nat) :
    classify (setKeypressHandler s f) nk ms =
      (setKeypressHandler (classify s nk ms).1 f, (classify s nk ms).2) := by
  unfold classify
  simp only [setKeypressHandler]
  split_ifs <;> rfl

/-- The state a poll leaves does not depend on the registered handler. -/
theorem poll_handler (s : UIState) (f : Option Nat) (inp : PollInput) :
    (poll (setKeypressHandler s f) inp).1 = setKeypressHandler (poll s inp).1 f := by
  have e : pollEntry (setKeypressHandler s f) inp = setKeypressHandler (pollEntry s inp) f := rfl
  have hd : pollDebounced (setKeypressHandler s f) inp =
      (setKeypressHandler (pollDebounced s inp).1 f, (pollDebounced s inp).2) := by
    rw [pollDebounced_eq, pollDebounced_eq, e, sampleExtraKeys_handler, debounceLoop_handler]
  have hc : pollClassified (setKeypressHandler s f) inp =
      (setKeypressHandler (pollClassified s inp).1 f, (pollClassified s inp).2) := by
    rw [pollClassified_def, pollClassified_def, hd, classify_handler]
  rw [poll_eq, poll_eq, hc]
  rfl

theorem kind_or_key (f k : Nat) (hk : k < 256)
    (hf : f = TUI_PRESS ∨ f = TUI_HOLD ∨ f = TUI_AUTO ∨ f = TUI_DOUBLE) :
    f ||| k = f + k ∧ (f ||| k) % 256 = k ∧ (f ||| k) / 256 * 256 = f := by
  have h1 : f ||| k = f + k := by
    rcases hf with h | h | h | h <;> subst h
    · exact (Nat.mul_add_lt_is_or (show k < 2 ^ 8 from hk) 1).symm
    · exact (Nat.mul_add_lt_is_or (show k < 2 ^ 8 from hk) 2).symm
    · exact (Nat.mul_add_lt_is_or (show k < 2 ^ 8 from hk) 4).symm
    · exact (Nat.mul_add_lt_is_or (show k < 2 ^ 8 from hk) 8).symm
  rw [h1]
  have hf2 : f = 256 ∨ f = 512 ∨ f = 1024 ∨ f = 2048 := hf
  clear h1 hf
  refine ⟨rfl, ?_, ?_⟩ <;> omega

/-- Claim C11: in a poll from a state whose stable status is a byte, with a
handler registered the handler is called (at most once: `run` has one call
site) exactly when the classifier produced an event; the argument is
`kind | uiKeyStatus` where `kind` is the classified event, one of `TUI_PRESS`,
`TUI_HOLD`, `TUI_AUTO`, `TUI_DOUBLE`, the low byte of the argument is the
stable status at the end of the poll, which is nonzero, and the rest of the
argument is `kind`; with no handler nothing is called, and the state after the
poll is the same as with a handler, apart from the handler variable itself. -/
theorem handler_packing (s : UIState) (inp : PollInput) (hlt : s.uiKeyStatus < 256) :
    (s.uiKeypressHandler ≠ none →
      ((poll s inp).2 ≠ none ↔ (pollClassified s inp).2 ≠ 0) ∧
      ∀ v, (poll s inp).2 = some v →
        ((pollClassified s inp).2 = TUI_PRESS ∨ (pollClassified s inp).2 = TUI_HOLD ∨
          (pollClassified s inp).2 = TUI_AUTO ∨ (pollClassified s inp).2 = TUI_DOUBLE) ∧
        v = (pollClassified s inp).2 ||| (poll s inp).1.uiKeyStatus ∧
        v % 256 = (poll s inp).1.uiKeyStatus ∧
        v / 256 * 256 = (pollClassified s inp).2 ∧
        (poll s inp).1.uiKeyStatus ≠ 0) ∧
    (s.uiKeypressHandler = none → (poll s inp).2 = none) ∧
    (∀ f : Option Nat,
      (poll (setKeypressHandler s f) inp).1 = setKeypressHandler (poll s inp).1 f ∧
      (poll (setKeypressHandler s f) inp).1.uiKeyStatus = (poll s inp).1.uiKeyStatus ∧
      pollClassified (setKeypressHandler s none) inp =
        (setKeypressHandler (pollClassified s inp).1 none, (pollClassified s inp).2)) := by
  have hcall := poll_call s inp
  have hks' := poll_keyStatus_lt s inp hlt
  have hfl := pollClassified_flags s inp
  refine ⟨?_, ?_, ?_⟩
  · intro hh
    constructor
    · rw [hcall]
      constructor
      · intro h hz
        rw [if_neg (fun hc => hc.1 hz)] at h
        exact h rfl
      · intro h
        rw [if_pos ⟨h, hh⟩]
        simp
    · intro v hv
      rw [hcall] at hv
      split_ifs at hv with hc
      cases hv
      have hkind : (pollClassified s inp).2 = TUI_PRESS ∨ (pollClassified s inp).2 = TUI_HOLD ∨
          (pollClassified s inp).2 = TUI_AUTO ∨ (pollClassified s inp).2 = TUI_DOUBLE := by
        rcases hfl with h | h | h | h | h
        · exact absurd h hc.1
        · exact Or.inr (Or.inl h)
        · exact Or.inr (Or.inr (Or.inl h))
        · exact Or.inl h
        · exact Or.inr (Or.inr (Or.inr h))
      obtain ⟨_, k2, k3⟩ := kind_or_key _ _ hks' hkind
      refine ⟨hkind, rfl, k2, k3, ?_⟩
      intro hz
      apply hc.1
      rw [pollClassified_def]
      apply classify_idle
      rw [← (poll_fields s inp).1]
      exact hz
  · intro hn
    rw [hcall, if_neg (fun hc => hc.2 hn)]
  · intro f
    have h1 := poll_handler s f inp
    refine ⟨h1, by rw [h1]; rfl, ?_⟩
    have e : pollEntry (setKeypressHandler s none) inp =
        setKeypressHandler (pollEntry s inp) none := rfl
    have hd : pollDebounced (setKeypressHandler s none) inp =
        (setKeypressHandler (pollDebounced s inp).1 none, (pollDebounced s inp).2) := by
      rw [pollDebounced_eq, pollDebounced_eq, e, sampleExtraKeys_handler, debounceLoop_handler]
    rw [pollClassified_def, pollClassified_def, hd, classify_handler]

/-- Claim C11 on the press of switch 0 in the example state: the handler is
called with 0x0101, and without a handler the same key status results. -/
theorem handler_packing_witness :
    (poll demoState (sample 1 0)).2 = some 0x0101 ∧
    (0x0101 : Nat) % 256 = (poll demoState (sample 1 0)).1.uiKeyStatus ∧
    (poll (setKeypressHandler demoState none) (sample 1 0)).2 = none ∧
    (poll (setKeypressHandler demoState none) (sample 1 0)).1.uiKeyStatus = 1 := by
  obtain ⟨_, hc⟩ := demo_press 0
  have hv : (poll demoState (sample 1 0)).2 = some 0x0101 := hc
  have hks : (poll demoState (sample 1 0)).1.uiKeyStatus = 1 := (demo_press_fields 0).1
  obtain ⟨a, _, _⟩ := handler_packing demoState (sample 1 0) (by decide)
  obtain ⟨_, b, _⟩ := handler_packing (setKeypressHandler demoState none) (sample 1 0) (by decide)
  obtain ⟨_, _, c⟩ := handler_packing demoState (sample 1 0) (by decide)
  refine ⟨hv, ((a (by decide)).2 0x0101 hv).2.2.1, b rfl, ?_⟩
  rw [(c none).2.1, hks]

/-! ### A second `init` -/

/-- The press of switch 0 polled right after `init` on any prior state `p`,
with a handler registered: the debounce loop ends with stable status 1 and a
key press registered. -/
theorem press_after_init (p : UIState) (t : Nat) :
    (poll (setKeypressHandler (init p) (some 1)) (sample 1 t)).1.uiKeyStatus = 1 ∧
    pollNewKeyPress (setKeypressHandler (init p) (some 1)) (sample 1 t) ≠ 0 ∧
    (pollDebounced (setKeypressHandler (init p) (some 1)) (sample 1 t)).1.uiKeyStatus = 1 := by
  have hk : (setKeypressHandler (init p) (some 1)).uiKeyStatus = 0 := rfl
  have hcnt : ∀ j, j < 6 → (setKeypressHandler (init p) (some 1)).uiDebounceCount j = 0 :=
    fun _ _ => rfl
  have hsm : pollSample (setKeypressHandler (init p) (some 1)) (sample 1 t) = 1 := by
    rw [pollSample_no_pins _ _ rfl rfl rfl]
    rfl
  generalize setKeypressHandler (init p) (some 1) = s2 at hk hcnt hsm
  have hks := poll_from_idle s2 (sample 1 t) 1 (by decide) hk hcnt (fun j _ => by rw [hsm])
  refine ⟨hks, ?_, by rw [← (poll_fields s2 (sample 1 t)).1]; exact hks⟩
  rw [pollNewKeyPress_ne_zero]
  exact ⟨0, by decide, hcnt 0 (by decide), by rw [hsm]; rfl, by rw [hk]; rfl⟩

/-- Claim C13 fails in the code: `init` zeroes `uiKeyStatus`,
`uiAutoRepeatTime`, `uiLongPress` and the debounce counters but leaves
`uiLastKeyStatus`, `uiLastKeypress` and `uiDoubleClickTime` as they were. When
`init` is called on the reachable state left by a press of switch 0 at clock
value 1000 and its release (`uiLastKeypress` 1, `uiDoubleClickTime` 1200), the
first press of switch 0 after it, polled at 1100, is reported as
`TUI_DOUBLE|1`; when `init` is called while switch 0 is still down
(`uiLastKeyStatus` 1), the first press after it is reported as `TUI_HOLD|1`. -/
theorem init_keeps_press_history :
    (∀ p : UIState,
      (init p).uiKeyStatus = 0 ∧ (init p).uiAutoRepeatTime = 0 ∧ (init p).uiLongPress = 0 ∧
      (∀ i, (init p).uiDebounceCount i = 0) ∧
      (init p).uiLastKeyStatus = p.uiLastKeyStatus ∧
      (init p).uiLastKeypress = p.uiLastKeypress ∧
      (init p).uiDoubleClickTime = p.uiDoubleClickTime) ∧
    (Reachable (pollState (poll demoState (sample 1 1000)).1 doubleClickGap) ∧
      (init (pollState (poll demoState (sample 1 1000)).1 doubleClickGap)).uiLastKeypress = 1 ∧
      (init (pollState (poll demoState (sample 1 1000)).1 doubleClickGap)).uiDoubleClickTime
        = 1200 ∧
      (poll (setKeypressHandler
        (init (pollState (poll demoState (sample 1 1000)).1 doubleClickGap)) (some 1))
        (sample 1 1100)).2 = some (TUI_DOUBLE ||| 1)) ∧
    (Reachable (poll demoState (sample 1 1000)).1 ∧
      (init (poll demoState (sample 1 1000)).1).uiLastKeyStatus = 1 ∧
      (poll (setKeypressHandler (init (poll demoState (sample 1 1000)).1) (some 1))
        (sample 1 1100)).2 = some (TUI_HOLD ||| 1)) := by
  obtain ⟨k1, k2, k3, k4, _, _, _, _⟩ := demo_press_fields 1000
  obtain ⟨_, gap, idle⟩ := demo_trace
  obtain ⟨m1, m2, _, m4⟩ := noNewPress_keeps doubleClickGap _ gap
  have hdct : (poll demoState (sample 1 1000)).1.uiDoubleClickTime = 1200 := by rw [k4]; rfl
  have hr1 : Reachable (poll demoState (sample 1 1000)).1 :=
    Reachable.poll _ _ demoState_reachable
  refine ⟨fun p => ⟨rfl, rfl, rfl, fun _ => rfl, rfl, rfl, rfl⟩, ⟨idle.1, ?_, ?_, ?_⟩,
    ⟨hr1, ?_, ?_⟩⟩
  · show (pollState (poll demoState (sample 1 1000)).1 doubleClickGap).uiLastKeypress = 1
    rw [m1, k3]
  · show (pollState (poll demoState (sample 1 1000)).1 doubleClickGap).uiDoubleClickTime = 1200
    rw [m2, hdct]
  · have hl : (pollState (poll demoState (sample 1 1000)).1 doubleClickGap).uiLastKeyStatus = 0 := by
      rw [m4 (by rw [k1, k2])]
      exact idle.2.2.2.2.2.1
    have hlk : (pollState (poll demoState (sample 1 1000)).1 doubleClickGap).uiLastKeypress = 1 := by
      rw [m1, k3]
    have hdc : (pollState (poll demoState (sample 1 1000)).1 doubleClickGap).uiDoubleClickTime
        = 1200 := by rw [m2, hdct]
    generalize pollState (poll demoState (sample 1 1000)).1 doubleClickGap = p at hl hlk hdc
    obtain ⟨a1, a2, _⟩ := press_after_init p 1100
    have e1 : (setKeypressHandler (init p) (some 1)).uiLastKeyStatus = 0 := hl
    have e2 : (setKeypressHandler (init p) (some 1)).uiLastKeypress = 1 := hlk
    have e3 : (setKeypressHandler (init p) (some 1)).uiDoubleClickTime = 1200 := hdc
    have e4 : (setKeypressHandler (init p) (some 1)).uiKeyStatus = 0 := rfl
    have e5 : (setKeypressHandler (init p) (some 1)).uiKeypressHandler = some 1 := rfl
    generalize setKeypressHandler (init p) (some 1) = s2 at a1 a2 e1 e2 e3 e4 e5
    obtain ⟨c1, _⟩ := poll_press s2 (sample 1 1100) (by rw [e1, e4]) a2
    rw [a1, e2, e3, if_pos ⟨rfl, by decide⟩] at c1
    rw [poll_call, c1, a1, e5, if_pos ⟨by decide, by simp⟩]
  · exact k2
  · generalize (poll demoState (sample 1 1000)).1 = p at k2
    obtain ⟨a1, _, a3⟩ := press_after_init p 1100
    have e1 : (setKeypressHandler (init p) (some 1)).uiLastKeyStatus = 1 := k2
    have e2 : (setKeypressHandler (init p) (some 1)).uiAutoRepeatTime = 0 := rfl
    have e3 : (setKeypressHandler (init p) (some 1)).uiLongPress = 0 := rfl
    have e5 : (setKeypressHandler (init p) (some 1)).uiKeypressHandler = some 1 := rfl
    generalize setKeypressHandler (init p) (some 1) = s2 at a1 a3 e1 e2 e3 e5
    have hfr := pollDebounced_frame s2 (sample 1 1100)
    have d2 : (pollDebounced s2 (sample 1 1100)).1.uiLastKeyStatus = 1 := by rw [hfr]; exact e1
    have d3 : (pollDebounced s2 (sample 1 1100)).1.uiAutoRepeatTime = 0 := by rw [hfr]; exact e2
    have d4 : (pollDebounced s2 (sample 1 1100)).1.uiLongPress = 0 := by rw [hfr]; exact e3
    obtain ⟨c1, _⟩ := classify_held (pollDebounced s2 (sample 1 1100)).1
      (pollDebounced s2 (sample 1 1100)).2 (toULong (sample 1 1100).milliseconds)
      (by rw [a3]; decide) (by rw [a3, d2])
    rw [← pollClassified_def, d3, d4, if_pos (by decide), if_neg (by decide)] at c1
    rw [poll_call, c1, a1, e5, if_pos ⟨by decide, by simp⟩]

/-! ### Deadlines and the 32-bit clock -/

/-- Switch 0 pressed in the example state at `t`, held for 20 more polls,
released and left up for 20 polls: no poll after the first registers a key
press, and the driver is back in the idle single-switch state. -/
theorem key0_trace (t a b c : Nat) :
    onlyKey0 (pollState (poll demoState (sample 1 t)).1 (List.replicate 20 (sample 1 a))) 1 0 ∧
    noNewPress (poll demoState (sample 1 t)).1 (releaseGap a b c) ∧
    onlyKey0 (pollState (poll demoState (sample 1 t)).1 (releaseGap a b c)) 0 0 := by
  obtain ⟨p, _⟩ := demo_press t
  obtain ⟨h1, n1⟩ := onlyKey0_wait 20 _ 1 UI_DEBOUNCE_MS a p
  have h1b : onlyKey0 (pollState (poll demoState (sample 1 t)).1
      (List.replicate 20 (sample 1 a))) 1 0 := h1
  obtain ⟨h2, n2⟩ := onlyKey0_poll _ 1 0 0 b h1b (by decide)
  have n2b : pollNewKeyPress (pollState (poll demoState (sample 1 t)).1
      (List.replicate 20 (sample 1 a))) (sample 0 b) = 0 := by
    by_contra hne
    have := (n2.mp hne).2.1
    cases this
  have h2b : onlyKey0 (poll (pollState (poll demoState (sample 1 t)).1
      (List.replicate 20 (sample 1 a))) (sample 0 b)).1 0 UI_DEBOUNCE_MS := h2
  obtain ⟨h3, n3⟩ := onlyKey0_wait 20 _ 0 UI_DEBOUNCE_MS c h2b
  refine ⟨h1b, ?_, ?_⟩
  · unfold releaseGap
    apply noNewPress_append _ _ _ n1
    apply noNewPress_append
    · rw [noNewPress_cons]
      exact ⟨n2b, trivial⟩
    · rw [pollState_cons, pollState_nil]
      exact n3
  · unfold releaseGap
    rw [pollState_append, pollState_append, pollState_cons, pollState_nil]
    exact h3

/-- The second press of switch 0 after `key0_trace`, polled at `t2`: the
classifier compares `t2` with the stored deadline. -/
theorem key0_second_press (t a b c t2 : Nat) :
    pollNewKeyPress (pollState (poll demoState (sample 1 t)).1 (releaseGap a b c))
      (sample 1 t2) ≠ 0 ∧
    (poll (pollState (poll demoState (sample 1 t)).1 (releaseGap a b c))
      (sample 1 t2)).1.uiKeyStatus = 1 ∧
    (poll (pollState (poll demoState (sample 1 t)).1 (releaseGap a b c)) (sample 1 t2)).2 =
      some ((if toULong t2 < toULong (toULong t + UI_DOUBLE_CLICK_TIME) then TUI_DOUBLE
        else TUI_PRESS) ||| 1) := by
  obtain ⟨k1, k2, k3, k4, _, _, k7, _⟩ := demo_press_fields t
  obtain ⟨_, gap, idle⟩ := key0_trace t a b c
  obtain ⟨m1, m2, m3, m4⟩ := noNewPress_keeps (releaseGap a b c) _ gap
  obtain ⟨q, r⟩ := onlyKey0_poll _ 0 0 1 t2 idle (by decide)
  have hnk := r.mpr ⟨rfl, rfl, rfl⟩
  have hks : (poll (pollState (poll demoState (sample 1 t)).1 (releaseGap a b c))
      (sample 1 t2)).1.uiKeyStatus = 1 := q.2.2.2.2.2.1
  obtain ⟨c1, _⟩ := poll_press _ (sample 1 t2) (m4 (by rw [k1, k2])) hnk
  rw [hks, m1, m2, k3, k4] at c1
  have e : toULong (sample 1 t2).milliseconds = toULong t2 := rfl
  rw [e] at c1
  simp only [eq_self_iff_true, true_and] at c1
  refine ⟨hnk, hks, ?_⟩
  rw [poll_call, c1, hks, m3, k7, if_pos ⟨by split_ifs <;> decide, by simp⟩]

/-- Claim C12, as the code does not have it. With switch 0 pressed in the
example state at clock value 2^32 - 100 (the sums t1 + 200 and t1 + 500
overflow to 100 and 400): the poll 50 ms later with the key still down calls the
handler with `TUI_HOLD|1`, and a second press 50 ms after the first, after a
release, is reported as `TUI_PRESS|1`. With the press at 2^32 - 300 and the
second press when the clock has wrapped to 100, 400 ms later, the second press
is reported as `TUI_DOUBLE|1`. -/
theorem deadlines_not_wrap_safe :
    (poll (poll demoState (sample 1 4294967196)).1 (sample 1 4294967246)).2 =
      some (TUI_HOLD ||| 1) ∧
    (poll (pollState (poll demoState (sample 1 4294967196)).1
      (releaseGap 4294967200 4294967220 4294967230)) (sample 1 4294967246)).2 =
      some (TUI_PRESS ||| 1) ∧
    (poll (pollState (poll demoState (sample 1 4294966996)).1
      (releaseGap 4294967000 4294967100 50)) (sample 1 100)).2 =
      some (TUI_DOUBLE ||| 1) := by
  refine ⟨?_, ?_, ?_⟩
  · obtain ⟨k1, k2, _, _, k5, k6, k7, k8⟩ := demo_press_fields 4294967196
    have hart : (poll demoState (sample 1 4294967196)).1.uiAutoRepeatTime = 400 := by
      rw [k5]; rfl
    obtain ⟨b1, _, b3, _, _⟩ := poll_held (poll demoState (sample 1 4294967196)).1
      (sample 1 4294967246) 1 (by decide) (by decide) k1 k2 (k8 _)
    have e : toULong (sample 1 4294967246).milliseconds = 4294967246 := rfl
    rw [hart, e, if_pos (by decide), k6, if_neg (by decide)] at b3
    rw [poll_call, b3, b1, k7, if_pos ⟨by decide, by simp⟩]
  · rw [(key0_second_press 4294967196 4294967200 4294967220 4294967230 4294967246).2.2]
    rfl
  · rw [(key0_second_press 4294966996 4294967000 4294967100 50 100).2.2]
    rfl

/-- Claim C12, amended: the classifier compares the clock with stored
deadlines. From a reachable state, when a poll at `t1` registers a key press
and ends with stable status `k`: (1) if the following polls register no key
press and the next poll that registers one, at `t2`, ends with status `k`
again, it classifies `TUI_DOUBLE` exactly when `t2 < (t1 + 200) mod 2^32` and
`TUI_PRESS` otherwise; (2) if the next poll, at `t2`, reads the same
combination `k`, it classifies `TUI_HOLD` exactly when
`(t1 + 500) mod 2^32 < t2` and nothing otherwise; (3) for clock values
`t1 ≤ t2 < 2^32` these tests agree with the elapsed time, `t2 - t1 < 200` and
`500 < t2 - t1`, when `t1 + 200 < 2^32`, respectively `t1 + 500 < 2^32`;
(4) and only then: when `t1 + 200` overflows 2^32 the first test fails although
`t2 - t1 < 200`, and when `t1 + 500` overflows the second test holds although
`t2 - t1 ≤ 500`, so each test agrees with the elapsed time if and only if its
sum does not overflow. -/
theorem deadlines_are_absolute (s : UIState) (hs : Reachable s) (inp1 inp2 : PollInput)
    (k : Nat) (hnk : pollNewKeyPress s inp1 ≠ 0) (hk : (poll s inp1).1.uiKeyStatus = k) :
    (∀ mids : List PollInput, noNewPress (poll s inp1).1 mids →
      pollNewKeyPress (pollState (poll s inp1).1 mids) inp2 ≠ 0 →
      (poll (pollState (poll s inp1).1 mids) inp2).1.uiKeyStatus = k →
      (pollClassified (pollState (poll s inp1).1 mids) inp2).2 =
        if toULong inp2.milliseconds < toULong (toULong inp1.milliseconds + 200) then TUI_DOUBLE
        else TUI_PRESS) ∧
    (pollSample (poll s inp1).1 inp2 = k →
      (pollClassified (poll s inp1).1 inp2).2 =
        if toULong (toULong inp1.milliseconds + 500) < toULong inp2.milliseconds then TUI_HOLD
        else 0) ∧
    (inp1.milliseconds ≤ inp2.milliseconds → inp2.milliseconds < 2 ^ 32 →
      (inp1.milliseconds + 200 < 2 ^ 32 →
        (toULong inp2.milliseconds < toULong (toULong inp1.milliseconds + 200) ↔
          inp2.milliseconds - inp1.milliseconds < 200)) ∧
      (inp1.milliseconds + 500 < 2 ^ 32 →
        (toULong (toULong inp1.milliseconds + 500) < toULong inp2.milliseconds ↔
          500 < inp2.milliseconds - inp1.milliseconds))) ∧
    (inp1.milliseconds ≤ inp2.milliseconds → inp2.milliseconds < 2 ^ 32 →
      (2 ^ 32 ≤ inp1.milliseconds + 200 →
        ¬ toULong inp2.milliseconds < toULong (toULong inp1.milliseconds + 200) ∧
        inp2.milliseconds - inp1.milliseconds < 200) ∧
      (2 ^ 32 ≤ inp1.milliseconds + 500 →
        toULong (toULong inp1.milliseconds + 500) < toULong inp2.milliseconds ∧
        ¬ 500 < inp2.milliseconds - inp1.milliseconds) ∧
      (((toULong inp2.milliseconds < toULong (toULong inp1.milliseconds + 200) ↔
          inp2.milliseconds - inp1.milliseconds < 200)) ↔ inp1.milliseconds + 200 < 2 ^ 32) ∧
      (((toULong (toULong inp1.milliseconds + 500) < toULong inp2.milliseconds ↔
          500 < inp2.milliseconds - inp1.milliseconds)) ↔
        inp1.milliseconds + 500 < 2 ^ 32)) := by
  obtain ⟨hlt, hlast, _⟩ := reachable_inv s hs
  obtain ⟨_, c2, c3, c4, c5, c6⟩ := poll_press s inp1 hlast hnk
  have pf1 := poll_fields s inp1
  have hklt : k < 256 := by rw [← hk]; exact poll_keyStatus_lt s inp1 hlt
  have agree200 : inp1.milliseconds ≤ inp2.milliseconds → inp2.milliseconds < 2 ^ 32 →
      inp1.milliseconds + 200 < 2 ^ 32 →
      (toULong inp2.milliseconds < toULong (toULong inp1.milliseconds + 200) ↔
        inp2.milliseconds - inp1.milliseconds < 200) := by
    intro h12 h2 h1
    simp only [toULong]
    constructor <;> intro h <;> omega
  have agree500 : inp1.milliseconds ≤ inp2.milliseconds → inp2.milliseconds < 2 ^ 32 →
      inp1.milliseconds + 500 < 2 ^ 32 →
      (toULong (toULong inp1.milliseconds + 500) < toULong inp2.milliseconds ↔
        500 < inp2.milliseconds - inp1.milliseconds) := by
    intro h12 h2 h1
    simp only [toULong]
    constructor <;> intro h <;> omega
  have over200 : inp1.milliseconds ≤ inp2.milliseconds → inp2.milliseconds < 2 ^ 32 →
      2 ^ 32 ≤ inp1.milliseconds + 200 →
      ¬ toULong inp2.milliseconds < toULong (toULong inp1.milliseconds + 200) ∧
      inp2.milliseconds - inp1.milliseconds < 200 := by
    intro h12 h2 h1
    simp only [toULong]
    constructor
    · omega
    · omega
  have over500 : inp1.milliseconds ≤ inp2.milliseconds → inp2.milliseconds < 2 ^ 32 →
      2 ^ 32 ≤ inp1.milliseconds + 500 →
      toULong (toULong inp1.milliseconds + 500) < toULong inp2.milliseconds ∧
      ¬ 500 < inp2.milliseconds - inp1.milliseconds := by
    intro h12 h2 h1
    simp only [toULong]
    constructor
    · omega
    · omega
  refine ⟨?_, ?_, ?_, ?_⟩
  · intro mids hmid hnew hsame
    obtain ⟨m1, m2, _, m4⟩ := noNewPress_keeps mids (poll s inp1).1 hmid
    obtain ⟨d1, _⟩ := poll_press (pollState (poll s inp1).1 mids) inp2 (m4 pf1.2.2.1) hnew
    rw [m1, m2, c2, c3, hsame, hk] at d1
    rw [d1]
    simp only [UI_DOUBLE_CLICK_TIME, true_and]
  · intro hraw
    obtain ⟨_, _, b3, _, _⟩ := poll_held (poll s inp1).1 inp2 k (by rw [← hk]; exact c6) hklt hk
      (by rw [pf1.2.2.1, hk]) hraw
    rw [b3, c4, c5]
    simp only [UI_AUTO_REPEAT_DELAY, ne_eq, not_true_eq_false, if_false]
  · intro h12 h2
    exact ⟨agree200 h12 h2, agree500 h12 h2⟩
  · intro h12 h2
    refine ⟨over200 h12 h2, over500 h12 h2, ?_, ?_⟩
    · constructor
      · intro hiff
        by_contra hov
        obtain ⟨o1, o2⟩ := over200 h12 h2 (by omega)
        exact o1 (hiff.mpr o2)
      · exact agree200 h12 h2
    · constructor
      · intro hiff
        by_contra hov
        obtain ⟨o1, o2⟩ := over500 h12 h2 (by omega)
        exact o2 (hiff.mp o1)
      · exact agree500 h12 h2

/-- Claim C12, amended, on the example trace: switch 0 pressed at clock value
1000; a second press at 1100 after a release classifies `TUI_DOUBLE`, and the
poll at 1600 with the key still down classifies `TUI_HOLD`. With the press at
2^32 - 100 the poll 50 ms later classifies `TUI_HOLD`, and the double-click test
fails at that clock value. -/
theorem deadlines_are_absolute_witness :
    (pollClassified (pollState (poll demoState (sample 1 1000)).1 doubleClickGap)
      (sample 1 1100)).2 = TUI_DOUBLE ∧
    (pollClassified (poll demoState (sample 1 1000)).1 (sample 1 1600)).2 = TUI_HOLD ∧
    (pollClassified (poll demoState (sample 1 4294967196)).1 (sample 1 4294967246)).2 =
      TUI_HOLD ∧
    ¬ toULong 4294967246 < toULong (toULong 4294967196 + 200) := by
  obtain ⟨k1, _, _, _, _, _, _, k8⟩ := demo_press_fields 1000
  obtain ⟨w1, _, _, _, _, _, _, w8⟩ := demo_press_fields 4294967196
  have hnk : ∀ t, pollNewKeyPress demoState (sample 1 t) ≠ 0 := fun t =>
    (onlyKey0_poll demoState 0 0 1 t demoState_onlyKey0 (by decide)).2.mpr ⟨rfl, rfl, rfl⟩
  obtain ⟨_, gap, idle⟩ := demo_trace
  obtain ⟨q, r⟩ := onlyKey0_poll _ 0 0 1 1100 idle (by decide)
  obtain ⟨a, _, _, _⟩ := deadlines_are_absolute demoState demoState_reachable (sample 1 1000)
    (sample 1 1100) 1 (hnk 1000) k1
  obtain ⟨_, b, _, _⟩ := deadlines_are_absolute demoState demoState_reachable (sample 1 1000)
    (sample 1 1600) 1 (hnk 1000) k1
  obtain ⟨_, c, _, d⟩ := deadlines_are_absolute demoState demoState_reachable
    (sample 1 4294967196) (sample 1 4294967246) 1 (hnk 4294967196) w1
  refine ⟨?_, ?_, ?_, ?_⟩
  · rw [a doubleClickGap gap (r.mpr ⟨rfl, rfl, rfl⟩) q.2.2.2.2.2.1]
    rfl
  · rw [b (k8 1600)]
    rfl
  · rw [c (w8 4294967246)]
    rfl
  · exact ((d (by decide) (by decide)).1 (by decide)).1

/-! ### A held key near the top of the clock range, and after an earlier press -/

end TinyUI
